import Mathlib

/-!
Verification of the EPUB codec of the ZenPub repository
(src/services/epubService.ts).

The TypeScript source is shallowly embedded as executable Lean
definitions.  External library capabilities (JSZip, marked, turndown,
DOMParser) are modelled by explicit pure functions; the models are
documented at each definition.  Strings are UTF-8 `String`s; the
scanners work on `List Char` (`String.data`) so that everything is
structurally recursive and kernel-evaluable.
-/

set_option maxRecDepth 20000

/-- The double-quote character (written via its code point to keep
character literals simple). -/
def quotC : Char := Char.ofNat 34

/-- The apostrophe character. -/
def aposC : Char := Char.ofNat 39

/-- Model of the JavaScript whitespace class used by `trim` and `\s`
(restricted to the four common whitespace characters that occur in this
code base). -/
def isWsC (c : Char) : Bool := c = ' ' || c = '\t' || c = '\n' || c = '\r'

/-- Drop whitespace from both ends of a character list.  Model of
JavaScript `String.prototype.trim`. -/
def trimChars (l : List Char) : List Char :=
  ((l.dropWhile isWsC).reverse.dropWhile isWsC).reverse

/-- String wrapper for `trimChars`: the model of `s.trim()`. -/
def jsTrim (s : String) : String := ⟨trimChars s.data⟩

/-- ASCII lower-casing of one character, the model of the
case-insensitive (`i`) regex flag for the ASCII range. -/
def lowerC (c : Char) : Char :=
  if 'A' ≤ c ∧ c ≤ 'Z' then Char.ofNat (c.toNat + 32) else c

/-- Case-insensitive prefix test on character lists. -/
def ciPrefix : List Char → List Char → Bool
  | [], _ => true
  | _ :: _, [] => false
  | p :: ps, c :: cs => lowerC p = lowerC c && ciPrefix ps cs

/-- Split a character list at every occurrence of the delimiter `d`;
the delimiters are dropped.  `acc` holds the current piece reversed.
Model of JavaScript `String.prototype.split` with a one-character
separator (e.g. `split(',')`, `split('/')`, `split('\n')`). -/
def splitCharAux (d : Char) : List Char → List Char → List (List Char)
  | [], acc => [acc.reverse]
  | c :: t, acc =>
    if c = d then acc.reverse :: splitCharAux d t []
    else splitCharAux d t (c :: acc)

/-- Split a string on a one-character separator (JS `split`). -/
def splitChar (d : Char) (s : String) : List (List Char) :=
  splitCharAux d s.data []

/-- Join a list of strings with a separator between consecutive
elements.  Model of JavaScript `Array.prototype.join`. -/
def joinSep (sep : String) : List String → String
  | [] => ""
  | [x] => x
  | x :: r => x ++ sep ++ joinSep sep r

/-- Concatenation of a list of strings. -/
def strJoin : List String → String
  | [] => ""
  | s :: r => s ++ strJoin r

/-- Decimal digits of a natural number, fuel-driven so that the kernel
can evaluate it.  Model of JavaScript number-to-string conversion for
the non-negative integers used as chapter indices. -/
def natStrAux : Nat → Nat → List Char
  | 0, _ => []
  | fuel + 1, n =>
    if n < 10 then [Char.ofNat (48 + n)]
    else natStrAux fuel (n / 10) ++ [Char.ofNat (48 + n % 10)]

/-- Decimal representation of a natural number (JS `${n}`). -/
def natStr (n : Nat) : String := ⟨natStrAux (n + 1) n⟩

/-- Evaluate a digit list back to a number (used to prove that `natStr`
is injective). -/
def digitsVal (l : List Char) : Nat :=
  l.foldl (fun a c => a * 10 + (c.toNat - 48)) 0

/-- Model of `String.prototype.padStart(2, '0')`. -/
def padStart2 (s : String) : String :=
  if s.data.length < 2 then "0" ++ s else s

/-- One step of the XML escaping table of `escapeXml`
(src/services/epubService.ts lines 11-20): the five special characters
become named entities, everything else is kept. -/
def escChar (c : Char) : List Char :=
  if c = '<' then ['&', 'l', 't', ';']
  else if c = '>' then ['&', 'g', 't', ';']
  else if c = '&' then ['&', 'a', 'm', 'p', ';']
  else if c = aposC then ['&', 'a', 'p', 'o', 's', ';']
  else if c = quotC then ['&', 'q', 'u', 'o', 't', ';']
  else [c]

/-- Model of `escapeXml` (src/services/epubService.ts lines 9-21).
A missing (`undefined`) value and the empty string are both falsy in
JavaScript, so both give `""`; otherwise every occurrence of the five
special characters is replaced by its named entity in one pass over the
string (the single-pass regex replace cannot double-escape). -/
def escapeXml (u : Option String) : String :=
  match u with
  | none => ""
  | some s => if s = "" then "" else ⟨(s.data.map escChar).flatten⟩

/-- Decode the five named XML entities in a character list, fuel-driven
(the fuel bounds the number of scanning steps, and the input length
suffices).  Model of the entity decoding a DOM parser performs when
`textContent` is read.  After a bare ampersand that starts no entity the
remainder is kept verbatim (such input never arises from the Writer,
whose text is always escaped). -/
def unescAux : Nat → List Char → List Char
  | 0, l => l
  | _ + 1, [] => []
  | fuel + 1, c :: t =>
    if c = '&' then
      if ['l', 't', ';'].isPrefixOf t then '<' :: unescAux fuel (t.drop 3)
      else if ['g', 't', ';'].isPrefixOf t then '>' :: unescAux fuel (t.drop 3)
      else if ['a', 'm', 'p', ';'].isPrefixOf t then '&' :: unescAux fuel (t.drop 4)
      else if ['a', 'p', 'o', 's', ';'].isPrefixOf t then aposC :: unescAux fuel (t.drop 5)
      else if ['q', 'u', 'o', 't', ';'].isPrefixOf t then quotC :: unescAux fuel (t.drop 5)
      else '&' :: t
    else c :: unescAux fuel t

/-- Entity decoding of a whole character list. -/
def unescChars (l : List Char) : List Char := unescAux l.length l

/-- Replace every occurrence of `pat` by `rep`, scanning left to right
and continuing after each replacement; fuel-driven (the fuel is the
input length, which suffices because each step consumes at least one
character).  Model of JavaScript `replace(/pat/g, rep)` for a literal
pattern, as used in `makeXhtmlCompatible`. -/
def replaceAllAux (pat rep : List Char) : Nat → List Char → List Char
  | 0, l => l
  | _ + 1, [] => []
  | fuel + 1, c :: t =>
    if pat ≠ [] ∧ pat.isPrefixOf (c :: t) then
      rep ++ replaceAllAux pat rep fuel ((c :: t).drop pat.length)
    else c :: replaceAllAux pat rep fuel t

/-- Model of the global regex replace `<img([^>]*[^/])>` → `<img$1 />`
of `makeXhtmlCompatible`: at each `<img`, if a `>` follows with at
least one character in between and the character just before the `>`
is not `/`, insert ` /` before the `>`; otherwise scanning continues
with the next character, exactly like the regex engine. -/
def fixImgAux : Nat → List Char → List Char
  | 0, l => l
  | _ + 1, [] => []
  | fuel + 1, c :: t =>
    if ['<', 'i', 'm', 'g'].isPrefixOf (c :: t) then
      let afterImg := t.drop 3
      let attrs := afterImg.takeWhile (· ≠ '>')
      let rest := (afterImg.dropWhile (· ≠ '>')).drop 1
      if attrs ≠ [] ∧ attrs.getLast? ≠ some '/' ∧
          (afterImg.dropWhile (· ≠ '>')) ≠ [] then
        '<' :: 'i' :: 'm' :: 'g' :: (attrs ++ ' ' :: '/' :: '>' :: fixImgAux fuel rest)
      else c :: fixImgAux fuel t
    else c :: fixImgAux fuel t

/-- Model of `makeXhtmlCompatible` (src/services/epubService.ts lines
25-30): `<hr>` and `<br>` become self-closing, and `<img ...>` tags not
already self-closed get ` /` inserted. -/
def makeXhtmlCompatible (html : String) : String :=
  let l1 := replaceAllAux "<hr>".data "<hr />".data html.data.length html.data
  let l2 := replaceAllAux "<br>".data "<br />".data l1.length l1
  ⟨fixImgAux l2.length l2⟩

/-! ## Model of the Markdown → HTML transcoder (the external `marked` library)

The codec treats the transcoder as an external capability (spec section 2).
The model covers the block constructs exercised by this code base:
ATX headings (`#` … `######` followed by whitespace), thematic breaks,
and paragraphs; inline text is escaped like `marked` escapes it.
-/

/-- Block-level structure of a Markdown document. -/
inductive MdBlock where
  | heading (level : Nat) (text : String)
  | para (text : String)
  | hr
deriving DecidableEq, Repr

/-- Recognize an ATX heading line: one to six `#` characters followed by
whitespace or the end of the line; the heading text is the trimmed
remainder. -/
def headingOfLine (l : List Char) : Option (Nat × List Char) :=
  let hashes := l.takeWhile (· = '#')
  let rest := l.dropWhile (· = '#')
  if 1 ≤ hashes.length ∧ hashes.length ≤ 6 ∧
      (rest = [] ∨ (rest.head?.map isWsC = some true)) then
    some (hashes.length, trimChars rest)
  else none

/-- Recognize a thematic-break line. -/
def isHrLine (l : List Char) : Bool :=
  trimChars l = ['-', '-', '-'] || trimChars l = ['*', '*', '*'] ||
    trimChars l = ['_', '_', '_']

/-- A blank line. -/
def isBlankLine (l : List Char) : Bool := l.all isWsC

/-- Close the currently accumulated paragraph (`acc` holds its lines in
reverse order). -/
def flushPara (acc : List (List Char)) : List MdBlock :=
  if acc = [] then []
  else [MdBlock.para (joinSep "\n" (acc.reverse.map (⟨·⟩)))]

/-- Group the lines of a Markdown document into blocks.  Blank lines end
a paragraph; headings and thematic breaks interrupt one, as in
CommonMark/`marked`. -/
def mdBlocksAux : List (List Char) → List (List Char) → List MdBlock
  | [], acc => flushPara acc
  | l :: rest, acc =>
    if isBlankLine l then flushPara acc ++ mdBlocksAux rest []
    else
      match headingOfLine l with
      | some (n, t) => flushPara acc ++ (MdBlock.heading n ⟨t⟩ :: mdBlocksAux rest [])
      | none =>
        if isHrLine l then flushPara acc ++ (MdBlock.hr :: mdBlocksAux rest [])
        else mdBlocksAux rest (l :: acc)

/-- Markdown block structure of a string. -/
def mdBlocks (md : String) : List MdBlock :=
  mdBlocksAux (splitChar '\n' md) []

/-- HTML rendering of one block, split into segments that each start
with `<` and contain no further `<` (escaped text cannot contain `<`);
the flattened segments are exactly the HTML `marked` produces for the
block. -/
def renderBlockSegs : MdBlock → List String
  | MdBlock.heading n t =>
      ["<h" ++ natStr n ++ ">" ++ escapeXml (some t), "</h" ++ natStr n ++ ">\n"]
  | MdBlock.para t => ["<p>" ++ escapeXml (some t), "</p>\n"]
  | MdBlock.hr => ["<hr>\n"]

/-- Model of `marked.parse`: the concatenated rendering of the block
structure. -/
def markedParse (md : String) : String :=
  strJoin (((mdBlocks md).map renderBlockSegs).flatten)

/-! ## Token model of XML/XHTML documents (the external DOMParser)

A well-formed document is tokenized at every `<`; each token is the
character list between a `<` and the next `<` (exclusive).  In a token,
the part before the first `>` is the tag (name plus attributes) and the
part after it is the text run following the element's opening or closing
tag.  Escaped character data contains no raw `<`, so for the documents
this codec reads and writes the tokens are exactly the markup items a
DOM parser sees.  `querySelector`-style lookups are modelled as searches
over this token list.
-/

/-- Tokens of a document: the pieces between consecutive `<`
characters, without the leading text that precedes the first `<`. -/
def tokensOf (s : String) : List (List Char) :=
  (splitChar '<' s).drop 1

/-- Tag part of a token: everything before the first `>`. -/
def tagStrOf (t : List Char) : List Char := t.takeWhile (· ≠ '>')

/-- Text run following the tag of a token. -/
def textAfter (t : List Char) : List Char :=
  (t.dropWhile (· ≠ '>')).drop 1

/-- Tag name: the tag part up to the first whitespace or `/`. -/
def tagNameOf (t : List Char) : List Char :=
  (tagStrOf t).takeWhile (fun c => !isWsC c && c ≠ '/' && c ≠ '>')

/-- The part of a name after its last `:` (the XML local name; CSS type
selectors on XML documents match by local name in any namespace). -/
def afterLastColon (l : List Char) : List Char :=
  (l.reverse.takeWhile (· ≠ ':')).reverse

/-- Local name of a token's element. -/
def localNameOf (t : List Char) : List Char := afterLastColon (tagNameOf t)

/-- Whether a token opens an element (as opposed to a closing tag, a
processing instruction or a DOCTYPE declaration). -/
def isElemTok (t : List Char) : Bool :=
  match t with
  | [] => false
  | c :: _ => c ≠ '/' && c ≠ '?' && c ≠ '!'

/-- Whether a token is the closing tag of an element with the given
local name. -/
def isCloseOf (name : List Char) (t : List Char) : Bool :=
  match t with
  | '/' :: r => afterLastColon (r.takeWhile (fun c => !isWsC c && c ≠ '>')) = name
  | _ => false

/-- Decoded text content of an element token (the element is assumed to
contain character data only, which holds for every element this codec
inspects). -/
def elemText (t : List Char) : String := ⟨unescChars (textAfter t)⟩

/-- First element token with the given local name — the model of
`doc.querySelector(name)` for a plain type selector. -/
def selectFirst (name : List Char) (toks : List (List Char)) : Option (List Char) :=
  toks.find? (fun t => isElemTok t && localNameOf t = name)

/-- All element tokens with the given local name — the model of
`doc.querySelectorAll(name)`. -/
def selectAll (name : List Char) (toks : List (List Char)) : List (List Char) :=
  toks.filter (fun t => isElemTok t && localNameOf t = name)

/-- Tokens strictly between the opening tag of the first element named
`name` and its closing tag — the slice of the document in which
`querySelectorAll (name ++ " > child")` searches. -/
def sectionToks (name : List Char) (toks : List (List Char)) : List (List Char) :=
  (((toks.dropWhile (fun t => !(isElemTok t && localNameOf t = name))).drop 1).takeWhile
    (fun t => !isCloseOf name t))

/-- Attribute key of the segment preceding a quoted value: the segment
must end with `=`, and the key is the identifier before it. -/
def attrKeyOf (pre : List Char) : List Char :=
  match pre.reverse with
  | '=' :: r => (r.takeWhile (fun c => !isWsC c)).reverse
  | _ => []

/-- Key/value pairs of the alternating segments produced by splitting a
tag on the double quote. -/
def attrPairsAux : List (List Char) → List (List Char × List Char)
  | pre :: val :: rest => (attrKeyOf pre, val) :: attrPairsAux rest
  | _ => []

/-- Model of `element.getAttribute(name)`: the value of the first
attribute with that name in the token's tag, if any. -/
def getAttrTok (name : List Char) (t : List Char) : Option (List Char) :=
  ((attrPairsAux (splitCharAux quotC (tagStrOf t) [])).find?
    (fun p => p.1 = name)).map (·.2)

/-! ## Data model -/

/-- Modelled from the spec: the book metadata record of section 3 (its
`types.ts` module is not part of the repository snapshot).  Optional
JavaScript string fields are modelled as plain strings with `""`
standing for an absent value; every consumer in `epubService.ts` tests
them only for truthiness, for which `""` and `undefined` agree.  The
cover image is a base64 data URL (`coverData`) plus its MIME type. -/
structure BookMetadata where
  title : String
  author : String
  description : String
  publisher : String
  language : String
  isbn : String
  tags : List String
  coverData : String
  coverMimeType : String
deriving DecidableEq, Repr

/-- Modelled from the spec: a chapter record of section 3.  The
editorial `memo` field is never read or written by the codec and is
omitted; `order` is the non-negative array position the Reader
assigns. -/
structure Chapter where
  id : String
  title : String
  content : String
  order : Nat
deriving DecidableEq, Repr

/-- One file entry of an archive, in insertion order: the model of the
JSZip container.  `storeFlag` records that the `STORE` (no compression)
option was passed for the entry; `base64Flag` that the content string
is a base64 payload to be decoded by the archive layer. -/
structure ZipEntry where
  name : String
  content : String
  storeFlag : Bool
  base64Flag : Bool
deriving DecidableEq, Repr

/-- Model of `zip.file(name)`: path-addressed lookup of an entry's
content. -/
def lookupFile (entries : List ZipEntry) (path : String) : Option String :=
  (entries.find? (fun e => e.name = path)).map (·.content)

/-- JavaScript `a || b` on strings (`""` is falsy). -/
def jsOr (s d : String) : String := if s = "" then d else s

/-! ## getContentWithTitle (src/services/epubService.ts lines 33-55) -/

/-- Match of the regex tail `\s*T` against a character list: skip any
amount of whitespace, then require a case-insensitive occurrence of the
(trimmed) title `pat`. -/
def hashWsTitle (pat : List Char) : List Char → Bool
  | [] => ciPrefix pat []
  | c :: t => ciPrefix pat (c :: t) || (isWsC c && hashWsTitle pat t)

/-- Model of `trimmedContent.match(new RegExp("^#\\s*" + title.trim(), "i"))`
for a title free of regex metacharacters: the trimmed content starts
with `#`, then optional whitespace, then the trimmed title,
case-insensitively. -/
def matchesHashTitle (title content : String) : Bool :=
  match (jsTrim content).data with
  | c :: rest => c = '#' && hashWsTitle (jsTrim title).data rest
  | [] => false

/-- Tail of the `^<h1[^>]*>\s*T\s*<\/h1>` match: optional whitespace,
then `</h1>`. -/
def closeAfterWs : List Char → Bool
  | [] => false
  | c :: t =>
    ciPrefix ['<', '/', 'h', '1', '>'] (c :: t) || (isWsC c && closeAfterWs t)

/-- Middle of the `h1` regex: the title, then optional whitespace, then
the closing tag. -/
def titleThenClose (pat : List Char) (l : List Char) : Bool :=
  ciPrefix pat l && closeAfterWs (l.drop pat.length)

/-- Whitespace skipping before the title of the `h1` regex. -/
def wsTitleClose (pat : List Char) : List Char → Bool
  | [] => titleThenClose pat []
  | c :: t => titleThenClose pat (c :: t) || (isWsC c && wsTitleClose pat t)

/-- Model of `trimmedContent.match(new RegExp("^<h1[^>]*>\\s*" + t +
"\\s*<\\/h1>", "i"))` for a metacharacter-free title: an `<h1 ...>`
opening tag, optional whitespace, the trimmed title, optional
whitespace, `</h1>`. -/
def matchesH1Title (title content : String) : Bool :=
  match (jsTrim content).data with
  | '<' :: 'h' :: '1' :: rest =>
    match rest.dropWhile (· ≠ '>') with
    | '>' :: after => wsTitleClose (jsTrim title).data after
    | _ => false
  | _ => false

/-- Model of `getContentWithTitle` (src/services/epubService.ts lines
33-55): if the trimmed content already matches `^#\s*title` the content
is returned unchanged; in HTML mode an initial `<h1>` matching the
title also keeps the content, and otherwise an `<h1>` heading is
prepended; in Markdown mode a `# title` line is prepended. -/
def getContentWithTitle (title content : String) (isHtml : Bool) : String :=
  if matchesHashTitle title content then content
  else if isHtml then
    if matchesH1Title title content then content
    else "<h1>" ++ escapeXml (some title) ++ "</h1>\n" ++ content
  else "# " ++ title ++ "\n\n" ++ content

/-! ## The Writer: exportToEpub (src/services/epubService.ts lines 72-241)

The asynchronous download step is a caller-side effect and is out of
scope; the model returns the archive's entry list in insertion order.
The two non-deterministic inputs — `crypto.randomUUID()` and
`new Date().toISOString().split('.')[0]` — become the parameters `uuid`
and `now`.  Generated XML documents are assembled from `Tok` values,
whose concatenated rendering is exactly the string the template
literals of the source produce; this keeps the token structure of the
documents available to the proofs.
-/

/-- One markup item of a generated document; `render` yields
`<inner>text`. -/
structure Tok where
  inner : String
  text : String
deriving DecidableEq, Repr

/-- The string a token renders to. -/
def Tok.render (t : Tok) : String := "<" ++ t.inner ++ ">" ++ t.text

/-- Concatenated rendering of a token list. -/
def renderToks (ts : List Tok) : String := strJoin (ts.map Tok.render)

/-- Append trailing text to the last token of a document (used where
the template places literal text after an optional block). -/
def addText (s : String) : List Tok → List Tok
  | [] => []
  | [t] => [{ inner := t.inner, text := t.text ++ s }]
  | t :: ts => t :: addText s ts

/-- Tag contents rendered as separate lines joined by `\n` (the
`array.map(...).join('\n')` idiom of the source): every token but the
last carries a trailing newline. -/
def joinToksNl : List String → List Tok
  | [] => []
  | [x] => [{ inner := x, text := "" }]
  | x :: r => { inner := x, text := "\n" } :: joinToksNl r

/-- The literal `META-INF/container.xml` document (lines 79-84). -/
def containerXmlStr : String :=
  "<?xml version=\"1.0\"?>\n<container version=\"1.0\" xmlns=\"urn:oasis:names:tc:opendocument:xmlns:container\">\n   <rootfiles>\n      <rootfile full-path=\"OEBPS/content.opf\" media-type=\"application/oebps-package+xml\"/>\n   </rootfiles>\n</container>"

/-- File extension derived from the cover MIME type:
`coverMimeType.split('/')[1] || 'jpg'` (line 96). -/
def coverExt (mime : String) : String :=
  match (splitChar '/' mime).drop 1 with
  | [] => "jpg"
  | s :: _ => if s = [] then "jpg" else ⟨s⟩

/-- Cover handling of lines 92-99: when both cover fields are truthy
and the data URL splits on `,` into exactly two parts, the cover file
name and the base64 payload. -/
def coverInfo (m : BookMetadata) : Option (String × String) :=
  if m.coverData ≠ "" && m.coverMimeType ≠ "" then
    match splitChar ',' m.coverData with
    | [_, b] => some ("cover." ++ coverExt m.coverMimeType, ⟨b⟩)
    | _ => none
  else none

/-- First element token of an HTML fragment: the model of assigning
`innerHTML` to a detached `div` and reading `firstElementChild`
(lines 114-116). -/
def firstElementTok (html : String) : Option (List Char) :=
  (tokensOf html).find? isElemTok

/-- The Writer's duplicate-title check (line 117): the fragment's first
element is an `H1` whose trimmed text content equals the trimmed
chapter title. -/
def chapterHasTitle (title htmlContent : String) : Bool :=
  match firstElementTok htmlContent with
  | some t => tagNameOf t = ['h', '1'] && jsTrim (elemText t) = jsTrim title
  | none => false

/-- Body markup of a chapter document (lines 106-119): the transcoded,
XHTML-normalized content, with an `<h1>` holding the escaped chapter
title prepended unless the content already starts with a matching
`H1`. -/
def chapterBody (title content : String) : String :=
  let htmlContent := makeXhtmlCompatible (markedParse content)
  if chapterHasTitle title htmlContent then htmlContent
  else "<h1>" ++ escapeXml (some title) ++ "</h1>\n" ++ htmlContent

/-- Head tokens of the XHTML shell of a chapter (lines 124-131). -/
def chapXhtmlPre (title : String) : List Tok :=
  [{ inner := "?xml version=\"1.0\" encoding=\"UTF-8\"?", text := "\n" },
   { inner := "!DOCTYPE html PUBLIC \"-//W3C//DTD XHTML 1.1//EN\" \"http://www.w3.org/TR/xhtml11/DTD/xhtml11.dtd\"", text := "\n" },
   { inner := "html xmlns=\"http://www.w3.org/1999/xhtml\" xml:lang=\"zh-CN\"", text := "\n" },
   { inner := "head", text := "\n    " },
   { inner := "title", text := escapeXml (some title) },
   { inner := "/title", text := "\n    " },
   { inner := "link rel=\"stylesheet\" type=\"text/css\" href=\"style.css\" /", text := "\n" },
   { inner := "/head", text := "\n" },
   { inner := "body", text := "\n    " }]

/-- A complete chapter document (lines 124-134). -/
def chapterXhtml (c : Chapter) : String :=
  renderToks (chapXhtmlPre c.title) ++ chapterBody c.title c.content ++
    "\n</body>\n</html>"

/-- The shared stylesheet literal (lines 141-168). -/
def styleCss : String :=
  "\n    @font-face \x7b\n      font-family: \"Source Han Serif SC\";\n      src: local(\"Source Han Serif SC\"), local(\"Songti SC\"), local(\"SimSun\");\n    \x7d\n    body \x7b \n      font-family: \"Source Han Serif SC\", \"Songti SC\", \"SimSun\", serif; \n      line-height: 1.8; \n      margin: 0;\n      padding: 1em;\n      text-align: justify;\n      color: #333;\n      background-color: #fff;\n    \x7d\n    h1, h2, h3, h4, h5, h6 \x7b \n      font-family: \"PingFang SC\", \"Helvetica Neue\", \"Microsoft YaHei\", sans-serif; \n      font-weight: bold; \n      color: #1a1a1a; \n      margin-top: 1.5em;\n      margin-bottom: 0.8em;\n      line-height: 1.4;\n    \x7d\n    h1 \x7b font-size: 1.6em; text-align: center; margin-bottom: 1.5em; border-bottom: 1px solid #eee; padding-bottom: 0.5em; \x7d\n    p \x7b margin-bottom: 1em; text-indent: 2em; \x7d\n    code \x7b font-family: monospace; background: #f5f5f7; padding: 2px 4px; border-radius: 3px; font-size: 0.9em; \x7d\n    img \x7b max-width: 100%; height: auto; display: block; margin: 1em auto; \x7d\n    hr \x7b border: 0; border-top: 1px solid #eee; margin: 2em 0; \x7d\n  "

/-- Manifest item tag for the chapter at (0-based) position `i`
(line 183). -/
def chapItemInner (i : Nat) : String :=
  "item id=\"chap" ++ natStr (i + 1) ++ "\" href=\"chapter_" ++ natStr (i + 1) ++
    ".xhtml\" media-type=\"application/xhtml+xml\" /"

/-- Spine itemref tag for position `i` (line 185). -/
def spineItemInner (i : Nat) : String :=
  "itemref idref=\"chap" ++ natStr (i + 1) ++ "\" /"

/-- Manifest item tags of all chapters, in order. -/
def chapItemInners (i : Nat) : List Chapter → List String
  | [] => []
  | _ :: r => chapItemInner i :: chapItemInners (i + 1) r

/-- Spine itemref tags of all chapters, in order. -/
def spineItemInners (i : Nat) : List Chapter → List String
  | [] => []
  | _ :: r => spineItemInner i :: spineItemInners (i + 1) r

/-- Manifest tokens (lines 171-183): stylesheet, NCX, the optional
cover item with the EPUB 3 `cover-image` property, then one item per
chapter. -/
def manifestToks (m : BookMetadata) (chapters : List Chapter) : List Tok :=
  [{ inner := "item id=\"style\" href=\"style.css\" media-type=\"text/css\"/", text := "\n" },
   { inner := "item id=\"ncx\" href=\"toc.ncx\" media-type=\"application/x-dtbncx+xml\"/", text := "\n" }]
  ++ (match coverInfo m with
      | some (fn, _) =>
        [{ inner := "item id=\"cover-image\" href=\"images/" ++ fn ++ "\" media-type=\"" ++
            m.coverMimeType ++ "\" properties=\"cover-image\" /", text := "\n" }]
      | none => [])
  ++ joinToksNl (chapItemInners 0 chapters)

/-- Optional ISBN identifier tokens (line 187). -/
def isbnToks (m : BookMetadata) : List Tok :=
  if m.isbn ≠ "" then
    [{ inner := "dc:identifier id=\"isbn\"", text := "urn:isbn:" ++ escapeXml (some m.isbn) },
     { inner := "/dc:identifier", text := "" }]
  else []

/-- Subject tokens: one `<dc:subject>` element per tag, consecutive
elements separated by a newline (the `join('\n')` of line 188). -/
def subjToks : List String → List Tok
  | [] => []
  | [t] =>
    [{ inner := "dc:subject", text := escapeXml (some t) },
     { inner := "/dc:subject", text := "" }]
  | t :: r =>
    { inner := "dc:subject", text := escapeXml (some t) } ::
      { inner := "/dc:subject", text := "\n" } :: subjToks r

/-- Optional subject block (line 188): empty when there are no tags. -/
def tagsToks (m : BookMetadata) : List Tok :=
  if m.tags ≠ [] then subjToks m.tags else []

/-- Optional EPUB 2 compatibility cover meta (line 180). -/
def coverMetaToks (m : BookMetadata) : List Tok :=
  match coverInfo m with
  | some _ => [{ inner := "meta name=\"cover\" content=\"cover-image\" /", text := "" }]
  | none => []

/-- The OPF package document (lines 191-211) as a token list whose
rendering is the source's template literal with `manifestItems`,
`spineItems` and the optional metadata blocks interpolated. -/
def opfToks (m : BookMetadata) (chapters : List Chapter) (uuid now : String) : List Tok :=
  let base : List Tok :=
    [{ inner := "?xml version=\"1.0\" encoding=\"UTF-8\"?", text := "\n" },
     { inner := "package xmlns=\"http://www.idpf.org/2007/opf\" unique-identifier=\"BookId\" version=\"3.0\"", text := "\n    " },
     { inner := "metadata xmlns:dc=\"http://purl.org/dc/elements/1.1/\" xmlns:opf=\"http://www.idpf.org/2007/opf\"", text := "\n        " },
     { inner := "dc:title", text := escapeXml (some m.title) },
     { inner := "/dc:title", text := "\n        " },
     { inner := "dc:creator opf:role=\"aut\"", text := escapeXml (some m.author) },
     { inner := "/dc:creator", text := "\n        " },
     { inner := "dc:publisher", text := escapeXml (some (jsOr m.publisher "ZenPub")) },
     { inner := "/dc:publisher", text := "\n        " },
     { inner := "dc:description", text := escapeXml (some m.description) },
     { inner := "/dc:description", text := "\n        " },
     { inner := "dc:language", text := "zh-CN" },
     { inner := "/dc:language", text := "\n        " },
     { inner := "dc:identifier id=\"BookId\"", text := "urn:uuid:" ++ uuid },
     { inner := "/dc:identifier", text := "\n        " },
     { inner := "meta property=\"dcterms:modified\"", text := now ++ "Z" },
     { inner := "/meta", text := "\n        " }]
  addText "\n    "
    (addText "\n        "
      (addText "\n        " (base ++ isbnToks m) ++ tagsToks m) ++ coverMetaToks m)
  ++ [{ inner := "/metadata", text := "\n    " },
      { inner := "manifest", text := "\n        " }]
  ++ addText "\n    " (manifestToks m chapters)
  ++ [{ inner := "/manifest", text := "\n    " },
      { inner := "spine toc=\"ncx\"", text := "\n        " }]
  ++ addText "\n    " (joinToksNl (spineItemInners 0 chapters))
  ++ [{ inner := "/spine", text := "\n" },
      { inner := "/package", text := "" }]

/-- The rendered OPF document string. -/
def contentOpf (m : BookMetadata) (chapters : List Chapter) (uuid now : String) : String :=
  renderToks (opfToks m chapters uuid now)

/-- One `navPoint` of the NCX document (lines 216-220). -/
def navPointStr (i : Nat) (title : String) : String :=
  "\n    <navPoint id=\"navPoint-" ++ natStr (i + 1) ++ "\" playOrder=\"" ++ natStr (i + 1) ++
    "\">\n        <navLabel><text>" ++ escapeXml (some title) ++
    "</text></navLabel>\n        <content src=\"chapter_" ++ natStr (i + 1) ++
    ".xhtml\"/>\n    </navPoint>"

/-- All navPoints of the NCX, joined by newlines. -/
def navPointsStrs (i : Nat) : List Chapter → List String
  | [] => []
  | c :: r => navPointStr i c.title :: navPointsStrs (i + 1) r

/-- The `toc.ncx` document (lines 222-235). -/
def tocNcx (m : BookMetadata) (chapters : List Chapter) : String :=
  "<?xml version=\"1.0\" encoding=\"UTF-8\"?>\n<!DOCTYPE ncx PUBLIC \"-//NISO//DTD NCX 2005-1//EN\" \"http://www.daisy.org/z3986/2005/ncx-2005-1.dtd\">\n<ncx xmlns=\"http://www.daisy.org/z3986/2005/ncx/\" version=\"2005-1\">\n    <head>\n        <meta name=\"dtb:uid\" content=\"urn:uuid:12345\"/>\n        <meta name=\"dtb:depth\" content=\"1\"/>\n        <meta name=\"dtb:totalPageCount\" content=\"0\"/>\n        <meta name=\"dtb:maxPageNumber\" content=\"0\"/>\n    </head>\n    <docTitle><text>" ++
    escapeXml (some m.title) ++ "</text></docTitle>\n    <navMap>\n        " ++
    joinSep "\n" (navPointsStrs 0 chapters) ++ "\n    </navMap>\n</ncx>"

/-- Chapter file entries, in array order (lines 105-138). -/
def chapterEntries (i : Nat) : List Chapter → List ZipEntry
  | [] => []
  | c :: r =>
    { name := "OEBPS/chapter_" ++ natStr (i + 1) ++ ".xhtml",
      content := chapterXhtml c, storeFlag := false, base64Flag := false } ::
      chapterEntries (i + 1) r

/-- Model of `exportToEpub` (lines 72-241): the archive entry list, in
insertion order — `mimetype` (stored uncompressed) first, then the OCF
container descriptor, the optional cover image, the chapter documents,
the stylesheet, the OPF package document and the NCX navigation
document. -/
def exportToEpub (bookMeta : BookMetadata) (chapters : List Chapter) (uuid now : String) : List ZipEntry :=
  [{ name := "mimetype", content := "application/epub+zip", storeFlag := true, base64Flag := false },
   { name := "META-INF/container.xml", content := containerXmlStr, storeFlag := false, base64Flag := false }]
  ++ (match coverInfo bookMeta with
      | some (fn, b64) =>
        [{ name := "OEBPS/images/" ++ fn, content := b64, storeFlag := false, base64Flag := true }]
      | none => [])
  ++ chapterEntries 0 chapters
  ++ [{ name := "OEBPS/style.css", content := styleCss, storeFlag := false, base64Flag := false },
      { name := "OEBPS/content.opf", content := contentOpf bookMeta chapters uuid now, storeFlag := false, base64Flag := false },
      { name := "OEBPS/toc.ncx", content := tocNcx bookMeta chapters, storeFlag := false, base64Flag := false }]

/-! ## exportToMarkdown (src/services/epubService.ts lines 243-263) -/

/-- Filename sanitization `replace(/[^a-z0-9一-龥]/gi, '_')`:
ASCII letters, digits and CJK ideographs survive, everything else
becomes `_`. -/
def sanitizeChar (c : Char) : Char :=
  if ('a' ≤ c ∧ c ≤ 'z') ∨ ('A' ≤ c ∧ c ≤ 'Z') ∨ ('0' ≤ c ∧ c ≤ '9') ∨
      (0x4e00 ≤ c.toNat ∧ c.toNat ≤ 0x9fa5) then c
  else '_'

/-- Sanitize a whole name. -/
def sanitizeName (s : String) : String := ⟨s.data.map sanitizeChar⟩

/-- JSON string escaping for the metadata side-file. -/
def jsonEscChar (c : Char) : List Char :=
  if c = quotC then ['\\', quotC]
  else if c = '\\' then ['\\', '\\']
  else if c = '\n' then ['\\', 'n']
  else if c = '\t' then ['\\', 't']
  else if c = '\r' then ['\\', 'r']
  else [c]

/-- A JSON string literal. -/
def jsonStr (s : String) : String :=
  "\"" ++ String.mk ((s.data.map jsonEscChar).flatten) ++ "\""

/-- A JSON array of strings at the 2-space indentation the source asks
of `JSON.stringify(bookMeta, null, 2)`. -/
def jsonTags : List String → String
  | [] => "[]"
  | ts => "[\n    " ++ joinSep ",\n    " (ts.map jsonStr) ++ "\n  ]"

/-- Modelled from the spec: `JSON.stringify(bookMeta, null, 2)`
(line 246).  The field order follows the metadata record of spec
section 3 (its `types.ts` declaration is not in the repository
snapshot). -/
def metadataJson (m : BookMetadata) : String :=
  "\x7b\n  \"title\": " ++ jsonStr m.title ++ ",\n  \"author\": " ++ jsonStr m.author ++
    ",\n  \"description\": " ++ jsonStr m.description ++ ",\n  \"publisher\": " ++
    jsonStr m.publisher ++ ",\n  \"language\": " ++ jsonStr m.language ++
    ",\n  \"isbn\": " ++ jsonStr m.isbn ++ ",\n  \"tags\": " ++ jsonTags m.tags ++
    ",\n  \"coverData\": " ++ jsonStr m.coverData ++ ",\n  \"coverMimeType\": " ++
    jsonStr m.coverMimeType ++ "\n\x7d"

/-- Per-chapter Markdown files (lines 250-257): zero-padded 1-based
sequence number, sanitized title, and the deduplicated content. -/
def mdChapterEntries (i : Nat) : List Chapter → List ZipEntry
  | [] => []
  | c :: r =>
    { name := "chapter_" ++ padStart2 (natStr (i + 1)) ++ "_" ++ sanitizeName c.title ++ ".md",
      content := getContentWithTitle c.title c.content false,
      storeFlag := false, base64Flag := false } :: mdChapterEntries (i + 1) r

/-- The concatenation file (lines 248-259). -/
def combinedMd (m : BookMetadata) (chapters : List Chapter) : String :=
  "# " ++ m.title ++ "\n\nAuthor: " ++ m.author ++ "\n\n" ++ m.description ++
    "\n\n---\n\n" ++
    strJoin (chapters.map
      (fun c => getContentWithTitle c.title c.content false ++ "\n\n---\n\n"))

/-- Model of `exportToMarkdown` (lines 243-263): metadata side-file,
one Markdown file per chapter, and the concatenation file. -/
def exportToMarkdown (bookMeta : BookMetadata) (chapters : List Chapter) : List ZipEntry :=
  { name := "metadata.json", content := metadataJson bookMeta,
    storeFlag := false, base64Flag := false } ::
    (mdChapterEntries 0 chapters ++
      [{ name := "full_book.md", content := combinedMd bookMeta chapters,
         storeFlag := false, base64Flag := false }])

/-! ## Model of the HTML → Markdown transcoder (the external `turndown` library)

Configured with `headingStyle: 'atx'` and `codeBlockStyle: 'fenced'`
(lines 360-363).  The model covers the block elements the Writer emits:
headings, paragraphs and horizontal rules; other tokens (closing tags,
whitespace-only text runs) contribute nothing. -/

/-- Markdown pieces of a token list. -/
def turndownBlocks : List (List Char) → List String
  | [] => []
  | t :: rest =>
    if isElemTok t then
      let n := localNameOf t
      if n = ['h', '1'] then ("# " ++ jsTrim (elemText t)) :: turndownBlocks rest
      else if n = ['h', '2'] then ("## " ++ jsTrim (elemText t)) :: turndownBlocks rest
      else if n = ['h', '3'] then ("### " ++ jsTrim (elemText t)) :: turndownBlocks rest
      else if n = ['h', '4'] then ("#### " ++ jsTrim (elemText t)) :: turndownBlocks rest
      else if n = ['h', '5'] then ("##### " ++ jsTrim (elemText t)) :: turndownBlocks rest
      else if n = ['h', '6'] then ("###### " ++ jsTrim (elemText t)) :: turndownBlocks rest
      else if n = ['p'] then jsTrim (elemText t) :: turndownBlocks rest
      else if n = ['h', 'r'] then "* * *" :: turndownBlocks rest
      else turndownBlocks rest
    else turndownBlocks rest

/-- Model of `turndownService.turndown` on a tokenized fragment: the
blocks joined by blank lines. -/
def turndownToks (toks : List (List Char)) : String :=
  joinSep "\n\n" (turndownBlocks toks)

/-! ## The Reader: importEpub (src/services/epubService.ts lines 319-400)

The freshly generated `crypto.randomUUID()` chapter identifiers become
the parameter `freshId : Nat → String` (spine position ↦ identifier).
-/

/-- Model of parsing `container.xml` and reading
`querySelector("rootfile")?.getAttribute("full-path")`
(lines 326-329). -/
def findRootfilePath (containerXml : String) : Option String :=
  ((tokensOf containerXml).find?
    (fun t => isElemTok t && localNameOf t = ['r', 'o', 'o', 't', 'f', 'i', 'l', 'e'])).bind
    (fun t => (getAttrTok "full-path".data t).map (⟨·⟩))

/-- Metadata extraction from the OPF tokens (lines 337-345): each field
falls back to its default when the element is missing or its text is
empty (JavaScript `||`). -/
def textOr (o : Option String) (d : String) : String :=
  match o with
  | some s => if s = "" then d else s
  | none => d

/-- The metadata record the Reader assembles (lines 337-345). -/
def readMetadata (opfToks : List (List Char)) : BookMetadata :=
  { title := textOr ((selectFirst "title".data opfToks).map elemText) "Untitled",
    author := textOr ((selectFirst "creator".data opfToks).map elemText) "Unknown",
    description := textOr ((selectFirst "description".data opfToks).map elemText) "",
    publisher := textOr ((selectFirst "publisher".data opfToks).map elemText) "",
    language := textOr ((selectFirst "language".data opfToks).map elemText) "zh-CN",
    isbn := textOr ((selectFirst "identifier".data opfToks).map elemText) "",
    tags := ((selectAll "subject".data opfToks).map elemText).filter (· ≠ ""),
    coverData := "", coverMimeType := "" }

/-- Manifest map construction (lines 347-352): `manifest > item`
elements with truthy `id` and `href`, in document order; a duplicated
id overwrites (JavaScript object assignment), which `mapLookup` models
by searching from the end. -/
def manifestPairs (opfToks : List (List Char)) : List (String × String) :=
  ((sectionToks "manifest".data opfToks).filter
    (fun t => isElemTok t && localNameOf t = ['i', 't', 'e', 'm'])).filterMap
    (fun t =>
      match getAttrTok "id".data t, getAttrTok "href".data t with
      | some i, some h => if i ≠ [] && h ≠ [] then some (⟨i⟩, ⟨h⟩) else none
      | _, _ => none)

/-- Lookup in the manifest map, last write wins. -/
def mapLookup (m : List (String × String)) (k : String) : Option String :=
  (m.reverse.find? (fun p => p.1 = k)).map (·.2)

/-- Spine idref list (lines 354-358): `spine > itemref` elements with a
truthy `idref`, in document order. -/
def spineIdrefs (opfToks : List (List Char)) : List String :=
  ((sectionToks "spine".data opfToks).filter
    (fun t => isElemTok t && localNameOf t = "itemref".data)).filterMap
    (fun t =>
      match getAttrTok "idref".data t with
      | some r => if r ≠ [] then some (⟨r⟩ : String) else none
      | none => none)

/-- An `h1` or `h2` element token — the model of
`doc.querySelector("h1, h2")` (line 381). -/
def isH12Tok (t : List Char) : Bool :=
  isElemTok t && (localNameOf t = ['h', '1'] || localNameOf t = ['h', '2'])

/-- Model of `heading.remove()` (line 385) on a tokenized body: the
first `h1`/`h2` opening token disappears together with its closing
token (the writer's headings contain character data only; the text
run trailing the closing tag is whitespace between blocks and carries
no Markdown content). -/
def removeFirstH12 (toks : List (List Char)) : List (List Char) :=
  let pre := toks.takeWhile (fun t => !isH12Tok t)
  match toks.dropWhile (fun t => !isH12Tok t) with
  | [] => toks
  | h :: rest =>
    match rest with
    | c :: r2 => if isCloseOf (localNameOf h) c then pre ++ r2 else pre ++ rest
    | [] => pre

/-- Per-chapter processing of the Reader (lines 377-395): extract the
title from the first `h1`/`h2` (synthesizing `Chapter <i+1>` when there
is none or its text is empty), remove that heading again when its
trimmed text equals the trimmed title, and transcode the body back to
Markdown. -/
def processChapterDoc (i : Nat) (cid : String) (doc : String) : Chapter :=
  let toks := tokensOf doc
  let heading := toks.find? isH12Tok
  let title :=
    match heading with
    | some h => if elemText h = "" then "Chapter " ++ natStr (i + 1) else elemText h
    | none => "Chapter " ++ natStr (i + 1)
  let bodyToks := sectionToks "body".data toks
  let bodyToks2 :=
    match heading with
    | some h =>
      if elemText h ≠ "" ∧ jsTrim title = jsTrim (elemText h) then removeFirstH12 bodyToks
      else bodyToks
    | none => bodyToks
  { id := cid, title := title, content := turndownToks bodyToks2, order := i }

/-- The spine-driven chapter loop (lines 369-397): an idref without a
manifest entry is skipped, as is a resolved path missing from the
archive; the spine index `i` keeps counting across skips. -/
def buildChaptersAux (entries : List ZipEntry) (opfDir : String)
    (manifest : List (String × String)) (freshId : Nat → String) :
    Nat → List String → List Chapter
  | _, [] => []
  | i, idref :: rest =>
    match mapLookup manifest idref with
    | none => buildChaptersAux entries opfDir manifest freshId (i + 1) rest
    | some relativeHref =>
      if relativeHref = "" then buildChaptersAux entries opfDir manifest freshId (i + 1) rest
      else
        let fullPath := if opfDir = "" then relativeHref else opfDir ++ "/" ++ relativeHref
        match lookupFile entries fullPath with
        | none => buildChaptersAux entries opfDir manifest freshId (i + 1) rest
        | some htmlContent =>
          processChapterDoc i (freshId i) htmlContent ::
            buildChaptersAux entries opfDir manifest freshId (i + 1) rest

/-- Base directory of the OPF path:
`opfPath.split('/').slice(0, -1).join('/')` (line 365). -/
def opfDirOf (opfPath : String) : String :=
  joinSep "/" (((splitChar '/' opfPath).dropLast).map (⟨·⟩))

/-- Model of `importEpub` (lines 319-400).  The three `throw new Error`
sites become the three error branches; every other input yields a
metadata record and a chapter list. -/
def importEpub (entries : List ZipEntry) (freshId : Nat → String) :
    Except String (BookMetadata × List Chapter) :=
  match lookupFile entries "META-INF/container.xml" with
  | none => Except.error "Invalid EPUB: container.xml missing"
  | some containerXml =>
    match findRootfilePath containerXml with
    | none => Except.error "Invalid EPUB: OPF path not found"
    | some opfPath =>
      if opfPath = "" then Except.error "Invalid EPUB: OPF path not found"
      else
        match lookupFile entries opfPath with
        | none => Except.error "Invalid EPUB: OPF file missing"
        | some opfXml =>
          let toks := tokensOf opfXml
          Except.ok (readMetadata toks,
            buildChaptersAux entries (opfDirOf opfPath) (manifestPairs toks) freshId 0
              (spineIdrefs toks))

/-! ## Specification-side predicates used by the claim statements -/

/-- Every `&` in the list begins one of the five named entities: the
"no literal unescaped ampersand" property of escaped text. -/
def ampOkAux : List Char → Bool
  | [] => true
  | c :: t =>
    (if c = '&' then
      (['l', 't', ';'].isPrefixOf t || ['g', 't', ';'].isPrefixOf t ||
        ['a', 'm', 'p', ';'].isPrefixOf t || ['a', 'p', 'o', 's', ';'].isPrefixOf t ||
        ['q', 'u', 'o', 't', ';'].isPrefixOf t)
    else true) && ampOkAux t

/-- The trimmed content begins with `#`, then any amount of whitespace,
then the trimmed title (case-insensitively): the semantic reading of
the `^#\s*<title>` test of `getContentWithTitle`. -/
def HashTitlePrefix (title content : String) : Prop :=
  ∃ ws rest, (jsTrim content).data = '#' :: (ws ++ rest) ∧
    (∀ c ∈ ws, isWsC c) ∧ ciPrefix (jsTrim title).data rest = true

/-- XHTML-normalized rendering of one Markdown block: like
`renderBlockSegs` but with the thematic break in the self-closed form
`makeXhtmlCompatible` produces. -/
def renderBlockSegsX : MdBlock → List String
  | MdBlock.heading n t =>
      ["<h" ++ natStr n ++ ">" ++ escapeXml (some t), "</h" ++ natStr n ++ ">\n"]
  | MdBlock.para t => ["<p>" ++ escapeXml (some t), "</p>\n"]
  | MdBlock.hr => ["<hr />\n"]

/-- Length-fueled global replacement (the form used inside
`makeXhtmlCompatible`). -/
def replaceAllN (pat rep l : List Char) : List Char :=
  replaceAllAux pat rep l.length l

/-- Length-fueled `img` fixing (the form used inside
`makeXhtmlCompatible`). -/
def fixImgN (l : List Char) : List Char := fixImgAux l.length l

/-- Per-segment effect of one global replacement: a segment that starts
with the pattern gets it replaced once, any other segment is kept. -/
def replaceSeg (pat rep : List Char) (s : String) : String :=
  if pat.isPrefixOf s.data then ⟨rep ++ s.data.drop pat.length⟩ else s

/-- The fixed head tokens of the OPF metadata section (lines 193-204),
named for reuse in the reader-side lemmas. -/
def opfBaseToks (m : BookMetadata) (uuid now : String) : List Tok :=
  [{ inner := "?xml version=\"1.0\" encoding=\"UTF-8\"?", text := "\n" },
   { inner := "package xmlns=\"http://www.idpf.org/2007/opf\" unique-identifier=\"BookId\" version=\"3.0\"", text := "\n    " },
   { inner := "metadata xmlns:dc=\"http://purl.org/dc/elements/1.1/\" xmlns:opf=\"http://www.idpf.org/2007/opf\"", text := "\n        " },
   { inner := "dc:title", text := escapeXml (some m.title) },
   { inner := "/dc:title", text := "\n        " },
   { inner := "dc:creator opf:role=\"aut\"", text := escapeXml (some m.author) },
   { inner := "/dc:creator", text := "\n        " },
   { inner := "dc:publisher", text := escapeXml (some (jsOr m.publisher "ZenPub")) },
   { inner := "/dc:publisher", text := "\n        " },
   { inner := "dc:description", text := escapeXml (some m.description) },
   { inner := "/dc:description", text := "\n        " },
   { inner := "dc:language", text := "zh-CN" },
   { inner := "/dc:language", text := "\n        " },
   { inner := "dc:identifier id=\"BookId\"", text := "urn:uuid:" ++ uuid },
   { inner := "/dc:identifier", text := "\n        " },
   { inner := "meta property=\"dcterms:modified\"", text := now ++ "Z" },
   { inner := "/meta", text := "\n        " }]

/-- The complete metadata chunk of the OPF, with the optional blocks
and the accumulated inter-block whitespace. -/
def opfMetaChunk (m : BookMetadata) (uuid now : String) : List Tok :=
  addText "\n    "
    (addText "\n        "
      (addText "\n        " (opfBaseToks m uuid now ++ isbnToks m) ++ tagsToks m) ++
        coverMetaToks m)

/-- Attribute lookup on a bare tag string (the tag part of a token):
the form `getAttrTok` takes after the tag is cut at the first `>`. -/
def attrOfTag (name : List Char) (s : String) : Option (List Char) :=
  ((attrPairsAux (splitCharAux quotC s.data [])).find? (fun p => p.1 = name)).map
    (fun p => p.2)

/-- The chapter ids the Writer places in manifest and spine, from
0-based position `i` on. -/
def chapIds (i : Nat) : List Chapter → List String
  | [] => []
  | _ :: r => ("chap" ++ natStr (i + 1)) :: chapIds (i + 1) r

/-- The id/href manifest pairs of the chapter items, from position `i`
on. -/
def chapPairs (i : Nat) : List Chapter → List (String × String)
  | [] => []
  | _ :: r =>
    ("chap" ++ natStr (i + 1), "chapter_" ++ natStr (i + 1) ++ ".xhtml") ::
      chapPairs (i + 1) r

/-- The chapter list the Reader recovers from a Writer archive, from
position `i` on: each chapter document is processed back. -/
def roundtripChapters (freshId : Nat → String) (i : Nat) : List Chapter → List Chapter
  | [] => []
  | c :: r =>
    processChapterDoc i (freshId i) (chapterXhtml c) ::
      roundtripChapters freshId (i + 1) r

/-! ## Generic lemmas about the scanners -/

/-- Character data of a joined string list. -/
theorem data_strJoin (l : List String) :
    (strJoin l).data = (l.map String.data).flatten := by
  induction l with
  | nil => rfl
  | cons s r ih => simp [strJoin, String.data_append, ih]

/-- `takeWhile` stops at the first failing element. -/
theorem takeWhile_append_stop {α : Type} {p : α → Bool} (a : List α)
    (ha : ∀ c ∈ a, p c) (x : α) (hx : ¬ p x) (b : List α) :
    (a ++ x :: b).takeWhile p = a := by
  induction a with
  | nil => simp [List.takeWhile_cons, hx]
  | cons c t ih =>
    have hc : p c := ha c (by simp)
    simp [List.takeWhile_cons, hc]
    exact ih (fun d hd => ha d (by simp [hd]))

/-- `dropWhile` stops at the first failing element. -/
theorem dropWhile_append_stop {α : Type} {p : α → Bool} (a : List α)
    (ha : ∀ c ∈ a, p c) (x : α) (hx : ¬ p x) (b : List α) :
    (a ++ x :: b).dropWhile p = x :: b := by
  induction a with
  | nil => simp [List.dropWhile_cons, hx]
  | cons c t ih =>
    have hc : p c := ha c (by simp)
    simp [List.dropWhile_cons, hc]
    exact ih (fun d hd => ha d (by simp [hd]))

/-- A split skips over delimiter-free prefixes, accumulating them. -/
theorem splitCharAux_not_mem (d : Char) (a : List Char) (h : d ∉ a) :
    ∀ b acc, splitCharAux d (a ++ b) acc = splitCharAux d b (a.reverse ++ acc) := by
  induction a with
  | nil => intro b acc; rfl
  | cons c t ih =>
    intro b acc
    have hcd : ¬ c = d := fun hh => h (by simp [hh])
    simp only [List.cons_append, splitCharAux, if_neg hcd, List.append_eq]
    rw [ih (fun hm => h (by simp [hm])) b (c :: acc)]
    simp

/-- A split emits the accumulated piece at a delimiter. -/
theorem splitCharAux_delim (d : Char) (b acc : List Char) :
    splitCharAux d (d :: b) acc = acc.reverse :: splitCharAux d b [] := by
  simp [splitCharAux]

/-- A string whose data starts with `<` and contains no further `<`:
the shape of every markup segment the Writer emits. -/
def segWF (s : String) : Prop := ∃ t, s.data = '<' :: t ∧ '<' ∉ t

/-- Main tokenization lemma: splitting a join of well-formed segments
followed by a continuation that is empty or starts with `<`. -/
theorem splitLt_strJoin (segs : List String) (h : ∀ s ∈ segs, segWF s)
    (rest : List Char) (hrest : rest = [] ∨ ∃ r2, rest = '<' :: r2) :
    ∀ acc, splitCharAux '<' ((strJoin segs).data ++ rest) acc =
      acc.reverse ::
        (segs.map (fun s => s.data.tail) ++ (splitCharAux '<' rest []).tail) := by
  induction segs with
  | nil =>
    intro acc
    rcases hrest with h0 | ⟨r2, h2⟩
    · subst h0; rfl
    · subst h2
      simp [strJoin, splitCharAux_delim]
  | cons s ss ih =>
    intro acc
    obtain ⟨t, hs, hnt⟩ := h s (by simp)
    have hdata : (strJoin (s :: ss)).data = ('<' :: t) ++ (strJoin ss).data := by
      simp [strJoin, String.data_append, hs]
    rw [hdata]
    simp only [List.cons_append, List.append_assoc]
    rw [splitCharAux_delim]
    rw [show t ++ ((strJoin ss).data ++ rest) = t ++ ((strJoin ss).data ++ rest) from rfl]
    rw [splitCharAux_not_mem '<' t hnt ((strJoin ss).data ++ rest) []]
    rw [ih (fun x hx => h x (by simp [hx])) (t.reverse ++ [])]
    simp [hs]

/-- Tokens of a join of well-formed segments followed by a suitable
continuation string. -/
theorem tokensOf_strJoin_append (segs : List String) (h : ∀ s ∈ segs, segWF s)
    (rest : String) (hrest : rest.data = [] ∨ ∃ r2, rest.data = '<' :: r2) :
    tokensOf (strJoin segs ++ rest) =
      segs.map (fun s => s.data.tail) ++ tokensOf rest := by
  unfold tokensOf splitChar
  rw [String.data_append, splitLt_strJoin segs h rest.data hrest []]
  rcases hrest with h0 | ⟨r2, h2⟩
  · simp [h0, splitCharAux]
  · simp [h2, splitCharAux_delim]

/-- Tokens of a join of well-formed segments. -/
theorem tokensOf_strJoin (segs : List String) (h : ∀ s ∈ segs, segWF s) :
    tokensOf (strJoin segs) = segs.map (fun s => s.data.tail) := by
  have := tokensOf_strJoin_append segs h "" (Or.inl rfl)
  simpa [tokensOf, splitChar, splitCharAux] using this

/-- Character-list form of a rendered token, as the tokenizer recovers
it. -/
def tokChars (t : Tok) : List Char := t.inner.data ++ '>' :: t.text.data

/-- Well-formedness of a writer token: the tag part contains neither
`<` nor `>`, the text part contains no `<`. -/
def tokWF (t : Tok) : Prop :=
  '<' ∉ t.inner.data ∧ '>' ∉ t.inner.data ∧ '<' ∉ t.text.data

/-- Data of a rendered token. -/
theorem render_data (t : Tok) :
    t.render.data = '<' :: (t.inner.data ++ '>' :: t.text.data) := by
  simp [Tok.render, String.data_append]

/-- A well-formed token renders to a well-formed segment. -/
theorem segWF_render (t : Tok) (h : tokWF t) : segWF t.render := by
  refine ⟨t.inner.data ++ '>' :: t.text.data, render_data t, ?_⟩
  intro hmem
  rcases List.mem_append.mp hmem with h1 | h2
  · exact h.1 h1
  · rcases h2 with _ | h3
    · exact h.2.2 (by assumption)

/-- Tokens of rendered tokens followed by a continuation. -/
theorem tokensOf_renderToks_append (ts : List Tok) (h : ∀ t ∈ ts, tokWF t)
    (rest : String) (hrest : rest.data = [] ∨ ∃ r2, rest.data = '<' :: r2) :
    tokensOf (renderToks ts ++ rest) = ts.map tokChars ++ tokensOf rest := by
  unfold renderToks
  rw [tokensOf_strJoin_append (ts.map Tok.render)
    (by intro s hs
        obtain ⟨t, ht, rfl⟩ := List.mem_map.mp hs
        exact segWF_render t (h t ht)) rest hrest]
  congr 1
  rw [List.map_map]
  apply List.map_congr_left
  intro t ht
  simp [Function.comp, render_data, tokChars]

/-- Tokens of rendered tokens. -/
theorem tokensOf_renderToks (ts : List Tok) (h : ∀ t ∈ ts, tokWF t) :
    tokensOf (renderToks ts) = ts.map tokChars := by
  have := tokensOf_renderToks_append ts h "" (Or.inl rfl)
  simpa [tokensOf, splitChar, splitCharAux] using this

/-- The tag part of a recovered token is the token's `inner`. -/
theorem tagStrOf_tokChars (t : Tok) (h : '>' ∉ t.inner.data) :
    tagStrOf (tokChars t) = t.inner.data := by
  unfold tagStrOf tokChars
  exact takeWhile_append_stop t.inner.data
    (by intro c hc; simp; exact fun hh => h (hh ▸ hc)) '>' (by simp) t.text.data

/-- The text run of a recovered token is the token's `text`. -/
theorem textAfter_tokChars (t : Tok) (h : '>' ∉ t.inner.data) :
    textAfter (tokChars t) = t.text.data := by
  unfold textAfter tokChars
  rw [dropWhile_append_stop t.inner.data
    (by intro c hc; simp; exact fun hh => h (hh ▸ hc)) '>' (by simp) t.text.data]
  rfl

/-! ## Properties of the escaping helpers -/

/-- The escape table never emits `<`. -/
theorem escChar_no_lt (c : Char) : '<' ∉ escChar c := by
  by_cases h1 : c = '<'
  · subst h1; decide
  by_cases h2 : c = '>'
  · subst h2; decide
  by_cases h3 : c = '&'
  · subst h3; decide
  by_cases h4 : c = aposC
  · subst h4; decide
  by_cases h5 : c = quotC
  · subst h5; decide
  · have he : escChar c = [c] := by simp [escChar, h1, h2, h3, h4, h5]
    rw [he]
    intro hm
    simp at hm
    exact h1 hm.symm

/-- The escape table never emits `>`. -/
theorem escChar_no_gt (c : Char) : '>' ∉ escChar c := by
  by_cases h1 : c = '<'
  · subst h1; decide
  by_cases h2 : c = '>'
  · subst h2; decide
  by_cases h3 : c = '&'
  · subst h3; decide
  by_cases h4 : c = aposC
  · subst h4; decide
  by_cases h5 : c = quotC
  · subst h5; decide
  · have he : escChar c = [c] := by simp [escChar, h1, h2, h3, h4, h5]
    rw [he]
    intro hm
    simp at hm
    exact h2 hm.symm

/-- The escape table never emits an apostrophe. -/
theorem escChar_no_apos (c : Char) : aposC ∉ escChar c := by
  by_cases h1 : c = '<'
  · subst h1; decide
  by_cases h2 : c = '>'
  · subst h2; decide
  by_cases h3 : c = '&'
  · subst h3; decide
  by_cases h4 : c = aposC
  · subst h4; decide
  by_cases h5 : c = quotC
  · subst h5; decide
  · have he : escChar c = [c] := by simp [escChar, h1, h2, h3, h4, h5]
    rw [he]
    intro hm
    simp at hm
    exact h4 hm.symm

/-- The escape table never emits a double quote. -/
theorem escChar_no_quot (c : Char) : quotC ∉ escChar c := by
  by_cases h1 : c = '<'
  · subst h1; decide
  by_cases h2 : c = '>'
  · subst h2; decide
  by_cases h3 : c = '&'
  · subst h3; decide
  by_cases h4 : c = aposC
  · subst h4; decide
  by_cases h5 : c = quotC
  · subst h5; decide
  · have he : escChar c = [c] := by simp [escChar, h1, h2, h3, h4, h5]
    rw [he]
    intro hm
    simp at hm
    exact h5 hm.symm

/-- Escaped text contains no `<`. -/
theorem escapeXml_no_lt (u : Option String) : '<' ∉ (escapeXml u).data := by
  match u with
  | none => simp [escapeXml]
  | some s =>
    by_cases hs : s = ""
    · simp [escapeXml, hs]
    · simp only [escapeXml, if_neg hs]
      intro hmem
      obtain ⟨l, hl, hcl⟩ := List.mem_flatten.mp hmem
      obtain ⟨c, _, rfl⟩ := List.mem_map.mp hl
      exact escChar_no_lt c hcl

/-- Escaped text contains no `>`. -/
theorem escapeXml_no_gt (u : Option String) : '>' ∉ (escapeXml u).data := by
  match u with
  | none => simp [escapeXml]
  | some s =>
    by_cases hs : s = ""
    · simp [escapeXml, hs]
    · simp only [escapeXml, if_neg hs]
      intro hmem
      obtain ⟨l, hl, hcl⟩ := List.mem_flatten.mp hmem
      obtain ⟨c, _, rfl⟩ := List.mem_map.mp hl
      exact escChar_no_gt c hcl

/-- Escaped text contains no apostrophe. -/
theorem escapeXml_no_apos (u : Option String) : aposC ∉ (escapeXml u).data := by
  match u with
  | none => simp [escapeXml]
  | some s =>
    by_cases hs : s = ""
    · simp [escapeXml, hs]
    · simp only [escapeXml, if_neg hs]
      intro hmem
      obtain ⟨l, hl, hcl⟩ := List.mem_flatten.mp hmem
      obtain ⟨c, _, rfl⟩ := List.mem_map.mp hl
      exact escChar_no_apos c hcl

/-- Escaped text contains no double quote. -/
theorem escapeXml_no_quot (u : Option String) : quotC ∉ (escapeXml u).data := by
  match u with
  | none => simp [escapeXml]
  | some s =>
    by_cases hs : s = ""
    · simp [escapeXml, hs]
    · simp only [escapeXml, if_neg hs]
      intro hmem
      obtain ⟨l, hl, hcl⟩ := List.mem_flatten.mp hmem
      obtain ⟨c, _, rfl⟩ := List.mem_map.mp hl
      exact escChar_no_quot c hcl

/-- The escape table never emits the empty list. -/
theorem escChar_ne_nil (c : Char) : escChar c ≠ [] := by
  by_cases h1 : c = '<'
  · subst h1; decide
  by_cases h2 : c = '>'
  · subst h2; decide
  by_cases h3 : c = '&'
  · subst h3; decide
  by_cases h4 : c = aposC
  · subst h4; decide
  by_cases h5 : c = quotC
  · subst h5; decide
  · have he : escChar c = [c] := by simp [escChar, h1, h2, h3, h4, h5]
    simp [he]

/-- Scanning step of `unescAux` at a `&lt;` entity. -/
theorem unescAux_step_lt (f : Nat) (X : List Char) :
    unescAux (f + 1) ('&' :: 'l' :: 't' :: ';' :: X) = '<' :: unescAux f X := by
  simp only [unescAux]
  rw [if_pos trivial, if_pos (by simp [List.isPrefixOf])]
  simp

/-- Scanning step of `unescAux` at a `&gt;` entity. -/
theorem unescAux_step_gt (f : Nat) (X : List Char) :
    unescAux (f + 1) ('&' :: 'g' :: 't' :: ';' :: X) = '>' :: unescAux f X := by
  simp only [unescAux]
  rw [if_pos trivial, if_neg (by simp [List.isPrefixOf]),
    if_pos (by simp [List.isPrefixOf])]
  simp

/-- Scanning step of `unescAux` at a `&amp;` entity. -/
theorem unescAux_step_amp (f : Nat) (X : List Char) :
    unescAux (f + 1) ('&' :: 'a' :: 'm' :: 'p' :: ';' :: X) = '&' :: unescAux f X := by
  simp only [unescAux]
  rw [if_pos trivial, if_neg (by simp [List.isPrefixOf]),
    if_neg (by simp [List.isPrefixOf]), if_pos (by simp [List.isPrefixOf])]
  simp

/-- Scanning step of `unescAux` at a `&apos;` entity. -/
theorem unescAux_step_apos (f : Nat) (X : List Char) :
    unescAux (f + 1) ('&' :: 'a' :: 'p' :: 'o' :: 's' :: ';' :: X) =
      aposC :: unescAux f X := by
  simp only [unescAux]
  rw [if_pos trivial, if_neg (by simp [List.isPrefixOf]),
    if_neg (by simp [List.isPrefixOf]), if_neg (by simp [List.isPrefixOf]),
    if_pos (by simp [List.isPrefixOf])]
  simp

/-- Scanning step of `unescAux` at a `&quot;` entity. -/
theorem unescAux_step_quot (f : Nat) (X : List Char) :
    unescAux (f + 1) ('&' :: 'q' :: 'u' :: 'o' :: 't' :: ';' :: X) =
      quotC :: unescAux f X := by
  simp only [unescAux]
  rw [if_pos trivial, if_neg (by simp [List.isPrefixOf]),
    if_neg (by simp [List.isPrefixOf]), if_neg (by simp [List.isPrefixOf]),
    if_neg (by simp [List.isPrefixOf]), if_pos (by simp [List.isPrefixOf])]
  simp

/-- Scanning step of `unescAux` at an ordinary character. -/
theorem unescAux_step_plain (f : Nat) (c : Char) (X : List Char) (h : ¬ c = '&') :
    unescAux (f + 1) (c :: X) = c :: unescAux f X := by
  simp only [unescAux]
  rw [if_neg h]

/-- `unescAux` on the empty list. -/
theorem unescAux_nil (f : Nat) : unescAux f [] = [] := by
  cases f <;> rfl

/-- Entity decoding does not depend on the fuel, as long as it covers
the input length. -/
theorem unescAux_mono : ∀ (f1 : Nat) (l : List Char) (f2 : Nat),
    l.length ≤ f1 → l.length ≤ f2 → unescAux f1 l = unescAux f2 l := by
  intro f1
  induction f1 with
  | zero =>
    intro l f2 h1 _
    have hl : l = [] := List.eq_nil_of_length_eq_zero (Nat.le_zero.mp h1)
    subst hl
    cases f2 <;> rfl
  | succ a ih =>
    intro l f2 h1 h2
    cases l with
    | nil => cases f2 <;> rfl
    | cons c t =>
      cases f2 with
      | zero => simp at h2
      | succ b =>
        have ht1 : t.length ≤ a := by simp at h1; omega
        have ht2 : t.length ≤ b := by simp at h2; omega
        simp only [unescAux]
        by_cases hc : c = '&'
        · rw [if_pos hc, if_pos hc]
          by_cases p1 : ['l', 't', ';'].isPrefixOf t
          · rw [if_pos p1, if_pos p1]
            rw [ih (t.drop 3) b (by simp [List.length_drop]; omega)
              (by simp [List.length_drop]; omega)]
          rw [if_neg p1, if_neg p1]
          by_cases p2 : ['g', 't', ';'].isPrefixOf t
          · rw [if_pos p2, if_pos p2]
            rw [ih (t.drop 3) b (by simp [List.length_drop]; omega)
              (by simp [List.length_drop]; omega)]
          rw [if_neg p2, if_neg p2]
          by_cases p3 : ['a', 'm', 'p', ';'].isPrefixOf t
          · rw [if_pos p3, if_pos p3]
            rw [ih (t.drop 4) b (by simp [List.length_drop]; omega)
              (by simp [List.length_drop]; omega)]
          rw [if_neg p3, if_neg p3]
          by_cases p4 : ['a', 'p', 'o', 's', ';'].isPrefixOf t
          · rw [if_pos p4, if_pos p4]
            rw [ih (t.drop 5) b (by simp [List.length_drop]; omega)
              (by simp [List.length_drop]; omega)]
          rw [if_neg p4, if_neg p4]
          by_cases p5 : ['q', 'u', 'o', 't', ';'].isPrefixOf t
          · rw [if_pos p5, if_pos p5]
            rw [ih (t.drop 5) b (by simp [List.length_drop]; omega)
              (by simp [List.length_drop]; omega)]
          rw [if_neg p5, if_neg p5]
        · rw [if_neg hc, if_neg hc, ih t b ht1 ht2]

/-- Entity decoding undoes the escape table, compositionally. -/
theorem unesc_escape_aux : ∀ (l r : List Char) (fuel : Nat),
    ((l.map escChar).flatten ++ r).length ≤ fuel →
    unescAux fuel ((l.map escChar).flatten ++ r) = l ++ unescChars r := by
  intro l
  induction l with
  | nil =>
    intro r fuel hf
    simp only [List.map_nil, List.flatten_nil, List.nil_append] at hf ⊢
    exact unescAux_mono fuel r r.length hf (le_refl _)
  | cons c t ih =>
    intro r fuel hf
    have hone : 1 ≤ (escChar c).length := by
      cases he : escChar c with
      | nil => exact absurd he (escChar_ne_nil c)
      | cons x xs => simp
    cases fuel with
    | zero =>
      exfalso
      simp only [List.map_cons, List.flatten_cons, List.append_assoc,
        List.length_append, Nat.le_zero] at hf
      omega
    | succ f =>
      have hlen : ((t.map escChar).flatten ++ r).length ≤ f := by
        simp only [List.map_cons, List.flatten_cons, List.append_assoc,
          List.length_append] at hf
        simp only [List.length_append]
        omega
      by_cases h1 : c = '<'
      · subst h1
        have hred : ((('<' :: t).map escChar).flatten ++ r) =
            '&' :: 'l' :: 't' :: ';' :: ((t.map escChar).flatten ++ r) := by
          simp [escChar]
        rw [hred, unescAux_step_lt f _, ih r f hlen]
        rfl
      by_cases h2 : c = '>'
      · subst h2
        have hred : ((('>' :: t).map escChar).flatten ++ r) =
            '&' :: 'g' :: 't' :: ';' :: ((t.map escChar).flatten ++ r) := by
          simp [escChar]
        rw [hred, unescAux_step_gt f _, ih r f hlen]
        rfl
      by_cases h3 : c = '&'
      · subst h3
        have hred : ((('&' :: t).map escChar).flatten ++ r) =
            '&' :: 'a' :: 'm' :: 'p' :: ';' :: ((t.map escChar).flatten ++ r) := by
          simp [escChar]
        rw [hred, unescAux_step_amp f _, ih r f hlen]
        rfl
      by_cases h4 : c = aposC
      · subst h4
        have hesc : escChar aposC = ['&', 'a', 'p', 'o', 's', ';'] := by decide
        have hred : (((aposC :: t).map escChar).flatten ++ r) =
            '&' :: 'a' :: 'p' :: 'o' :: 's' :: ';' :: ((t.map escChar).flatten ++ r) := by
          simp [hesc]
        rw [hred, unescAux_step_apos f _, ih r f hlen]
        rfl
      by_cases h5 : c = quotC
      · subst h5
        have hesc : escChar quotC = ['&', 'q', 'u', 'o', 't', ';'] := by decide
        have hred : (((quotC :: t).map escChar).flatten ++ r) =
            '&' :: 'q' :: 'u' :: 'o' :: 't' :: ';' :: ((t.map escChar).flatten ++ r) := by
          simp [hesc]
        rw [hred, unescAux_step_quot f _, ih r f hlen]
        rfl
      · have he : escChar c = [c] := by simp [escChar, h1, h2, h3, h4, h5]
        have hred : (((c :: t).map escChar).flatten ++ r) =
            c :: ((t.map escChar).flatten ++ r) := by simp [he]
        rw [hred, unescAux_step_plain f c _ h3, ih r f hlen]
        rfl

/-- Entity decoding undoes the escape table. -/
theorem unesc_escape (l r : List Char) :
    unescChars ((l.map escChar).flatten ++ r) = l ++ unescChars r :=
  unesc_escape_aux l r _ (le_refl _)

/-- Entity decoding recovers an escaped string exactly. -/
theorem unesc_escapeXml (s : String) :
    unescChars (escapeXml (some s)).data = s.data := by
  by_cases hs : s = ""
  · simp [escapeXml, hs, unescChars, unescAux]
  · simp only [escapeXml, if_neg hs]
    have := unesc_escape s.data []
    simpa [unescChars, unescAux] using this

/-! ## Properties of the decimal representation -/

/-- Bounds of a digit character. -/
theorem digitChar_bounds (k : Nat) (hk : k < 10) :
    '0' ≤ Char.ofNat (48 + k) ∧ Char.ofNat (48 + k) ≤ '9' := by
  interval_cases k <;> exact ⟨by decide, by decide⟩

/-- Code point of a digit character. -/
theorem digitChar_toNat (k : Nat) (hk : k < 10) :
    (Char.ofNat (48 + k)).toNat = 48 + k := by
  interval_cases k <;> decide

/-- Every character of `natStrAux` is a decimal digit. -/
theorem natStrAux_digits : ∀ (fuel n : Nat), ∀ c ∈ natStrAux fuel n,
    '0' ≤ c ∧ c ≤ '9' := by
  intro fuel
  induction fuel with
  | zero => intro n c hc; simp [natStrAux] at hc
  | succ f ih =>
    intro n c hc
    simp only [natStrAux] at hc
    by_cases h : n < 10
    · rw [if_pos h] at hc
      simp at hc
      subst hc
      exact digitChar_bounds n h
    · rw [if_neg h] at hc
      rcases List.mem_append.mp hc with h1 | h2
      · exact ih (n / 10) c h1
      · simp at h2
        subst h2
        exact digitChar_bounds (n % 10) (Nat.mod_lt _ (by omega))

/-- Every character of `natStr` is a decimal digit. -/
theorem natStr_digits (n : Nat) : ∀ c ∈ (natStr n).data, '0' ≤ c ∧ c ≤ '9' :=
  natStrAux_digits (n + 1) n

/-- A decimal digit is none of the structural characters of the
generated XML. -/
theorem digit_ne (c : Char) (h1 : '0' ≤ c) (h2 : c ≤ '9') :
    c ≠ '<' ∧ c ≠ '>' ∧ c ≠ quotC ∧ c ≠ '&' ∧ c ≠ '/' ∧ c ≠ ':' ∧
      ¬ isWsC c ∧ c ≠ '.' := by
  refine ⟨?_, ?_, ?_, ?_, ?_, ?_, ?_, ?_⟩
  · intro he; subst he; exact absurd h2 (by decide)
  · intro he; subst he; exact absurd h2 (by decide)
  · intro he; subst he; exact absurd h1 (by decide)
  · intro he; subst he; exact absurd h1 (by decide)
  · intro he; subst he; exact absurd h1 (by decide)
  · intro he; subst he; exact absurd h2 (by decide)
  · intro hw
    simp [isWsC] at hw
    rcases hw with ((h | h) | h) | h <;> (subst h; exact absurd h1 (by decide))
  · intro he; subst he; exact absurd h1 (by decide)

/-- `digitsVal` of a list with one digit appended. -/
theorem digitsVal_append_digit (a : List Char) (d : Char) :
    digitsVal (a ++ [d]) = digitsVal a * 10 + (d.toNat - 48) := by
  simp [digitsVal, List.foldl_append]

/-- `digitsVal` recovers the number from its digits. -/
theorem digitsVal_natStrAux : ∀ (fuel n : Nat), n < fuel →
    digitsVal (natStrAux fuel n) = n := by
  intro fuel
  induction fuel with
  | zero => intro n h; omega
  | succ f ih =>
    intro n h
    simp only [natStrAux]
    by_cases hn : n < 10
    · rw [if_pos hn]
      simp [digitsVal]
      rw [digitChar_toNat n hn]
      omega
    · rw [if_neg hn]
      rw [digitsVal_append_digit]
      have hpos : 0 < n := by omega
      have hlt : n / 10 < n := Nat.div_lt_self hpos (by omega)
      rw [ih (n / 10) (by omega), digitChar_toNat (n % 10) (Nat.mod_lt _ (by omega))]
      omega

/-- The decimal representation is injective. -/
theorem natStr_inj {m n : Nat} (h : natStr m = natStr n) : m = n := by
  have hd : natStrAux (m + 1) m = natStrAux (n + 1) n := congrArg String.data h
  have hm := digitsVal_natStrAux (m + 1) m (by omega)
  have hn := digitsVal_natStrAux (n + 1) n (by omega)
  rw [hd] at hm
  omega

/-- The decimal representation is never empty. -/
theorem natStr_ne_nil (n : Nat) : (natStr n).data ≠ [] := by
  show natStrAux (n + 1) n ≠ []
  simp only [natStrAux]
  by_cases hn : n < 10
  · rw [if_pos hn]; simp
  · rw [if_neg hn]; simp

/-- Appending preserves the ampersand-entity property when the suffix
has it and the prefix is escape output. -/
theorem ampOk_escape : ∀ (l r : List Char), ampOkAux r = true →
    ampOkAux ((l.map escChar).flatten ++ r) = true := by
  intro l
  induction l with
  | nil => intro r hr; simpa using hr
  | cons c t ih =>
    intro r hr
    by_cases h1 : c = '<'
    · subst h1
      have hred : ((('<' :: t).map escChar).flatten ++ r) =
          '&' :: 'l' :: 't' :: ';' :: ((t.map escChar).flatten ++ r) := by
        simp [escChar]
      rw [hred]
      simp [ampOkAux, List.isPrefixOf]
      exact ih r hr
    by_cases h2 : c = '>'
    · subst h2
      have hred : ((('>' :: t).map escChar).flatten ++ r) =
          '&' :: 'g' :: 't' :: ';' :: ((t.map escChar).flatten ++ r) := by
        simp [escChar]
      rw [hred]
      simp [ampOkAux, List.isPrefixOf]
      exact ih r hr
    by_cases h3 : c = '&'
    · subst h3
      have hred : ((('&' :: t).map escChar).flatten ++ r) =
          '&' :: 'a' :: 'm' :: 'p' :: ';' :: ((t.map escChar).flatten ++ r) := by
        simp [escChar]
      rw [hred]
      simp [ampOkAux, List.isPrefixOf]
      exact ih r hr
    by_cases h4 : c = aposC
    · subst h4
      have hesc : escChar aposC = ['&', 'a', 'p', 'o', 's', ';'] := by decide
      have hred : (((aposC :: t).map escChar).flatten ++ r) =
          '&' :: 'a' :: 'p' :: 'o' :: 's' :: ';' :: ((t.map escChar).flatten ++ r) := by
        simp [hesc]
      rw [hred]
      simp [ampOkAux, List.isPrefixOf]
      exact ih r hr
    by_cases h5 : c = quotC
    · subst h5
      have hesc : escChar quotC = ['&', 'q', 'u', 'o', 't', ';'] := by decide
      have hred : (((quotC :: t).map escChar).flatten ++ r) =
          '&' :: 'q' :: 'u' :: 'o' :: 't' :: ';' :: ((t.map escChar).flatten ++ r) := by
        simp [hesc]
      rw [hred]
      simp [ampOkAux, List.isPrefixOf]
      exact ih r hr
    · have he : escChar c = [c] := by simp [escChar, h1, h2, h3, h4, h5]
      have hred : (((c :: t).map escChar).flatten ++ r) =
          c :: ((t.map escChar).flatten ++ r) := by simp [he]
      rw [hred]
      simp only [ampOkAux, if_neg h3, Bool.true_and]
      exact ih r hr

/-- Characterization of the whitespace-skipping regex tail. -/
theorem hashWsTitle_iff (pat : List Char) : ∀ (l : List Char),
    hashWsTitle pat l = true ↔
      ∃ ws rest, l = ws ++ rest ∧ (∀ c ∈ ws, isWsC c) ∧ ciPrefix pat rest = true := by
  intro l
  induction l with
  | nil =>
    simp only [hashWsTitle]
    constructor
    · intro h
      exact ⟨[], [], by simp, by simp, h⟩
    · rintro ⟨ws, rest, heq, _, hci⟩
      have hws : ws = [] := by
        cases ws with
        | nil => rfl
        | cons a b => simp at heq
      have hrest : rest = [] := by
        subst hws
        simpa using heq.symm
      subst hws; subst hrest
      exact hci
  | cons c t ih =>
    simp only [hashWsTitle, Bool.or_eq_true, Bool.and_eq_true]
    constructor
    · rintro (h | ⟨hws, h⟩)
      · exact ⟨[], c :: t, rfl, by simp, h⟩
      · obtain ⟨ws, rest, heq, hall, hci⟩ := ih.mp h
        exact ⟨c :: ws, rest, by simp [heq], by
          intro d hd
          rcases List.mem_cons.mp hd with h1 | h2
          · subst h1; exact hws
          · exact hall d h2, hci⟩
    · rintro ⟨ws, rest, heq, hall, hci⟩
      cases ws with
      | nil =>
        left
        simp at heq
        rw [heq]
        exact hci
      | cons a b =>
        right
        simp at heq
        obtain ⟨hac, heq2⟩ := heq
        subst hac
        exact ⟨hall c (by simp), ih.mpr ⟨b, rest, heq2, by
          intro d hd; exact hall d (by simp [hd]), hci⟩⟩

/-- The regex test of `getContentWithTitle` means exactly the semantic
hash-title-prefix property. -/
theorem matchesHashTitle_iff (title content : String) :
    matchesHashTitle title content = true ↔ HashTitlePrefix title content := by
  unfold matchesHashTitle HashTitlePrefix
  cases hd : (jsTrim content).data with
  | nil =>
    constructor
    · intro h
      simp at h
    · rintro ⟨ws, rest, heq, -, -⟩
      simp at heq
  | cons c rest0 =>
    simp only [Bool.and_eq_true, decide_eq_true_eq]
    constructor
    · rintro ⟨hc, h⟩
      subst hc
      obtain ⟨ws, rest, heq, hall, hci⟩ := (hashWsTitle_iff _ rest0).mp h
      exact ⟨ws, rest, by simp [hd, heq], hall, hci⟩
    · rintro ⟨ws, rest, heq, hall, hci⟩
      simp at heq
      obtain ⟨hc, heq2⟩ := heq
      refine ⟨hc, (hashWsTitle_iff _ rest0).mpr ⟨ws, rest, heq2, hall, hci⟩⟩

/-! ## Claim C3 -/

/-- C3: for every input, the first entry of the archive the Writer
produces is named exactly `mimetype`, contains exactly the ASCII string
`application/epub+zip`, and carries the explicit STORE (no compression)
option. -/
theorem C3_mimetype_first (bookMeta : BookMetadata) (chapters : List Chapter)
    (uuid now : String) :
    (exportToEpub bookMeta chapters uuid now).head? =
      some { name := "mimetype", content := "application/epub+zip",
             storeFlag := true, base64Flag := false } := rfl

/-! ## Claim C2 -/

/-- C2: the Reader fails (with one of the `Invalid EPUB` format errors,
returning no partial result since the error branch carries no data)
exactly when the archive has no `META-INF/container.xml` entry, or the
container descriptor yields no root-document path (no `rootfile`
element, no `full-path` attribute, or an empty one, which JavaScript
treats as absent), or the declared root document is missing from the
archive. -/
theorem C2_reader_failure (entries : List ZipEntry) (freshId : Nat → String) :
    (∃ e, importEpub entries freshId = Except.error e) ↔
      lookupFile entries "META-INF/container.xml" = none ∨
      (∃ cx, lookupFile entries "META-INF/container.xml" = some cx ∧
        (findRootfilePath cx = none ∨ findRootfilePath cx = some "")) ∨
      (∃ cx p, lookupFile entries "META-INF/container.xml" = some cx ∧
        findRootfilePath cx = some p ∧ p ≠ "" ∧ lookupFile entries p = none) := by
  cases h1 : lookupFile entries "META-INF/container.xml" with
  | none =>
    have hred : importEpub entries freshId =
        Except.error "Invalid EPUB: container.xml missing" := by
      simp [importEpub, h1]
    constructor
    · intro _
      exact Or.inl rfl
    · intro _
      exact ⟨"Invalid EPUB: container.xml missing", hred⟩
  | some cx =>
    cases h2 : findRootfilePath cx with
    | none =>
      have hred : importEpub entries freshId =
          Except.error "Invalid EPUB: OPF path not found" := by
        simp [importEpub, h1, h2]
      constructor
      · intro _
        exact Or.inr (Or.inl ⟨cx, rfl, Or.inl h2⟩)
      · intro _
        exact ⟨"Invalid EPUB: OPF path not found", hred⟩
    | some p =>
      by_cases hp : p = ""
      · subst hp
        have hred : importEpub entries freshId =
            Except.error "Invalid EPUB: OPF path not found" := by
          simp [importEpub, h1, h2]
        constructor
        · intro _
          exact Or.inr (Or.inl ⟨cx, rfl, Or.inr h2⟩)
        · intro _
          exact ⟨"Invalid EPUB: OPF path not found", hred⟩
      · cases h3 : lookupFile entries p with
        | none =>
          have hred : importEpub entries freshId =
              Except.error "Invalid EPUB: OPF file missing" := by
            simp [importEpub, h1, h2, hp, h3]
          constructor
          · intro _
            exact Or.inr (Or.inr ⟨cx, p, rfl, h2, hp, h3⟩)
          · intro _
            exact ⟨"Invalid EPUB: OPF file missing", hred⟩
        | some opfXml =>
          have hr : importEpub entries freshId =
              Except.ok (readMetadata (tokensOf opfXml),
                buildChaptersAux entries (opfDirOf p) (manifestPairs (tokensOf opfXml))
                  freshId 0 (spineIdrefs (tokensOf opfXml))) := by
            simp [importEpub, h1, h2, hp, h3]
          constructor
          · rintro ⟨e, he⟩
            rw [hr] at he
            exact absurd he (by simp)
          · rintro (hbad | ⟨cx2, hcx2, hbad⟩ | ⟨cx2, p2, hcx2, hp2, hne, hmiss⟩)
            · exact absurd hbad (by simp)
            · have hcxe : cx2 = cx := by injection hcx2 with hh; exact hh.symm
              subst hcxe
              rcases hbad with hb | hb
              · rw [h2] at hb
                exact absurd hb (by simp)
              · rw [h2] at hb
                exact absurd (Option.some.inj hb) hp
            · have hcxe : cx2 = cx := by injection hcx2 with hh; exact hh.symm
              subst hcxe
              rw [h2] at hp2
              have hpe : p2 = p := by injection hp2 with hh; exact hh.symm
              subst hpe
              rw [h3] at hmiss
              exact absurd hmiss (by simp)

/-! ## Claim C9 -/

/-- Indexing into the per-chapter Markdown entries. -/
theorem mdChapterEntries_get : ∀ (chs : List Chapter) (j i : Nat) (c : Chapter),
    chs[i]? = some c →
    (mdChapterEntries j chs)[i]? = some
      { name := "chapter_" ++ padStart2 (natStr (j + i + 1)) ++ "_" ++
          sanitizeName c.title ++ ".md",
        content := getContentWithTitle c.title c.content false,
        storeFlag := false, base64Flag := false } := by
  intro chs
  induction chs with
  | nil => intro j i c h; simp at h
  | cons c0 r ih =>
    intro j i c h
    cases i with
    | zero =>
      simp at h
      subst h
      simp [mdChapterEntries]
    | succ i2 =>
      simp at h
      have := ih (j + 1) i2 c h
      simp [mdChapterEntries]
      rw [show j + 1 + i2 + 1 = j + (i2 + 1) + 1 by omega] at this
      exact this

/-- The per-chapter Markdown entry list has one entry per chapter. -/
theorem mdChapterEntries_length : ∀ (chs : List Chapter) (j : Nat),
    (mdChapterEntries j chs).length = chs.length := by
  intro chs
  induction chs with
  | nil => intro j; rfl
  | cons c0 r ih => intro j; simp [mdChapterEntries, ih]

/-- C9 (amended): in the Markdown export bundle, the entry of the
chapter at position `i` keeps the chapter content untouched exactly
when the trimmed content starts with `#`, optional whitespace and then
the trimmed title (case-insensitively — the source interpolates the raw
title into a regex, so this describes titles free of regex
metacharacters); otherwise a `# <title>` line and a blank line are
prepended. -/
theorem C9_md_title_dedup (m : BookMetadata) (chs : List Chapter) (i : Nat)
    (c : Chapter) (h : chs[i]? = some c) :
    ∃ e : ZipEntry, (exportToMarkdown m chs)[i + 1]? = some e ∧
      (HashTitlePrefix c.title c.content → e.content = c.content) ∧
      (¬ HashTitlePrefix c.title c.content →
        e.content = "# " ++ c.title ++ "\n\n" ++ c.content) := by
  have hlen : i < (mdChapterEntries 0 chs).length := by
    rw [mdChapterEntries_length]
    exact (List.getElem?_eq_some_iff.mp h).1
  have hget := mdChapterEntries_get chs 0 i c h
  refine ⟨⟨"chapter_" ++ padStart2 (natStr (0 + i + 1)) ++ "_" ++ sanitizeName c.title ++ ".md", getContentWithTitle c.title c.content false, false, false⟩, ?_, ?_, ?_⟩
  · show (exportToMarkdown m chs)[i + 1]? = _
    unfold exportToMarkdown
    rw [List.getElem?_cons_succ, List.getElem?_append_left hlen, hget]
  · intro hp
    show getContentWithTitle c.title c.content false = c.content
    unfold getContentWithTitle
    rw [if_pos ((matchesHashTitle_iff c.title c.content).mpr hp)]
  · intro hp
    show getContentWithTitle c.title c.content false =
      "# " ++ c.title ++ "\n\n" ++ c.content
    unfold getContentWithTitle
    rw [if_neg (fun hb => hp ((matchesHashTitle_iff c.title c.content).mp hb))]
    simp

/-- C9 witness: the amended dedup statement evaluated on a concrete
book: content `"#  INTRO rest"` is dedup-neutral for title `"Intro"`,
so the exported entry keeps it untouched. -/
theorem C9_md_title_dedup_witness :
    ∃ e : ZipEntry,
      (exportToMarkdown
        { title := "B", author := "A", description := "", publisher := "",
          language := "zh-CN", isbn := "", tags := [], coverData := "",
          coverMimeType := "" }
        [{ id := "c1", title := "Intro", content := "#  INTRO rest", order := 0 }])[0 + 1]? =
        some e ∧
      (HashTitlePrefix "Intro" "#  INTRO rest" → e.content = "#  INTRO rest") ∧
      (¬ HashTitlePrefix "Intro" "#  INTRO rest" →
        e.content = "# " ++ "Intro" ++ "\n\n" ++ "#  INTRO rest") := by
  have := C9_md_title_dedup
    { title := "B", author := "A", description := "", publisher := "",
      language := "zh-CN", isbn := "", tags := [], coverData := "",
      coverMimeType := "" }
    [{ id := "c1", title := "Intro", content := "#  INTRO rest", order := 0 }]
    0 { id := "c1", title := "Intro", content := "#  INTRO rest", order := 0 } rfl
  exact this

/-- C9 counterexample: for title `"A"` and content `"#A"` the trimmed
content does not begin with the string `# A` (even case-insensitively),
so the claim as stated demands the `# A` line to be prepended — but the
code's `^#\s*` regex also accepts zero whitespace and returns the
content untouched. -/
theorem C9_counterexample :
    getContentWithTitle "A" "#A" false = "#A" ∧
    ciPrefix "# A".data (jsTrim "#A").data = false ∧
    getContentWithTitle "A" "#A" false ≠ "# " ++ "A" ++ "\n\n" ++ "#A" := by
  refine ⟨by decide, by decide, by decide⟩

/-! ## Claim C4 -/

/-- An infix of the left part is an infix of an append. -/
theorem infix_append_left {α : Type} {l a : List α} (h : l <:+: a) (b : List α) :
    l <:+: a ++ b := by
  obtain ⟨s, t, hst⟩ := h
  exact ⟨s, t ++ b, by rw [← hst]; simp⟩

/-- An infix of the right part is an infix of an append. -/
theorem infix_append_right {α : Type} {l b : List α} (a : List α) (h : l <:+: b) :
    l <:+: a ++ b := by
  obtain ⟨s, t, hst⟩ := h
  exact ⟨a ++ s, t, by rw [← hst]; simp⟩

/-- A member token's rendering is an infix of the rendered document. -/
theorem render_infix_of_mem (t : Tok) : ∀ (ts : List Tok), t ∈ ts →
    t.render.data <:+: (renderToks ts).data := by
  intro ts
  induction ts with
  | nil => intro h; simp at h
  | cons s ss ih =>
    intro h
    have hdata : (renderToks (s :: ss)).data =
        s.render.data ++ (renderToks ss).data := by
      show (strJoin (Tok.render s :: ss.map Tok.render)).data = _
      simp [strJoin, String.data_append]
      rfl
    rw [hdata]
    rcases List.mem_cons.mp h with h1 | h2
    · subst h1
      exact infix_append_left (List.infix_refl _) _
    · exact infix_append_right _ (ih h2)

/-- C4 counterexample: with cover MIME type `image/a<b` the Writer's
OPF contains the metadata string raw inside the manifest `media-type`
attribute — with its `<` and `"` characters literal and unescaped — so
not every text value placed into XML content or attributes is escaped. -/
theorem C4_counterexample :
    "media-type=\"image/a<b\"".data <:+:
      (contentOpf
        { title := "T", author := "A", description := "", publisher := "",
          language := "zh-CN", isbn := "", tags := [], coverData := "d,AAAA",
          coverMimeType := "image/a<b" }
        [{ id := "c", title := "K", content := "x", order := 0 }] "u" "n").data ∧
    '<' ∈ "image/a<b".data := by
  constructor
  · have hmem : ({ inner := "item id=\"cover-image\" href=\"images/cover.a<b\" media-type=\"image/a<b\" properties=\"cover-image\" /", text := "\n" } : Tok) ∈
        opfToks
          { title := "T", author := "A", description := "", publisher := "",
            language := "zh-CN", isbn := "", tags := [], coverData := "d,AAAA",
            coverMimeType := "image/a<b" }
          [{ id := "c", title := "K", content := "x", order := 0 }] "u" "n" := by
      decide
    have hinf : "media-type=\"image/a<b\"".data <:+:
        (Tok.render { inner := "item id=\"cover-image\" href=\"images/cover.a<b\" media-type=\"image/a<b\" properties=\"cover-image\" /", text := "\n" }).data := by
      decide
    exact hinf.trans (render_infix_of_mem _ _ hmem)
  · decide

/-- C4 (amended): for every text value the Writer passes through its
escaping helper — every metadata and chapter-title value except the raw
cover MIME type — an absent value escapes to the empty string, the
escaped form contains no literal `<`, `>`, `'` or `"` at all, every `&`
in it begins one of the five named entities (the single left-to-right
pass escapes the ampersand itself exactly once, so no double-escaping
occurs), and entity decoding recovers the original string exactly
(every special character was replaced by precisely its named entity). -/
theorem C4_escaping_amended :
    escapeXml none = "" ∧ escapeXml (some "") = "" ∧
    (∀ u : Option String,
      '<' ∉ (escapeXml u).data ∧ '>' ∉ (escapeXml u).data ∧
      aposC ∉ (escapeXml u).data ∧ quotC ∉ (escapeXml u).data ∧
      ampOkAux (escapeXml u).data = true) ∧
    (∀ s : String, unescChars (escapeXml (some s)).data = s.data) := by
  refine ⟨rfl, rfl, ?_, unesc_escapeXml⟩
  intro u
  refine ⟨escapeXml_no_lt u, escapeXml_no_gt u, escapeXml_no_apos u,
    escapeXml_no_quot u, ?_⟩
  match u with
  | none => rfl
  | some s =>
    by_cases hs : s = ""
    · simp [escapeXml, hs, ampOkAux]
    · simp only [escapeXml, if_neg hs]
      have := ampOk_escape s.data [] rfl
      simpa using this

/-! ## Claim C7 -/

/-- String extensionality via character data. -/
theorem strEq (a b : String) (h : a.data = b.data) : a = b := by
  cases a; cases b; exact congrArg String.mk h

/-- Appending the empty string is the identity. -/
theorem str_append_empty (s : String) : s ++ "" = s :=
  strEq _ _ (by simp [String.data_append])

/-- String append is associative. -/
theorem str_assoc (a b c : String) : (a ++ b) ++ c = a ++ (b ++ c) :=
  strEq _ _ (by simp [String.data_append])

/-- Rendering distributes over token list append. -/
theorem renderToks_append (a b : List Tok) :
    renderToks (a ++ b) = renderToks a ++ renderToks b := by
  induction a with
  | nil =>
    show renderToks b = "" ++ renderToks b
    exact strEq _ _ (by simp [String.data_append])
  | cons t r ih =>
    show strJoin (t.render :: (r ++ b).map Tok.render) = _
    show t.render ++ strJoin ((r ++ b).map Tok.render) = _
    have : strJoin ((r ++ b).map Tok.render) = renderToks (r ++ b) := rfl
    rw [this, ih, ← str_assoc]
    rfl

/-- Every token can be traced through `addText`: either it is kept
as-is or, when it is the last token, it reappears with the text
appended. -/
theorem addText_mem (s : String) : ∀ (ts : List Tok) (t : Tok), t ∈ ts →
    t ∈ addText s ts ∨
      ({ inner := t.inner, text := t.text ++ s } : Tok) ∈ addText s ts := by
  intro ts
  induction ts with
  | nil => intro t h; simp at h
  | cons t0 r ih =>
    intro t h
    cases r with
    | nil =>
      simp at h
      subst h
      right
      simp [addText]
    | cons t1 r2 =>
      rcases List.mem_cons.mp h with h1 | h2
      · subst h1
        left
        simp [addText]
      · rcases ih t h2 with hk | hm
        · left
          simp [addText]
          right
          exact hk
        · right
          simp [addText]
          right
          exact hm

/-- The rendering of a text-extended token. -/
theorem render_addText (t : Tok) (s : String) :
    (Tok.render { inner := t.inner, text := t.text ++ s }).data =
      t.render.data ++ s.data := by
  simp [Tok.render, String.data_append]

/-- A prefix of a member token's rendering is an infix of the rendering
of the token list after `addText`. -/
theorem infix_through_addText (x : List Char) (t : Tok) (ts : List Tok) (s : String)
    (h : t ∈ ts) (hx : x <+: t.render.data) :
    x <:+: (renderToks (addText s ts)).data := by
  rcases addText_mem s ts t h with hk | hm
  · exact (List.IsPrefix.isInfix hx).trans (render_infix_of_mem t _ hk)
  · have hx2 : x <+: (Tok.render { inner := t.inner, text := t.text ++ s }).data := by
      rw [render_addText]
      obtain ⟨u, hu⟩ := hx
      exact ⟨u ++ s.data, by rw [← hu]; simp⟩
    exact (List.IsPrefix.isInfix hx2).trans (render_infix_of_mem _ _ hm)

/-- The rendering of a middle segment is an infix of the whole
rendering. -/
theorem infix_renderToks_of_segment (a seg b : List Tok) :
    (renderToks seg).data <:+: (renderToks (a ++ seg ++ b)).data := by
  rw [renderToks_append, renderToks_append]
  rw [String.data_append, String.data_append]
  exact ⟨(renderToks a).data, (renderToks b).data, by simp⟩

/-- An infix of a middle segment's rendering is an infix of the whole
rendering. -/
theorem infix_segment (x : List Char) (a seg b : List Tok)
    (h : x <:+: (renderToks seg).data) :
    x <:+: (renderToks (a ++ seg ++ b)).data :=
  h.trans (infix_renderToks_of_segment a seg b)

/-- An infix of the left tokens' rendering survives appending tokens. -/
theorem infix_renderToks_right (x : List Char) (a b : List Tok)
    (h : x <:+: (renderToks a).data) : x <:+: (renderToks (a ++ b)).data := by
  rw [renderToks_append, String.data_append]
  exact infix_append_left h _

/-- An infix of the right tokens' rendering survives prepending
tokens. -/
theorem infix_renderToks_left (x : List Char) (a b : List Tok)
    (h : x <:+: (renderToks b).data) : x <:+: (renderToks (a ++ b)).data := by
  rw [renderToks_append, String.data_append]
  exact infix_append_right _ h

/-- C7 counterexample: a metadata record with a present cover image
(non-empty `coverData`, MIME type `image/png`) whose data URL contains
no comma produces an archive without any `OEBPS/images/cover.png`
entry — the Writer silently drops the cover when
`coverData.split(',')` does not have exactly two parts. -/
theorem C7_counterexample :
    (exportToEpub
      { title := "T", author := "A", description := "", publisher := "",
        language := "zh-CN", isbn := "", tags := [], coverData := "AAAA",
        coverMimeType := "image/png" } [] "u" "n").map (fun e => e.name) =
      ["mimetype", "META-INF/container.xml", "OEBPS/style.css",
        "OEBPS/content.opf", "OEBPS/toc.ncx"] ∧
    "OEBPS/images/cover.png" ∉
      (exportToEpub
        { title := "T", author := "A", description := "", publisher := "",
          language := "zh-CN", isbn := "", tags := [], coverData := "AAAA",
          coverMimeType := "image/png" } [] "u" "n").map (fun e => e.name) := by
  refine ⟨by decide, by decide⟩

/-- C7 (amended): when the cover MIME type is `image/png` and the cover
data URL splits at `,` into exactly two parts, the Writer emits the
entry `OEBPS/images/cover.png` (extension taken from the MIME subtype,
with `jpg` as fallback when the MIME type has no subtype), the OPF
manifest contains the `cover-image`-property item referencing it, and
the legacy `<meta name="cover">` element is present. -/
theorem C7_cover_emission (m : BookMetadata) (chs : List Chapter) (uuid now : String)
    (hmime : m.coverMimeType = "image/png")
    (hsplit : ∃ a b, splitChar ',' m.coverData = [a, b]) :
    (∃ payload, ((⟨"OEBPS/images/cover.png", payload, false, true⟩ : ZipEntry) ∈
        exportToEpub m chs uuid now)) ∧
    "<item id=\"cover-image\" href=\"images/cover.png\" media-type=\"image/png\" properties=\"cover-image\" />".data <:+:
      (contentOpf m chs uuid now).data ∧
    "<meta name=\"cover\" content=\"cover-image\" />".data <:+:
      (contentOpf m chs uuid now).data ∧
    coverExt "image/png" = "png" ∧ coverExt "image" = "jpg" ∧
      coverExt "image/" = "jpg" := by
  obtain ⟨a, b, hab⟩ := hsplit
  have hne : m.coverData ≠ "" := by
    intro h0
    rw [h0] at hab
    simp [splitChar, splitCharAux] at hab
  have hcov : coverInfo m = some ("cover." ++ coverExt m.coverMimeType, ⟨b⟩) := by
    unfold coverInfo
    rw [if_pos]
    · rw [hab]
    · simp [hne, hmime]
  have hext : coverExt m.coverMimeType = "png" := by rw [hmime]; decide
  refine ⟨⟨⟨b⟩, ?_⟩, ?_, ?_, rfl, rfl, rfl⟩
  · show _ ∈ exportToEpub m chs uuid now
    unfold exportToEpub
    rw [hcov, hext]
    apply List.mem_append_left
    apply List.mem_append_left
    apply List.mem_append_right
    simp
  · show _ <:+: (renderToks (opfToks m chs uuid now)).data
    unfold opfToks
    apply infix_renderToks_right
    apply infix_renderToks_right
    apply infix_renderToks_right
    apply infix_renderToks_left
    apply infix_through_addText _ ((⟨"item id=\"cover-image\" href=\"images/" ++ ("cover." ++ coverExt m.coverMimeType) ++ "\" media-type=\"" ++ m.coverMimeType ++ "\" properties=\"cover-image\" /", "\n"⟩ : Tok))
    · unfold manifestToks
      rw [hcov]
      apply List.mem_append_left
      apply List.mem_append_right
      simp
    · rw [hmime]
      decide
  · show _ <:+: (renderToks (opfToks m chs uuid now)).data
    unfold opfToks
    apply infix_renderToks_right
    apply infix_renderToks_right
    apply infix_renderToks_right
    apply infix_renderToks_right
    apply infix_renderToks_right
    apply infix_through_addText _ ((⟨"meta name=\"cover\" content=\"cover-image\" /", ""⟩ : Tok))
    · apply List.mem_append_right
      unfold coverMetaToks
      rw [hcov]
      simp
    · decide

/-! ## Behaviour of makeXhtmlCompatible on rendered blocks -/

/-- `replaceAllAux` on the empty list. -/
theorem replaceAllAux_nil (pat rep : List Char) (fuel : Nat) :
    replaceAllAux pat rep fuel [] = [] := by cases fuel <;> rfl

/-- Non-matching step of the replacement scan. -/
theorem replaceAllAux_step_no (pat rep : List Char) (fuel : Nat) (c : Char)
    (t : List Char) (h : ¬ pat.isPrefixOf (c :: t) = true) :
    replaceAllAux pat rep (fuel + 1) (c :: t) = c :: replaceAllAux pat rep fuel t := by
  simp only [replaceAllAux]
  rw [if_neg]
  intro hc
  exact h hc.2

/-- Matching step of the replacement scan. -/
theorem replaceAllAux_step_yes (pat rep : List Char) (fuel : Nat) (c : Char)
    (t : List Char) (hne : pat ≠ []) (h : pat.isPrefixOf (c :: t) = true) :
    replaceAllAux pat rep (fuel + 1) (c :: t) =
      rep ++ replaceAllAux pat rep fuel ((c :: t).drop pat.length) := by
  simp only [replaceAllAux]
  rw [if_pos ⟨hne, h⟩]

/-- The replacement scan does not depend on the fuel once it covers the
input length (for a non-empty pattern). -/
theorem replaceAllAux_mono (pat rep : List Char) (hne : pat ≠ []) :
    ∀ (f1 : Nat) (l : List Char) (f2 : Nat), l.length ≤ f1 → l.length ≤ f2 →
    replaceAllAux pat rep f1 l = replaceAllAux pat rep f2 l := by
  intro f1
  induction f1 with
  | zero =>
    intro l f2 h1 _
    have hl : l = [] := List.eq_nil_of_length_eq_zero (Nat.le_zero.mp h1)
    subst hl
    rw [replaceAllAux_nil, replaceAllAux_nil]
  | succ a ih =>
    intro l f2 h1 h2
    cases l with
    | nil => rw [replaceAllAux_nil, replaceAllAux_nil]
    | cons c t =>
      cases f2 with
      | zero => simp at h2
      | succ b =>
        have hpe : 0 < pat.length := List.length_pos.mpr hne
        by_cases hp : pat.isPrefixOf (c :: t) = true
        · rw [replaceAllAux_step_yes pat rep a c t hne hp,
            replaceAllAux_step_yes pat rep b c t hne hp]
          have hd : ((c :: t).drop pat.length).length ≤ a := by
            simp [List.length_drop] at h1 ⊢
            omega
          have hd2 : ((c :: t).drop pat.length).length ≤ b := by
            simp [List.length_drop] at h2 ⊢
            omega
          rw [ih _ b hd hd2]
        · rw [replaceAllAux_step_no pat rep a c t hp,
            replaceAllAux_step_no pat rep b c t hp]
          have ht1 : t.length ≤ a := by simp at h1; omega
          have ht2 : t.length ≤ b := by simp at h2; omega
          rw [ih t b ht1 ht2]

/-- The scan copies a `<`-free prefix verbatim when the pattern starts
with `<`. -/
theorem replaceAllN_skip (pt rep : List Char) : ∀ (a : List Char),
    (∀ c ∈ a, c ≠ '<') → ∀ rest,
    replaceAllN ('<' :: pt) rep (a ++ rest) = a ++ replaceAllN ('<' :: pt) rep rest := by
  intro a
  induction a with
  | nil => intro _ rest; simp
  | cons c a2 ih =>
    intro h rest
    have hc : c ≠ '<' := h c (by simp)
    have hnp : ¬ ('<' :: pt).isPrefixOf (c :: (a2 ++ rest)) = true := by
      simp [List.isPrefixOf]
      intro he
      exact absurd he.symm hc
    show replaceAllAux ('<' :: pt) rep ((c :: (a2 ++ rest)).length) (c :: (a2 ++ rest)) =
      _
    rw [List.length_cons, replaceAllAux_step_no _ _ _ _ _ hnp]
    have : replaceAllAux ('<' :: pt) rep (a2 ++ rest).length (a2 ++ rest) =
        replaceAllN ('<' :: pt) rep (a2 ++ rest) := rfl
    rw [this, ih (fun d hd => h d (by simp [hd])) rest]
    rfl

/-- The scan replaces a pattern occurrence at the head and copies the
`<`-free remainder of the segment. -/
theorem replaceAllN_match (pt rep u rest : List Char) (hu : ∀ c ∈ u, c ≠ '<') :
    replaceAllN ('<' :: pt) rep ((('<' :: pt) ++ u) ++ rest) =
      rep ++ (u ++ replaceAllN ('<' :: pt) rep rest) := by
  have hpre : ('<' :: pt).isPrefixOf (('<' :: pt) ++ (u ++ rest)) = true :=
    List.isPrefixOf_iff_prefix.mpr (List.prefix_append _ _)
  show replaceAllAux ('<' :: pt) rep ((('<' :: pt) ++ u) ++ rest).length
    ((('<' :: pt) ++ u) ++ rest) = _
  rw [List.append_assoc]
  cases hl : (('<' :: pt) ++ (u ++ rest)).length with
  | zero => simp at hl
  | succ f =>
    have hcons : ('<' :: pt) ++ (u ++ rest) = '<' :: (pt ++ (u ++ rest)) := by simp
    rw [hcons] at hpre ⊢
    rw [replaceAllAux_step_yes _ _ _ _ _ (by simp) hpre]
    have hdrop : ('<' :: (pt ++ (u ++ rest))).drop ('<' :: pt).length = u ++ rest := by
      have : '<' :: (pt ++ (u ++ rest)) = ('<' :: pt) ++ (u ++ rest) := by simp
      rw [this]
      exact List.drop_left _ _
    rw [hdrop]
    have hflen : (u ++ rest).length ≤ f := by
      have : ('<' :: (pt ++ (u ++ rest))).length = f + 1 := by
        rw [← hcons]; exact hl
      simp at this
      simp
      omega
    rw [replaceAllAux_mono ('<' :: pt) rep (by simp) f (u ++ rest)
      (u ++ rest).length hflen (le_refl _)]
    have : replaceAllAux ('<' :: pt) rep (u ++ rest).length (u ++ rest) =
        replaceAllN ('<' :: pt) rep (u ++ rest) := rfl
    rw [this, replaceAllN_skip pt rep u hu rest]

/-- One replacement pass over a join of well-formed segments, each of
which either starts with the pattern or can never start a match (even
into the following text). -/
theorem replaceAllN_segs (pt rep : List Char) : ∀ (segs : List String),
    (∀ s ∈ segs, segWF s ∧
      (('<' :: pt).isPrefixOf s.data = true ∨
        ∀ rest, ('<' :: pt).isPrefixOf (s.data ++ rest) = false)) →
    replaceAllN ('<' :: pt) rep (strJoin segs).data =
      (strJoin (segs.map (replaceSeg ('<' :: pt) rep))).data := by
  intro segs
  induction segs with
  | nil => intro _; rfl
  | cons s ss ih =>
    intro h
    obtain ⟨⟨t, hst, hnt⟩, hdisj⟩ := h s (by simp)
    have hjoin : (strJoin (s :: ss)).data = s.data ++ (strJoin ss).data := by
      simp [strJoin, String.data_append]
    have hjoin2 : (strJoin ((s :: ss).map (replaceSeg ('<' :: pt) rep))).data =
        (replaceSeg ('<' :: pt) rep s).data ++
          (strJoin (ss.map (replaceSeg ('<' :: pt) rep))).data := by
      simp [strJoin, String.data_append]
    rw [hjoin, hjoin2]
    by_cases hp : ('<' :: pt).isPrefixOf s.data = true
    · obtain ⟨u, hu⟩ := List.isPrefixOf_iff_prefix.mp hp
      have hu2 : ∀ c ∈ u, c ≠ '<' := by
        intro c hc he
        subst he
        apply hnt
        have heq : '<' :: (pt ++ u) = '<' :: t := by
          rw [← hst, ← hu]
          simp
        have ht2 : t = pt ++ u := by
          injection heq with h1 h2
          exact h2.symm
        rw [ht2]
        exact List.mem_append_right _ hc
      have hs2 : s.data ++ (strJoin ss).data = (('<' :: pt) ++ u) ++ (strJoin ss).data := by
        rw [hu]
      rw [hs2, replaceAllN_match pt rep u (strJoin ss).data hu2]
      rw [ih (fun x hx => h x (by simp [hx]))]
      have hrs : (replaceSeg ('<' :: pt) rep s).data = rep ++ u := by
        unfold replaceSeg
        rw [if_pos hp]
        show rep ++ s.data.drop ('<' :: pt).length = rep ++ u
        rw [← hu, List.drop_left]
      rw [hrs]
      simp
    · have hall : ∀ rest, ('<' :: pt).isPrefixOf (s.data ++ rest) = false := by
        rcases hdisj with hd | hd
        · exact absurd hd hp
        · exact hd
      have hs3 : s.data ++ (strJoin ss).data = '<' :: (t ++ (strJoin ss).data) := by
        rw [hst]; simp
      rw [hs3]
      have hnp : ¬ ('<' :: pt).isPrefixOf ('<' :: (t ++ (strJoin ss).data)) = true := by
        have := hall (strJoin ss).data
        rw [hs3] at this
        simp [this]
      show replaceAllAux ('<' :: pt) rep (('<' :: (t ++ (strJoin ss).data)).length)
        ('<' :: (t ++ (strJoin ss).data)) = _
      rw [List.length_cons, replaceAllAux_step_no _ _ _ _ _ hnp]
      have : replaceAllAux ('<' :: pt) rep (t ++ (strJoin ss).data).length
          (t ++ (strJoin ss).data) = replaceAllN ('<' :: pt) rep (t ++ (strJoin ss).data) := rfl
      rw [this, replaceAllN_skip pt rep t (fun c hc he => hnt (he ▸ hc)) _]
      rw [ih (fun x hx => h x (by simp [hx]))]
      have hrs : (replaceSeg ('<' :: pt) rep s).data = '<' :: t := by
        unfold replaceSeg
        rw [if_neg hp]
        exact hst
      rw [hrs]
      simp

/-- `fixImgAux` on the empty list. -/
theorem fixImgAux_nil (f : Nat) : fixImgAux f [] = [] := by cases f <;> rfl

/-- Non-matching step of the `img` scan. -/
theorem fixImgAux_step_no (f : Nat) (c : Char) (t : List Char)
    (h : ¬ ['<', 'i', 'm', 'g'].isPrefixOf (c :: t) = true) :
    fixImgAux (f + 1) (c :: t) = c :: fixImgAux f t := by
  simp only [fixImgAux]
  rw [if_neg h]

/-- The `img` scan copies a `<`-free prefix verbatim. -/
theorem fixImgN_skip : ∀ (a : List Char), (∀ c ∈ a, c ≠ '<') → ∀ rest,
    fixImgN (a ++ rest) = a ++ fixImgN rest := by
  intro a
  induction a with
  | nil => intro _ rest; simp
  | cons c a2 ih =>
    intro h rest
    have hc : c ≠ '<' := h c (by simp)
    have hnp : ¬ ['<', 'i', 'm', 'g'].isPrefixOf (c :: (a2 ++ rest)) = true := by
      simp [List.isPrefixOf]
      intro he
      exact absurd he.symm hc
    show fixImgAux ((c :: (a2 ++ rest)).length) (c :: (a2 ++ rest)) = _
    rw [List.length_cons, fixImgAux_step_no _ _ _ hnp]
    have : fixImgAux (a2 ++ rest).length (a2 ++ rest) = fixImgN (a2 ++ rest) := rfl
    rw [this, ih (fun d hd => h d (by simp [hd])) rest]
    rfl

/-- The `img` scan is the identity on a join of well-formed segments
none of which can start an `<img` match. -/
theorem fixImgN_noop_segs : ∀ (segs : List String),
    (∀ s ∈ segs, segWF s ∧
      ∀ rest, (['<', 'i', 'm', 'g']).isPrefixOf (s.data ++ rest) = false) →
    fixImgN (strJoin segs).data = (strJoin segs).data := by
  intro segs
  induction segs with
  | nil => intro _; rfl
  | cons s ss ih =>
    intro h
    obtain ⟨⟨t, hst, hnt⟩, hall⟩ := h s (by simp)
    have hjoin : (strJoin (s :: ss)).data = s.data ++ (strJoin ss).data := by
      simp [strJoin, String.data_append]
    rw [hjoin, hst]
    have hs3 : ('<' :: t) ++ (strJoin ss).data = '<' :: (t ++ (strJoin ss).data) := by
      simp
    rw [hs3]
    have hnp : ¬ ['<', 'i', 'm', 'g'].isPrefixOf ('<' :: (t ++ (strJoin ss).data)) = true := by
      have := hall (strJoin ss).data
      rw [hst] at this
      rw [hs3] at this
      simp [this]
    show fixImgAux (('<' :: (t ++ (strJoin ss).data)).length)
      ('<' :: (t ++ (strJoin ss).data)) = _
    rw [List.length_cons, fixImgAux_step_no _ _ _ hnp]
    have : fixImgAux (t ++ (strJoin ss).data).length (t ++ (strJoin ss).data) =
        fixImgN (t ++ (strJoin ss).data) := rfl
    rw [this, fixImgN_skip t (fun c hc he => hnt (he ▸ hc)) _]
    rw [ih (fun x hx => h x (by simp [hx]))]

/-- A match mismatch at the second character rules out a prefix
regardless of the following text. -/
theorem noPrefix_idx1 (c1 x c2 : Char) (p2 t rest : List Char) (h : x ≠ c2) :
    (c1 :: c2 :: p2).isPrefixOf ((c1 :: x :: t) ++ rest) = false := by
  simp [List.isPrefixOf]
  intro h2
  exact absurd h2.symm h

/-- A match mismatch at the third character rules out a prefix
regardless of the following text. -/
theorem noPrefix_idx2 (c0 c1 x c2 : Char) (p t rest : List Char) (h : x ≠ c2) :
    (c0 :: c1 :: c2 :: p).isPrefixOf ((c0 :: c1 :: x :: t) ++ rest) = false := by
  simp [List.isPrefixOf]
  intro h3
  exact absurd h3.symm h

/-- Data of a heading opening segment. -/
theorem headOpen_data (n : Nat) (t : String) :
    ("<h" ++ natStr n ++ ">" ++ escapeXml (some t)).data =
      '<' :: 'h' :: ((natStr n).data ++ '>' :: (escapeXml (some t)).data) := by
  rw [String.data_append, String.data_append, String.data_append]
  rw [show "<h".data = ['<', 'h'] from rfl, show ">".data = ['>'] from rfl]
  simp [List.append_assoc]

/-- Data of a heading closing segment. -/
theorem headClose_data (n : Nat) :
    ("</h" ++ natStr n ++ ">\n").data =
      '<' :: '/' :: 'h' :: ((natStr n).data ++ ['>', '\n']) := by
  rw [String.data_append, String.data_append]
  rw [show "</h".data = ['<', '/', 'h'] from rfl, show ">\n".data = ['>', '\n'] from rfl]
  simp [List.append_assoc]

/-- Data of a paragraph opening segment. -/
theorem paraOpen_data (t : String) :
    ("<p>" ++ escapeXml (some t)).data = '<' :: 'p' :: '>' :: (escapeXml (some t)).data := by
  rw [String.data_append, show "<p>".data = ['<', 'p', '>'] from rfl]
  rfl

/-- Heading opening segments are well-formed. -/
theorem segWF_headOpen (n : Nat) (t : String) :
    segWF ("<h" ++ natStr n ++ ">" ++ escapeXml (some t)) := by
  refine ⟨'h' :: ((natStr n).data ++ '>' :: (escapeXml (some t)).data),
    headOpen_data n t, ?_⟩
  intro hmem
  rcases List.mem_cons.mp hmem with h1 | h2
  · exact absurd h1 (by decide)
  rcases List.mem_append.mp h2 with h3 | h4
  · obtain ⟨hlo, hhi⟩ := natStr_digits n '<' h3
    exact absurd hhi (by decide)
  rcases List.mem_cons.mp h4 with h5 | h6
  · exact absurd h5 (by decide)
  · exact escapeXml_no_lt _ h6

/-- Heading closing segments are well-formed. -/
theorem segWF_headClose (n : Nat) : segWF ("</h" ++ natStr n ++ ">\n") := by
  refine ⟨'/' :: 'h' :: ((natStr n).data ++ ['>', '\n']), headClose_data n, ?_⟩
  intro hmem
  rcases List.mem_cons.mp hmem with h1 | h2
  · exact absurd h1 (by decide)
  rcases List.mem_cons.mp h2 with h3 | h4
  · exact absurd h3 (by decide)
  rcases List.mem_append.mp h4 with h5 | h6
  · obtain ⟨hlo, hhi⟩ := natStr_digits n '<' h5
    exact absurd hhi (by decide)
  · exact absurd h6 (by decide)

/-- Paragraph opening segments are well-formed. -/
theorem segWF_paraOpen (t : String) : segWF ("<p>" ++ escapeXml (some t)) := by
  refine ⟨'p' :: '>' :: (escapeXml (some t)).data, paraOpen_data t, ?_⟩
  intro hmem
  rcases List.mem_cons.mp hmem with h1 | h2
  · exact absurd h1 (by decide)
  rcases List.mem_cons.mp h2 with h3 | h4
  · exact absurd h3 (by decide)
  · exact escapeXml_no_lt _ h4

/-- The paragraph closing segment is well-formed. -/
theorem segWF_paraClose : segWF "</p>\n" := ⟨['/', 'p', '>', '\n'], rfl, by decide⟩

/-- The raw thematic-break segment is well-formed. -/
theorem segWF_hr : segWF "<hr>\n" := ⟨['h', 'r', '>', '\n'], rfl, by decide⟩

/-- The self-closed thematic-break segment is well-formed. -/
theorem segWF_hrX : segWF "<hr />\n" := ⟨['h', 'r', ' ', '/', '>', '\n'], rfl, by decide⟩

/-- The first digit of a decimal representation, explicitly. -/
theorem natStr_head (n : Nat) : ∃ d ds, (natStr n).data = d :: ds ∧
    '0' ≤ d ∧ d ≤ '9' := by
  cases h : (natStr n).data with
  | nil => exact absurd h (natStr_ne_nil n)
  | cons d ds =>
    obtain ⟨h1, h2⟩ := natStr_digits n d (by rw [h]; simp)
    exact ⟨d, ds, rfl, h1, h2⟩

/-- No tag pattern whose third character is a letter matches a heading
opening segment (the third character there is a digit). -/
theorem headOpen_noPrefix (n : Nat) (t : String) (c2 : Char) (p : List Char)
    (hc : ∀ d, '0' ≤ d → d ≤ '9' → d ≠ c2) (rest : List Char) :
    ('<' :: 'h' :: c2 :: p).isPrefixOf
      (("<h" ++ natStr n ++ ">" ++ escapeXml (some t)).data ++ rest) = false := by
  obtain ⟨d, ds, hd, hlo, hhi⟩ := natStr_head n
  rw [headOpen_data, hd]
  have : ('<' :: 'h' :: ((d :: ds) ++ '>' :: (escapeXml (some t)).data)) =
      '<' :: 'h' :: d :: (ds ++ '>' :: (escapeXml (some t)).data) := by simp
  rw [this]
  exact noPrefix_idx2 '<' 'h' d c2 p _ rest (hc d hlo hhi)

/-- The five shapes of raw rendered block segments. -/
theorem renderBlockSegs_cases (b : MdBlock) (s : String) (hs : s ∈ renderBlockSegs b) :
    (∃ n t, s = "<h" ++ natStr n ++ ">" ++ escapeXml (some t)) ∨
    (∃ n, s = "</h" ++ natStr n ++ ">\n") ∨
    (∃ t, s = "<p>" ++ escapeXml (some t)) ∨ s = "</p>\n" ∨ s = "<hr>\n" := by
  cases b with
  | heading n t =>
    simp [renderBlockSegs] at hs
    rcases hs with h | h
    · exact Or.inl ⟨n, t, h⟩
    · exact Or.inr (Or.inl ⟨n, h⟩)
  | para t =>
    simp [renderBlockSegs] at hs
    rcases hs with h | h
    · exact Or.inr (Or.inr (Or.inl ⟨t, h⟩))
    · exact Or.inr (Or.inr (Or.inr (Or.inl h)))
  | hr =>
    simp [renderBlockSegs] at hs
    exact Or.inr (Or.inr (Or.inr (Or.inr hs)))

/-- The five shapes of XHTML-normalized block segments. -/
theorem renderBlockSegsX_cases (b : MdBlock) (s : String) (hs : s ∈ renderBlockSegsX b) :
    (∃ n t, s = "<h" ++ natStr n ++ ">" ++ escapeXml (some t)) ∨
    (∃ n, s = "</h" ++ natStr n ++ ">\n") ∨
    (∃ t, s = "<p>" ++ escapeXml (some t)) ∨ s = "</p>\n" ∨ s = "<hr />\n" := by
  cases b with
  | heading n t =>
    simp [renderBlockSegsX] at hs
    rcases hs with h | h
    · exact Or.inl ⟨n, t, h⟩
    · exact Or.inr (Or.inl ⟨n, h⟩)
  | para t =>
    simp [renderBlockSegsX] at hs
    rcases hs with h | h
    · exact Or.inr (Or.inr (Or.inl ⟨t, h⟩))
    · exact Or.inr (Or.inr (Or.inr (Or.inl h)))
  | hr =>
    simp [renderBlockSegsX] at hs
    exact Or.inr (Or.inr (Or.inr (Or.inr hs)))

/-- Per-segment hypothesis of the `<hr>` pass on raw block segments. -/
theorem hr_pass_hyp (b : MdBlock) (s : String) (hs : s ∈ renderBlockSegs b) :
    segWF s ∧ ("<hr>".data.isPrefixOf s.data = true ∨
      ∀ rest, "<hr>".data.isPrefixOf (s.data ++ rest) = false) := by
  rcases renderBlockSegs_cases b s hs with ⟨n, t, rfl⟩ | ⟨n, rfl⟩ | ⟨t, rfl⟩ | rfl | rfl
  · refine ⟨segWF_headOpen n t, Or.inr (fun rest => ?_)⟩
    exact headOpen_noPrefix n t 'r' ['>']
      (fun d h1 h2 he => by subst he; exact absurd h2 (by decide)) rest
  · refine ⟨segWF_headClose n, Or.inr (fun rest => ?_)⟩
    rw [headClose_data]
    exact noPrefix_idx1 '<' '/' 'h' ['r', '>'] _ rest (by decide)
  · refine ⟨segWF_paraOpen t, Or.inr (fun rest => ?_)⟩
    rw [paraOpen_data]
    exact noPrefix_idx1 '<' 'p' 'h' ['r', '>'] _ rest (by decide)
  · refine ⟨segWF_paraClose, Or.inr (fun rest => ?_)⟩
    exact noPrefix_idx1 '<' '/' 'h' ['r', '>'] ['p', '>', '\n'] rest (by decide)
  · exact ⟨segWF_hr, Or.inl (by decide)⟩

/-- Per-segment hypothesis of the `<br>` pass on normalized block
segments. -/
theorem br_pass_hyp (b : MdBlock) (s : String) (hs : s ∈ renderBlockSegsX b) :
    segWF s ∧ ("<br>".data.isPrefixOf s.data = true ∨
      ∀ rest, "<br>".data.isPrefixOf (s.data ++ rest) = false) := by
  rcases renderBlockSegsX_cases b s hs with ⟨n, t, rfl⟩ | ⟨n, rfl⟩ | ⟨t, rfl⟩ | rfl | rfl
  · refine ⟨segWF_headOpen n t, Or.inr (fun rest => ?_)⟩
    rw [headOpen_data]
    exact noPrefix_idx1 '<' 'h' 'b' ['r', '>'] _ rest (by decide)
  · refine ⟨segWF_headClose n, Or.inr (fun rest => ?_)⟩
    rw [headClose_data]
    exact noPrefix_idx1 '<' '/' 'b' ['r', '>'] _ rest (by decide)
  · refine ⟨segWF_paraOpen t, Or.inr (fun rest => ?_)⟩
    rw [paraOpen_data]
    exact noPrefix_idx1 '<' 'p' 'b' ['r', '>'] _ rest (by decide)
  · refine ⟨segWF_paraClose, Or.inr (fun rest => ?_)⟩
    exact noPrefix_idx1 '<' '/' 'b' ['r', '>'] ['p', '>', '\n'] rest (by decide)
  · refine ⟨segWF_hrX, Or.inr (fun rest => ?_)⟩
    exact noPrefix_idx1 '<' 'h' 'b' ['r', '>'] ['r', ' ', '/', '>', '\n'] rest (by decide)

/-- Per-segment hypothesis of the `img` pass on normalized block
segments. -/
theorem img_pass_hyp (b : MdBlock) (s : String) (hs : s ∈ renderBlockSegsX b) :
    segWF s ∧ ∀ rest, (['<', 'i', 'm', 'g']).isPrefixOf (s.data ++ rest) = false := by
  rcases renderBlockSegsX_cases b s hs with ⟨n, t, rfl⟩ | ⟨n, rfl⟩ | ⟨t, rfl⟩ | rfl | rfl
  · refine ⟨segWF_headOpen n t, fun rest => ?_⟩
    rw [headOpen_data]
    exact noPrefix_idx1 '<' 'h' 'i' ['m', 'g'] _ rest (by decide)
  · refine ⟨segWF_headClose n, fun rest => ?_⟩
    rw [headClose_data]
    exact noPrefix_idx1 '<' '/' 'i' ['m', 'g'] _ rest (by decide)
  · refine ⟨segWF_paraOpen t, fun rest => ?_⟩
    rw [paraOpen_data]
    exact noPrefix_idx1 '<' 'p' 'i' ['m', 'g'] _ rest (by decide)
  · refine ⟨segWF_paraClose, fun rest => ?_⟩
    exact noPrefix_idx1 '<' '/' 'i' ['m', 'g'] ['p', '>', '\n'] rest (by decide)
  · refine ⟨segWF_hrX, fun rest => ?_⟩
    exact noPrefix_idx1 '<' 'h' 'i' ['m', 'g'] ['r', ' ', '/', '>', '\n'] rest (by decide)

/-- A segment that does not start with the pattern is kept by the
per-segment replacement. -/
theorem replaceSeg_no (pat rep : List Char) (s : String)
    (h : pat.isPrefixOf s.data = false) : replaceSeg pat rep s = s := by
  simp [replaceSeg, h]

/-- The character data of the `<hr>` pattern. -/
theorem hrPatData : "<hr>".data = '<' :: ['h', 'r', '>'] := rfl

/-- The character data of the `<br>` pattern. -/
theorem brPatData : "<br>".data = '<' :: ['b', 'r', '>'] := rfl

/-- Mapping the `<hr>` replacement over a raw block rendering yields the
normalized rendering. -/
theorem map_replaceSeg_hr (b : MdBlock) :
    (renderBlockSegs b).map (replaceSeg ('<' :: ['h', 'r', '>']) "<hr />".data) =
      renderBlockSegsX b := by
  cases b with
  | heading n t =>
    have e1 : replaceSeg ('<' :: ['h', 'r', '>']) "<hr />".data
        ("<h" ++ natStr n ++ ">" ++ escapeXml (some t)) =
        "<h" ++ natStr n ++ ">" ++ escapeXml (some t) := by
      apply replaceSeg_no
      have h := headOpen_noPrefix n t 'r' ['>']
        (fun d hlo hhi he => by subst he; exact absurd hhi (by decide)) []
      rwa [List.append_nil] at h
    have e2 : replaceSeg ('<' :: ['h', 'r', '>']) "<hr />".data
        ("</h" ++ natStr n ++ ">\n") = "</h" ++ natStr n ++ ">\n" := by
      apply replaceSeg_no
      rw [headClose_data]
      have h := noPrefix_idx1 '<' '/' 'h' ['r', '>']
        ('h' :: ((natStr n).data ++ ['>', '\n'])) [] (by decide)
      rwa [List.append_nil] at h
    simp [renderBlockSegs, renderBlockSegsX, e1, e2]
  | para t =>
    have e1 : replaceSeg ('<' :: ['h', 'r', '>']) "<hr />".data
        ("<p>" ++ escapeXml (some t)) = "<p>" ++ escapeXml (some t) := by
      apply replaceSeg_no
      rw [paraOpen_data]
      have h := noPrefix_idx1 '<' 'p' 'h' ['r', '>']
        ('>' :: (escapeXml (some t)).data) [] (by decide)
      rwa [List.append_nil] at h
    simp [renderBlockSegs, renderBlockSegsX, e1]
    decide
  | hr =>
    simp [renderBlockSegs, renderBlockSegsX]
    decide

/-- Mapping the `<br>` replacement over a normalized block rendering is
the identity. -/
theorem map_replaceSeg_br (b : MdBlock) :
    (renderBlockSegsX b).map (replaceSeg ('<' :: ['b', 'r', '>']) "<br />".data) =
      renderBlockSegsX b := by
  cases b with
  | heading n t =>
    have e1 : replaceSeg ('<' :: ['b', 'r', '>']) "<br />".data
        ("<h" ++ natStr n ++ ">" ++ escapeXml (some t)) =
        "<h" ++ natStr n ++ ">" ++ escapeXml (some t) := by
      apply replaceSeg_no
      rw [headOpen_data]
      have h := noPrefix_idx1 '<' 'h' 'b' ['r', '>']
        ((natStr n).data ++ '>' :: (escapeXml (some t)).data) [] (by decide)
      rwa [List.append_nil] at h
    have e2 : replaceSeg ('<' :: ['b', 'r', '>']) "<br />".data
        ("</h" ++ natStr n ++ ">\n") = "</h" ++ natStr n ++ ">\n" := by
      apply replaceSeg_no
      rw [headClose_data]
      have h := noPrefix_idx1 '<' '/' 'b' ['r', '>']
        ('h' :: ((natStr n).data ++ ['>', '\n'])) [] (by decide)
      rwa [List.append_nil] at h
    simp [renderBlockSegsX, e1, e2]
  | para t =>
    have e1 : replaceSeg ('<' :: ['b', 'r', '>']) "<br />".data
        ("<p>" ++ escapeXml (some t)) = "<p>" ++ escapeXml (some t) := by
      apply replaceSeg_no
      rw [paraOpen_data]
      have h := noPrefix_idx1 '<' 'p' 'b' ['r', '>']
        ('>' :: (escapeXml (some t)).data) [] (by decide)
      rwa [List.append_nil] at h
    simp [renderBlockSegsX, e1]
    decide
  | hr =>
    simp [renderBlockSegsX]
    decide

/-- `makeXhtmlCompatible` over the transcoded Markdown is exactly the
join of the normalized block renderings: the `<hr>` pass self-closes the
thematic breaks, and the `<br>`/`img` passes find nothing to change. -/
theorem makeXhtml_marked (md : String) :
    makeXhtmlCompatible (markedParse md) =
      strJoin (((mdBlocks md).map renderBlockSegsX).flatten) := by
  apply strEq
  have hmemX : ∀ s ∈ ((mdBlocks md).map renderBlockSegsX).flatten,
      ∃ b ∈ mdBlocks md, s ∈ renderBlockSegsX b := by
    intro s hs
    rw [List.mem_flatten] at hs
    obtain ⟨l, hl, hsl⟩ := hs
    rw [List.mem_map] at hl
    obtain ⟨b, hb, rfl⟩ := hl
    exact ⟨b, hb, hsl⟩
  have step1 : replaceAllN ('<' :: ['h', 'r', '>']) "<hr />".data
      (strJoin (((mdBlocks md).map renderBlockSegs).flatten)).data =
      (strJoin (((mdBlocks md).map renderBlockSegsX).flatten)).data := by
    rw [replaceAllN_segs ['h', 'r', '>'] "<hr />".data _ (by
      intro s hs
      rw [List.mem_flatten] at hs
      obtain ⟨l, hl, hsl⟩ := hs
      rw [List.mem_map] at hl
      obtain ⟨b, hb, rfl⟩ := hl
      have h := hr_pass_hyp b s hsl
      rwa [hrPatData] at h)]
    have hm : (((mdBlocks md).map renderBlockSegs).flatten).map
        (replaceSeg ('<' :: ['h', 'r', '>']) "<hr />".data) =
        ((mdBlocks md).map renderBlockSegsX).flatten := by
      rw [List.map_flatten, List.map_map]
      congr 1
      exact List.map_congr_left (fun b _ => by
        simpa [Function.comp] using map_replaceSeg_hr b)
    rw [hm]
  have step2 : replaceAllN ('<' :: ['b', 'r', '>']) "<br />".data
      (strJoin (((mdBlocks md).map renderBlockSegsX).flatten)).data =
      (strJoin (((mdBlocks md).map renderBlockSegsX).flatten)).data := by
    rw [replaceAllN_segs ['b', 'r', '>'] "<br />".data _ (by
      intro s hs
      obtain ⟨b, hb, hsl⟩ := hmemX s hs
      have h := br_pass_hyp b s hsl
      rwa [brPatData] at h)]
    have hm : (((mdBlocks md).map renderBlockSegsX).flatten).map
        (replaceSeg ('<' :: ['b', 'r', '>']) "<br />".data) =
        ((mdBlocks md).map renderBlockSegsX).flatten := by
      rw [List.map_flatten, List.map_map]
      congr 1
      exact List.map_congr_left (fun b _ => by
        simpa [Function.comp] using map_replaceSeg_br b)
    rw [hm]
  have step3 : fixImgN
      (strJoin (((mdBlocks md).map renderBlockSegsX).flatten)).data =
      (strJoin (((mdBlocks md).map renderBlockSegsX).flatten)).data := by
    apply fixImgN_noop_segs
    intro s hs
    obtain ⟨b, hb, hsl⟩ := hmemX s hs
    exact img_pass_hyp b s hsl
  show fixImgN (replaceAllN "<br>".data "<br />".data
      (replaceAllN "<hr>".data "<hr />".data (markedParse md).data)) = _
  rw [hrPatData, brPatData, show (markedParse md).data =
    (strJoin (((mdBlocks md).map renderBlockSegs).flatten)).data from rfl]
  rw [step1, step2, step3]

/-- Witness for C7: the amended cover-emission theorem at a concrete
metadata record whose data URL has exactly one comma. -/
theorem C7_cover_emission_witness :
    (∃ payload, ((⟨"OEBPS/images/cover.png", payload, false, true⟩ : ZipEntry) ∈
        exportToEpub ⟨"T", "A", "", "", "", "", [], "data:image/png;base64,AAAA", "image/png"⟩ [] "u" "n")) ∧
    "<item id=\"cover-image\" href=\"images/cover.png\" media-type=\"image/png\" properties=\"cover-image\" />".data <:+:
      (contentOpf ⟨"T", "A", "", "", "", "", [], "data:image/png;base64,AAAA", "image/png"⟩ [] "u" "n").data ∧
    "<meta name=\"cover\" content=\"cover-image\" />".data <:+:
      (contentOpf ⟨"T", "A", "", "", "", "", [], "data:image/png;base64,AAAA", "image/png"⟩ [] "u" "n").data ∧
    coverExt "image/png" = "png" ∧ coverExt "image" = "jpg" ∧
      coverExt "image/" = "jpg" :=
  C7_cover_emission ⟨"T", "A", "", "", "", "", [], "data:image/png;base64,AAAA", "image/png"⟩
    [] "u" "n" rfl ⟨"data:image/png;base64".data, "AAAA".data, by decide⟩

/-- Every normalized block segment is well-formed. -/
theorem segWF_renderX (b : MdBlock) (s : String) (hs : s ∈ renderBlockSegsX b) :
    segWF s := by
  rcases renderBlockSegsX_cases b s hs with ⟨n, t, rfl⟩ | ⟨n, rfl⟩ | ⟨t, rfl⟩ | rfl | rfl
  exacts [segWF_headOpen n t, segWF_headClose n, segWF_paraOpen t,
    segWF_paraClose, segWF_hrX]

/-- All segments of a normalized rendering are well-formed. -/
theorem segWF_renderX_flatten (bs : List MdBlock) (s : String)
    (hs : s ∈ (bs.map renderBlockSegsX).flatten) : segWF s := by
  rw [List.mem_flatten] at hs
  obtain ⟨l, hl, hsl⟩ := hs
  rw [List.mem_map] at hl
  obtain ⟨b, hb, rfl⟩ := hl
  exact segWF_renderX b s hsl

/-- When the first Markdown block is a heading, the first element token
of the normalized rendering is its opening-tag token. -/
theorem headTok_first (n : Nat) (t : String) (rest : List MdBlock) :
    firstElementTok (strJoin (((MdBlock.heading n t :: rest).map renderBlockSegsX).flatten)) =
      some ('h' :: ((natStr n).data ++ '>' :: (escapeXml (some t)).data)) := by
  unfold firstElementTok
  rw [tokensOf_strJoin _ (segWF_renderX_flatten (MdBlock.heading n t :: rest))]
  simp only [List.map_cons, List.flatten_cons, renderBlockSegsX, List.map_append]
  rw [show ("<h" ++ natStr n ++ ">" ++ escapeXml (some t)).data.tail =
    'h' :: ((natStr n).data ++ '>' :: (escapeXml (some t)).data) from by
      rw [headOpen_data]; rfl]
  exact List.find?_cons_of_pos _ rfl

/-- The tag name recovered from a heading opening token. -/
theorem tagNameOf_headTok (n : Nat) (t : String) :
    tagNameOf ('h' :: ((natStr n).data ++ '>' :: (escapeXml (some t)).data)) =
      'h' :: (natStr n).data := by
  have hdig : ∀ c ∈ (natStr n).data, '0' ≤ c ∧ c ≤ '9' := natStr_digits n
  have htag : tagStrOf ('h' :: ((natStr n).data ++ '>' :: (escapeXml (some t)).data)) =
      'h' :: (natStr n).data := by
    unfold tagStrOf
    rw [List.takeWhile_cons]
    rw [if_pos (by decide)]
    rw [takeWhile_append_stop _ (fun c hc => by
      obtain ⟨h1, h2⟩ := hdig c hc
      simpa using (digit_ne c h1 h2).2.1) '>' (by simp)]
  unfold tagNameOf
  rw [htag, List.takeWhile_eq_self_iff.mpr]
  intro c hc
  rcases List.mem_cons.mp hc with rfl | hc2
  · decide
  · obtain ⟨h1, h2⟩ := hdig c hc2
    obtain ⟨_, hgt, _, _, hsl, _, hws, _⟩ := digit_ne c h1 h2
    simp [hgt, hsl, hws]

/-- The text content recovered from a heading opening token is the
original heading text. -/
theorem elemText_headTok (n : Nat) (t : String) :
    elemText ('h' :: ((natStr n).data ++ '>' :: (escapeXml (some t)).data)) = t := by
  have hdig : ∀ c ∈ (natStr n).data, '0' ≤ c ∧ c ≤ '9' := natStr_digits n
  have htext : textAfter ('h' :: ((natStr n).data ++ '>' :: (escapeXml (some t)).data)) =
      (escapeXml (some t)).data := by
    unfold textAfter
    rw [show ('h' :: ((natStr n).data ++ '>' :: (escapeXml (some t)).data)) =
      ('h' :: (natStr n).data) ++ '>' :: (escapeXml (some t)).data from by simp]
    rw [dropWhile_append_stop _ (fun c hc => by
      rcases List.mem_cons.mp hc with rfl | hc2
      · decide
      · obtain ⟨h1, h2⟩ := hdig c hc2
        simpa using (digit_ne c h1 h2).2.1) '>' (by simp)]
    rfl
  unfold elemText
  rw [htext, unesc_escapeXml]

/-- The Writer's duplicate-title check, computed on the block structure:
it fires exactly for a leading level-1 heading whose trimmed text equals
the trimmed title. -/
theorem chapterHasTitle_heading (title content t : String) (n : Nat)
    (rest : List MdBlock) (hb : mdBlocks content = MdBlock.heading n t :: rest) :
    chapterHasTitle title (makeXhtmlCompatible (markedParse content)) =
      (decide (n = 1) && decide (jsTrim t = jsTrim title)) := by
  have hfirst : firstElementTok (makeXhtmlCompatible (markedParse content)) =
      some ('h' :: ((natStr n).data ++ '>' :: (escapeXml (some t)).data)) := by
    rw [makeXhtml_marked, hb]
    exact headTok_first n t rest
  unfold chapterHasTitle
  rw [hfirst]
  simp only []
  rw [tagNameOf_headTok, elemText_headTok]
  have htag : ('h' :: (natStr n).data = ['h', '1']) ↔ n = 1 := by
    constructor
    · intro h
      have h2 : (natStr n).data = ['1'] := by
        injection h with _ h2
      have h3 : natStr n = natStr 1 := strEq _ _ (by rw [h2]; decide)
      exact natStr_inj h3
    · intro h
      subst h
      decide
  by_cases hn : n = 1
  · subst hn
    simp [htag]
  · simp [htag, hn]

/-- C5: counterexample.  For chapter title `Intro` and content
`## Intro`, the first top-level element of the transcoded HTML is a
heading (`h2`) whose trimmed text equals the trimmed chapter title, yet
the Writer still prepends an `<h1>`: the body is not left as-is and ends
up with two headings reading `Intro`.  The code compares
`firstChild.tagName === 'H1'` only (line 117), so matching headings of
any other level are not deduplicated, contradicting the claim's "a
heading". -/
theorem C5_counterexample :
    (∃ tok, firstElementTok (makeXhtmlCompatible (markedParse "## Intro")) = some tok ∧
      tagNameOf tok = ['h', '2'] ∧ jsTrim (elemText tok) = jsTrim "Intro") ∧
    chapterBody "Intro" "## Intro" ≠ makeXhtmlCompatible (markedParse "## Intro") ∧
    chapterBody "Intro" "## Intro" = "<h1>Intro</h1>\n<h2>Intro</h2>\n" := by
  refine ⟨⟨"h2>Intro".data, by decide, by decide, by decide⟩, by decide, by decide⟩

/-- C5 (amended): the Writer's duplicate-title check matches only a
leading level-1 heading.  When the Markdown starts with a heading block
of level `n` and text `t`: the body is left as-is exactly when `n = 1`
and the trimmed heading text equals the trimmed title; otherwise — a
different level, or different text — the escaped title is prepended as
an `<h1>`.  In particular chapter `{title: "Intro", content: "# Intro\n\nBody"}`
yields a body with exactly one heading reading `Intro`. -/
theorem C5_title_dedup (title content t : String) (n : Nat) (rest : List MdBlock)
    (hb : mdBlocks content = MdBlock.heading n t :: rest) :
    (n = 1 → jsTrim t = jsTrim title →
      chapterBody title content = makeXhtmlCompatible (markedParse content)) ∧
    (n ≠ 1 ∨ jsTrim t ≠ jsTrim title →
      chapterBody title content =
        "<h1>" ++ escapeXml (some title) ++ "</h1>\n" ++
          makeXhtmlCompatible (markedParse content)) ∧
    chapterBody "Intro" "# Intro\n\nBody" = "<h1>Intro</h1>\n<p>Body</p>\n" := by
  have hct := chapterHasTitle_heading title content t n rest hb
  refine ⟨?_, ?_, by decide⟩
  · intro hn htr
    subst hn
    rw [htr] at hct
    simp at hct
    simp [chapterBody, hct]
  · intro hcase
    have hfalse : chapterHasTitle title (makeXhtmlCompatible (markedParse content)) = false := by
      rcases hcase with hn | htr
      · rw [hct]; simp [hn]
      · rw [hct]; simp [htr]
    simp [chapterBody, hfalse]

/-- Witness for C5: the amended theorem at the concrete chapter
`{title: "Intro", content: "# Intro\n\nBody"}`. -/
theorem C5_title_dedup_witness :
    ((1 : Nat) = 1 → jsTrim "Intro" = jsTrim "Intro" →
      chapterBody "Intro" "# Intro\n\nBody" =
        makeXhtmlCompatible (markedParse "# Intro\n\nBody")) ∧
    ((1 : Nat) ≠ 1 ∨ jsTrim "Intro" ≠ jsTrim "Intro" →
      chapterBody "Intro" "# Intro\n\nBody" =
        "<h1>" ++ escapeXml (some "Intro") ++ "</h1>\n" ++
          makeXhtmlCompatible (markedParse "# Intro\n\nBody")) ∧
    chapterBody "Intro" "# Intro\n\nBody" = "<h1>Intro</h1>\n<p>Body</p>\n" :=
  C5_title_dedup "Intro" "# Intro\n\nBody" "Intro" 1 [MdBlock.para "Body"] (by decide)

/-- C6: counterexample.  The document `<html><body><h1></h1><p>X</p></body></html>`
has a first `h1`/`h2` heading, but its text is empty, and JavaScript
`heading?.textContent || ...` treats the empty string as absent: the
Reader synthesizes `Chapter 1` instead of letting the present heading
supply the (empty) title, and the heading is not removed. -/
theorem C6_counterexample :
    ((tokensOf "<html><body><h1></h1><p>X</p></body></html>").find? isH12Tok).isSome = true ∧
    (processChapterDoc 0 "cid" "<html><body><h1></h1><p>X</p></body></html>").title =
      "Chapter 1" ∧
    (processChapterDoc 0 "cid" "<html><body><h1></h1><p>X</p></body></html>").title ≠
      elemText (((tokensOf "<html><body><h1></h1><p>X</p></body></html>").find? isH12Tok).getD []) := by
  refine ⟨by decide, by decide, by decide⟩

/-- C6 (amended): the first `h1`/`h2` heading supplies the chapter title
only when its text is non-empty (the code reads
`heading?.textContent || ...`, so an empty text falls back like a missing
heading); a non-empty first heading always has its node removed before
transcoding (the code's extra `title.trim() === heading.textContent.trim()`
guard is then automatically true); with no heading, or an empty-text
heading, the title is `Chapter <position+1>` and the body is transcoded
unchanged.  Concretely, a body starting with `<h1>Intro</h1>` followed by
`<p>More</p>` yields title `Intro` and Markdown `More`, which does not
repeat the title as a heading. -/
theorem C6_title_extraction (i : Nat) (cid doc : String) :
    (∀ h, (tokensOf doc).find? isH12Tok = some h → elemText h ≠ "" →
      (processChapterDoc i cid doc).title = elemText h ∧
      (processChapterDoc i cid doc).content =
        turndownToks (removeFirstH12 (sectionToks "body".data (tokensOf doc)))) ∧
    ((tokensOf doc).find? isH12Tok = none →
      (processChapterDoc i cid doc).title = "Chapter " ++ natStr (i + 1) ∧
      (processChapterDoc i cid doc).content =
        turndownToks (sectionToks "body".data (tokensOf doc))) ∧
    (∀ h, (tokensOf doc).find? isH12Tok = some h → elemText h = "" →
      (processChapterDoc i cid doc).title = "Chapter " ++ natStr (i + 1) ∧
      (processChapterDoc i cid doc).content =
        turndownToks (sectionToks "body".data (tokensOf doc))) ∧
    processChapterDoc 0 cid "<html><body><h1>Intro</h1><p>More</p></body></html>" =
      { id := cid, title := "Intro", content := "More", order := 0 } := by
  refine ⟨?_, ?_, ?_, ?_⟩
  · intro h hfind hne
    constructor
    · simp [processChapterDoc, hfind, hne]
    · simp [processChapterDoc, hfind, hne]
  · intro hfind
    constructor
    · simp [processChapterDoc, hfind]
    · simp [processChapterDoc, hfind]
  · intro h hfind hempty
    constructor
    · simp [processChapterDoc, hfind, hempty]
    · simp [processChapterDoc, hfind, hempty]
  · rfl

/-- Witness for C6: the amended theorem applied to a document with a
non-empty first heading and to a document without any heading. -/
theorem C6_title_extraction_witness :
    ((processChapterDoc 0 "c" "<html><body><h1>Intro</h1><p>More</p></body></html>").title =
      elemText "h1>Intro".data ∧
     (processChapterDoc 0 "c" "<html><body><h1>Intro</h1><p>More</p></body></html>").content =
      turndownToks (removeFirstH12 (sectionToks "body".data
        (tokensOf "<html><body><h1>Intro</h1><p>More</p></body></html>")))) ∧
    ((processChapterDoc 3 "c" "<html><body><p>X</p></body></html>").title =
      "Chapter " ++ natStr 4 ∧
     (processChapterDoc 3 "c" "<html><body><p>X</p></body></html>").content =
      turndownToks (sectionToks "body".data (tokensOf "<html><body><p>X</p></body></html>"))) :=
  ⟨(C6_title_extraction 0 "c" "<html><body><h1>Intro</h1><p>More</p></body></html>").1
      "h1>Intro".data (by decide) (by decide),
   (C6_title_extraction 3 "c" "<html><body><p>X</p></body></html>").2.1 (by decide)⟩

/-- C8: in the Reader's spine loop, an idref with no manifest entry is
skipped silently and the loop continues with the remaining spine
entries at the next index; a resolved href whose archive entry is
missing is skipped the same way; a resolvable and loadable entry
contributes exactly one chapter in spine order.  The loop is a total
function into a chapter list, so no failure is possible. -/
theorem C8_spine_skip (entries : List ZipEntry) (opfDir : String)
    (manifest : List (String × String)) (freshId : Nat → String)
    (i : Nat) (idref : String) (rest : List String) :
    (mapLookup manifest idref = none →
      buildChaptersAux entries opfDir manifest freshId i (idref :: rest) =
        buildChaptersAux entries opfDir manifest freshId (i + 1) rest) ∧
    (∀ href, mapLookup manifest idref = some href → href ≠ "" →
      lookupFile entries (if opfDir = "" then href else opfDir ++ "/" ++ href) = none →
      buildChaptersAux entries opfDir manifest freshId i (idref :: rest) =
        buildChaptersAux entries opfDir manifest freshId (i + 1) rest) ∧
    (∀ href html, mapLookup manifest idref = some href → href ≠ "" →
      lookupFile entries (if opfDir = "" then href else opfDir ++ "/" ++ href) = some html →
      buildChaptersAux entries opfDir manifest freshId i (idref :: rest) =
        processChapterDoc i (freshId i) html ::
          buildChaptersAux entries opfDir manifest freshId (i + 1) rest) := by
  refine ⟨?_, ?_, ?_⟩
  · intro hnone
    simp [buildChaptersAux, hnone]
  · intro href hsome hne hmiss
    simp [buildChaptersAux, hsome, hne, hmiss]
  · intro href html hsome hne hhit
    simp [buildChaptersAux, hsome, hne, hhit]

/-- Witness for C8: the three branches at concrete inputs — an idref
absent from the manifest, a resolved file missing from the archive, and
a loadable chapter file. -/
theorem C8_spine_skip_witness :
    (buildChaptersAux [] "OEBPS" [("a", "ch.xhtml")] (fun _ => "c") 0 ["b"] =
      buildChaptersAux [] "OEBPS" [("a", "ch.xhtml")] (fun _ => "c") 1 []) ∧
    (buildChaptersAux [] "OEBPS" [("a", "ch.xhtml")] (fun _ => "c") 0 ["a"] =
      buildChaptersAux [] "OEBPS" [("a", "ch.xhtml")] (fun _ => "c") 1 []) ∧
    (buildChaptersAux [⟨"OEBPS/ch.xhtml", "<html><body><p>X</p></body></html>", false, false⟩]
        "OEBPS" [("a", "ch.xhtml")] (fun _ => "c") 0 ["a"] =
      processChapterDoc 0 "c" "<html><body><p>X</p></body></html>" ::
        buildChaptersAux [⟨"OEBPS/ch.xhtml", "<html><body><p>X</p></body></html>", false, false⟩]
          "OEBPS" [("a", "ch.xhtml")] (fun _ => "c") 1 []) :=
  ⟨(C8_spine_skip [] "OEBPS" [("a", "ch.xhtml")] (fun _ => "c") 0 "b" []).1 (by decide),
   (C8_spine_skip [] "OEBPS" [("a", "ch.xhtml")] (fun _ => "c") 0 "a" []).2.1
     "ch.xhtml" (by decide) (by decide) (by decide),
   (C8_spine_skip [⟨"OEBPS/ch.xhtml", "<html><body><p>X</p></body></html>", false, false⟩]
       "OEBPS" [("a", "ch.xhtml")] (fun _ => "c") 0 "a" []).2.2
     "ch.xhtml" "<html><body><p>X</p></body></html>" (by decide) (by decide) (by decide)⟩

/-- Entity decoding is the identity on ampersand-free text. -/
theorem unescAux_no_amp : ∀ l : List Char, '&' ∉ l → unescAux l.length l = l := by
  intro l
  induction l with
  | nil => intro _; rfl
  | cons c t ih =>
    intro h
    have hc : ¬ c = '&' := fun hh => h (by simp [hh])
    rw [show (c :: t).length = t.length + 1 from rfl, unescAux_step_plain _ _ _ hc]
    rw [ih (fun hm => h (by simp [hm]))]

/-- `unescChars` is the identity on ampersand-free text. -/
theorem unescChars_no_amp (l : List Char) (h : '&' ∉ l) : unescChars l = l :=
  unescAux_no_amp l h

/-- Characters of a split piece come from the input or the
accumulator. -/
theorem splitCharAux_piece_mem (d : Char) : ∀ (l acc : List Char),
    ∀ p ∈ splitCharAux d l acc, ∀ c ∈ p, c ∈ l ∨ c ∈ acc := by
  intro l
  induction l with
  | nil =>
    intro acc p hp c hc
    simp [splitCharAux] at hp
    subst hp
    exact Or.inr (List.mem_reverse.mp hc)
  | cons x t ih =>
    intro acc p hp c hc
    simp only [splitCharAux] at hp
    by_cases hx : x = d
    · rw [if_pos hx] at hp
      rcases List.mem_cons.mp hp with rfl | hp2
      · exact Or.inr (List.mem_reverse.mp hc)
      · rcases ih [] p hp2 c hc with h1 | h2
        · exact Or.inl (by simp [h1])
        · simp at h2
    · rw [if_neg hx] at hp
      rcases ih (x :: acc) p hp c hc with h1 | h2
      · exact Or.inl (by simp [h1])
      · rcases List.mem_cons.mp h2 with rfl | h3
        · exact Or.inl (by simp)
        · exact Or.inr h3

/-- Characters of the derived cover extension come from the MIME type
or the `jpg` fallback. -/
theorem coverExt_mem (mime : String) :
    ∀ c ∈ (coverExt mime).data, c ∈ mime.data ∨ c ∈ ['j', 'p', 'g'] := by
  intro c hc
  unfold coverExt at hc
  cases hdrop : (splitChar '/' mime).drop 1 with
  | nil =>
    rw [hdrop] at hc
    exact Or.inr hc
  | cons s r =>
    rw [hdrop] at hc
    have hc2 : c ∈ (if s = [] then ("jpg" : String) else ⟨s⟩).data := hc
    by_cases hs : s = []
    · rw [if_pos hs] at hc2
      exact Or.inr hc2
    · rw [if_neg hs] at hc2
      have hmem : s ∈ splitChar '/' mime :=
        List.mem_of_mem_drop (by rw [hdrop]; exact List.mem_cons_self s r)
      have := splitCharAux_piece_mem '/' mime.data [] s hmem c hc2
      rcases this with h1 | h2
      · exact Or.inl h1
      · simp at h2

/-- Decimal digit strings contain no markup characters. -/
theorem natStr_no_structural (n : Nat) :
    '<' ∉ (natStr n).data ∧ '>' ∉ (natStr n).data := by
  constructor <;> intro h
  · obtain ⟨h1, h2⟩ := natStr_digits n _ h
    exact (digit_ne _ h1 h2).1 rfl
  · obtain ⟨h1, h2⟩ := natStr_digits n _ h
    exact (digit_ne _ h1 h2).2.1 rfl

/-- `addText` preserves token well-formedness when the added text is
markup-free. -/
theorem tokWF_addText (s : String) (hs : '<' ∉ s.data) : ∀ (ts : List Tok),
    (∀ t ∈ ts, tokWF t) → ∀ t ∈ addText s ts, tokWF t := by
  intro ts
  induction ts with
  | nil => intro _ t ht; simp [addText] at ht
  | cons t0 r ih =>
    intro h t ht
    cases r with
    | nil =>
      simp [addText] at ht
      subst ht
      obtain ⟨h1, h2, h3⟩ := h t0 (by simp)
      refine ⟨h1, h2, ?_⟩
      rw [String.data_append]
      intro hmem
      rcases List.mem_append.mp hmem with hh | hh
      · exact h3 hh
      · exact hs hh
    | cons t1 r2 =>
      simp only [addText] at ht
      rcases List.mem_cons.mp ht with rfl | ht2
      · exact h t (by simp)
      · exact ih (fun x hx => h x (by simp [hx])) t ht2

/-- A character missing from both halves is missing from the
concatenation. -/
theorem not_mem_append_str (c : Char) (a b : String)
    (ha : c ∉ a.data) (hb : c ∉ b.data) : c ∉ (a ++ b).data := by
  rw [String.data_append]
  intro h
  rcases List.mem_append.mp h with h | h
  · exact ha h
  · exact hb h

/-- Convenience introduction rule for token well-formedness. -/
theorem tokWF_mk (i x : String) (hi1 : '<' ∉ i.data) (hi2 : '>' ∉ i.data)
    (hx : '<' ∉ x.data) : tokWF { inner := i, text := x } := ⟨hi1, hi2, hx⟩

/-- Chapter manifest item tags contain no markup characters. -/
theorem chapItemInner_no_structural (i : Nat) :
    '<' ∉ (chapItemInner i).data ∧ '>' ∉ (chapItemInner i).data := by
  unfold chapItemInner
  obtain ⟨hlt, hgt⟩ := natStr_no_structural (i + 1)
  constructor
  · exact not_mem_append_str _ _ _
      (not_mem_append_str _ _ _
        (not_mem_append_str _ _ _
          (not_mem_append_str _ _ _ (by decide) hlt) (by decide)) hlt) (by decide)
  · exact not_mem_append_str _ _ _
      (not_mem_append_str _ _ _
        (not_mem_append_str _ _ _
          (not_mem_append_str _ _ _ (by decide) hgt) (by decide)) hgt) (by decide)

/-- Spine itemref tags contain no markup characters. -/
theorem spineItemInner_no_structural (i : Nat) :
    '<' ∉ (spineItemInner i).data ∧ '>' ∉ (spineItemInner i).data := by
  unfold spineItemInner
  obtain ⟨hlt, hgt⟩ := natStr_no_structural (i + 1)
  constructor
  · exact not_mem_append_str _ _ _ (not_mem_append_str _ _ _ (by decide) hlt) (by decide)
  · exact not_mem_append_str _ _ _ (not_mem_append_str _ _ _ (by decide) hgt) (by decide)

/-- Members of the chapter item tag list are chapter item tags. -/
theorem chapItemInners_mem : ∀ (chs : List Chapter) (i : Nat) (x : String),
    x ∈ chapItemInners i chs → ∃ j, x = chapItemInner j := by
  intro chs
  induction chs with
  | nil => intro i x hx; simp [chapItemInners] at hx
  | cons c r ih =>
    intro i x hx
    rcases List.mem_cons.mp hx with rfl | hx2
    · exact ⟨i, rfl⟩
    · exact ih (i + 1) x hx2

/-- Members of the spine itemref tag list are spine itemref tags. -/
theorem spineItemInners_mem : ∀ (chs : List Chapter) (i : Nat) (x : String),
    x ∈ spineItemInners i chs → ∃ j, x = spineItemInner j := by
  intro chs
  induction chs with
  | nil => intro i x hx; simp [spineItemInners] at hx
  | cons c r ih =>
    intro i x hx
    rcases List.mem_cons.mp hx with rfl | hx2
    · exact ⟨i, rfl⟩
    · exact ih (i + 1) x hx2

/-- `joinToksNl` yields well-formed tokens from markup-free tag
strings. -/
theorem tokWF_joinToksNl : ∀ (xs : List String),
    (∀ x ∈ xs, '<' ∉ x.data ∧ '>' ∉ x.data) → ∀ t ∈ joinToksNl xs, tokWF t := by
  intro xs
  induction xs with
  | nil => intro _ t ht; simp [joinToksNl] at ht
  | cons x r ih =>
    intro h t ht
    cases r with
    | nil =>
      simp [joinToksNl] at ht
      subst ht
      obtain ⟨h1, h2⟩ := h x (by simp)
      exact tokWF_mk _ _ h1 h2 (by decide)
    | cons y r2 =>
      simp only [joinToksNl] at ht
      rcases List.mem_cons.mp ht with rfl | ht2
      · obtain ⟨h1, h2⟩ := h x (by simp)
        exact tokWF_mk _ _ h1 h2 (by decide)
      · exact ih (fun z hz => h z (by simp [hz])) t ht2

/-- The ISBN identifier block is well-formed. -/
theorem tokWF_isbnToks (m : BookMetadata) : ∀ t ∈ isbnToks m, tokWF t := by
  intro t ht
  unfold isbnToks at ht
  by_cases h : m.isbn ≠ ""
  · rw [if_pos h] at ht
    rcases List.mem_cons.mp ht with rfl | ht2
    · exact tokWF_mk _ _ (by decide) (by decide)
        (not_mem_append_str _ _ _ (by decide) (escapeXml_no_lt _))
    · rcases List.mem_cons.mp ht2 with rfl | ht3
      · exact tokWF_mk _ _ (by decide) (by decide) (by decide)
      · simp at ht3
  · rw [if_neg h] at ht
    simp at ht

/-- The subject block is well-formed. -/
theorem tokWF_subjToks : ∀ (ts : List String), ∀ t ∈ subjToks ts, tokWF t := by
  intro ts
  induction ts with
  | nil => intro t ht; simp [subjToks] at ht
  | cons x r ih =>
    intro t ht
    cases r with
    | nil =>
      simp [subjToks] at ht
      rcases ht with rfl | rfl
      · exact tokWF_mk _ _ (by decide) (by decide) (escapeXml_no_lt _)
      · exact tokWF_mk _ _ (by decide) (by decide) (by decide)
    | cons y r2 =>
      simp only [subjToks] at ht
      rcases List.mem_cons.mp ht with rfl | ht2
      · exact tokWF_mk _ _ (by decide) (by decide) (escapeXml_no_lt _)
      · rcases List.mem_cons.mp ht2 with rfl | ht3
        · exact tokWF_mk _ _ (by decide) (by decide) (by decide)
        · exact ih t ht3

/-- The optional tags block is well-formed. -/
theorem tokWF_tagsToks (m : BookMetadata) : ∀ t ∈ tagsToks m, tokWF t := by
  intro t ht
  unfold tagsToks at ht
  by_cases h : m.tags ≠ []
  · rw [if_pos h] at ht
    exact tokWF_subjToks m.tags t ht
  · rw [if_neg h] at ht
    simp at ht

/-- The optional legacy cover meta block is well-formed. -/
theorem tokWF_coverMetaToks (m : BookMetadata) : ∀ t ∈ coverMetaToks m, tokWF t := by
  intro t ht
  unfold coverMetaToks at ht
  cases hco : coverInfo m with
  | none => rw [hco] at ht; simp at ht
  | some p =>
    rw [hco] at ht
    rcases List.mem_cons.mp ht with rfl | ht2
    · exact tokWF_mk _ _ (by decide) (by decide) (by decide)
    · simp at ht2

/-- The file name produced by `coverInfo`. -/
theorem coverInfo_name (m : BookMetadata) (fn b : String)
    (h : coverInfo m = some (fn, b)) :
    fn = "cover." ++ coverExt m.coverMimeType := by
  unfold coverInfo at h
  split at h
  · split at h
    · injection h with h2
      injection h2 with h3 _
      exact h3.symm
    · cases h
  · cases h

/-- The manifest block is well-formed when the cover MIME type is
markup-free. -/
theorem tokWF_manifestToks (m : BookMetadata) (chs : List Chapter)
    (hm1 : '<' ∉ m.coverMimeType.data) (hm2 : '>' ∉ m.coverMimeType.data) :
    ∀ t ∈ manifestToks m chs, tokWF t := by
  intro t ht
  unfold manifestToks at ht
  rcases List.mem_append.mp ht with h1 | h2
  · rcases List.mem_append.mp h1 with h3 | h4
    · rcases List.mem_cons.mp h3 with rfl | h5
      · exact tokWF_mk _ _ (by decide) (by decide) (by decide)
      · rcases List.mem_cons.mp h5 with rfl | h6
        · exact tokWF_mk _ _ (by decide) (by decide) (by decide)
        · simp at h6
    · cases hco : coverInfo m with
      | none => rw [hco] at h4; simp at h4
      | some p =>
        rw [hco] at h4
        obtain ⟨fn, b⟩ := p
        rcases List.mem_cons.mp h4 with rfl | h7
        · have hfn : fn = "cover." ++ coverExt m.coverMimeType := coverInfo_name m fn b hco
          have hfn1 : '<' ∉ fn.data := by
            rw [hfn]
            refine not_mem_append_str _ _ _ (by decide) ?_
            intro hmem
            rcases coverExt_mem m.coverMimeType _ hmem with hh | hh
            · exact hm1 hh
            · simp at hh
          have hfn2 : '>' ∉ fn.data := by
            rw [hfn]
            refine not_mem_append_str _ _ _ (by decide) ?_
            intro hmem
            rcases coverExt_mem m.coverMimeType _ hmem with hh | hh
            · exact hm2 hh
            · simp at hh
          refine tokWF_mk _ _ ?_ ?_ (by decide)
          · exact not_mem_append_str _ _ _
              (not_mem_append_str _ _ _
                (not_mem_append_str _ _ _
                  (not_mem_append_str _ _ _ (by decide) hfn1) (by decide)) hm1) (by decide)
          · exact not_mem_append_str _ _ _
              (not_mem_append_str _ _ _
                (not_mem_append_str _ _ _
                  (not_mem_append_str _ _ _ (by decide) hfn2) (by decide)) hm2) (by decide)
        · simp at h7
  · refine tokWF_joinToksNl _ ?_ t h2
    intro x hx
    obtain ⟨j, rfl⟩ := chapItemInners_mem chs 0 x hx
    exact chapItemInner_no_structural j

/-- Every token of the generated OPF package document is well-formed,
given markup-free `uuid`, `now` and cover MIME type. -/
theorem tokWF_opfToks (m : BookMetadata) (chs : List Chapter) (uuid now : String)
    (hu : '<' ∉ uuid.data) (hn : '<' ∉ now.data)
    (hm1 : '<' ∉ m.coverMimeType.data) (hm2 : '>' ∉ m.coverMimeType.data) :
    ∀ t ∈ opfToks m chs uuid now, tokWF t := by
  have hbase : ∀ t ∈
      ([{ inner := "?xml version=\"1.0\" encoding=\"UTF-8\"?", text := "\n" },
        { inner := "package xmlns=\"http://www.idpf.org/2007/opf\" unique-identifier=\"BookId\" version=\"3.0\"", text := "\n    " },
        { inner := "metadata xmlns:dc=\"http://purl.org/dc/elements/1.1/\" xmlns:opf=\"http://www.idpf.org/2007/opf\"", text := "\n        " },
        { inner := "dc:title", text := escapeXml (some m.title) },
        { inner := "/dc:title", text := "\n        " },
        { inner := "dc:creator opf:role=\"aut\"", text := escapeXml (some m.author) },
        { inner := "/dc:creator", text := "\n        " },
        { inner := "dc:publisher", text := escapeXml (some (jsOr m.publisher "ZenPub")) },
        { inner := "/dc:publisher", text := "\n        " },
        { inner := "dc:description", text := escapeXml (some m.description) },
        { inner := "/dc:description", text := "\n        " },
        { inner := "dc:language", text := "zh-CN" },
        { inner := "/dc:language", text := "\n        " },
        { inner := "dc:identifier id=\"BookId\"", text := "urn:uuid:" ++ uuid },
        { inner := "/dc:identifier", text := "\n        " },
        { inner := "meta property=\"dcterms:modified\"", text := now ++ "Z" },
        { inner := "/meta", text := "\n        " }] : List Tok), tokWF t := by
    intro t ht
    simp only [List.mem_cons] at ht
    rcases ht with rfl|rfl|rfl|rfl|rfl|rfl|rfl|rfl|rfl|rfl|rfl|rfl|rfl|rfl|rfl|rfl|rfl|h0
    · exact tokWF_mk _ _ (by decide) (by decide) (by decide)
    · exact tokWF_mk _ _ (by decide) (by decide) (by decide)
    · exact tokWF_mk _ _ (by decide) (by decide) (by decide)
    · exact tokWF_mk _ _ (by decide) (by decide) (escapeXml_no_lt _)
    · exact tokWF_mk _ _ (by decide) (by decide) (by decide)
    · exact tokWF_mk _ _ (by decide) (by decide) (escapeXml_no_lt _)
    · exact tokWF_mk _ _ (by decide) (by decide) (by decide)
    · exact tokWF_mk _ _ (by decide) (by decide) (escapeXml_no_lt _)
    · exact tokWF_mk _ _ (by decide) (by decide) (by decide)
    · exact tokWF_mk _ _ (by decide) (by decide) (escapeXml_no_lt _)
    · exact tokWF_mk _ _ (by decide) (by decide) (by decide)
    · exact tokWF_mk _ _ (by decide) (by decide) (by decide)
    · exact tokWF_mk _ _ (by decide) (by decide) (by decide)
    · exact tokWF_mk _ _ (by decide) (by decide)
        (not_mem_append_str _ _ _ (by decide) hu)
    · exact tokWF_mk _ _ (by decide) (by decide) (by decide)
    · exact tokWF_mk _ _ (by decide) (by decide)
        (not_mem_append_str _ _ _ hn (by decide))
    · exact tokWF_mk _ _ (by decide) (by decide) (by decide)
    · simp at h0
  intro t ht
  simp only [opfToks, List.mem_append] at ht
  rcases ht with ((((h1 | h2) | h3) | h4) | h5) | h6
  · refine tokWF_addText _ (by decide) _ ?_ t h1
    intro x hx
    rcases List.mem_append.mp hx with hx1 | hx2
    · refine tokWF_addText _ (by decide) _ ?_ x hx1
      intro y hy
      rcases List.mem_append.mp hy with hy1 | hy2
      · refine tokWF_addText _ (by decide) _ ?_ y hy1
        intro z hz
        rcases List.mem_append.mp hz with hz1 | hz2
        · exact hbase z hz1
        · exact tokWF_isbnToks m z hz2
      · exact tokWF_tagsToks m y hy2
    · exact tokWF_coverMetaToks m x hx2
  · rcases List.mem_cons.mp h2 with rfl | h7
    · exact tokWF_mk _ _ (by decide) (by decide) (by decide)
    · rcases List.mem_cons.mp h7 with rfl | h8
      · exact tokWF_mk _ _ (by decide) (by decide) (by decide)
      · simp at h8
  · exact tokWF_addText _ (by decide) _ (tokWF_manifestToks m chs hm1 hm2) t h3
  · rcases List.mem_cons.mp h4 with rfl | h7
    · exact tokWF_mk _ _ (by decide) (by decide) (by decide)
    · rcases List.mem_cons.mp h7 with rfl | h8
      · exact tokWF_mk _ _ (by decide) (by decide) (by decide)
      · simp at h8
  · refine tokWF_addText _ (by decide) _ ?_ t h5
    refine tokWF_joinToksNl _ ?_
    intro x hx
    obtain ⟨j, rfl⟩ := spineItemInners_mem chs 0 x hx
    exact spineItemInner_no_structural j
  · rcases List.mem_cons.mp h6 with rfl | h7
    · exact tokWF_mk _ _ (by decide) (by decide) (by decide)
    · rcases List.mem_cons.mp h7 with rfl | h8
      · exact tokWF_mk _ _ (by decide) (by decide) (by decide)
      · simp at h8

/-- Strings differing at one index differ. -/
theorem str_ne_of_idx (a b : String) (i : Nat)
    (h : a.data[i]? ≠ b.data[i]?) : a ≠ b := by
  intro he
  exact h (by rw [he])

/-- Every chapter archive entry is a chapter document at some
position. -/
theorem chapterEntries_mem : ∀ (chs : List Chapter) (i : Nat) (e : ZipEntry),
    e ∈ chapterEntries i chs → ∃ j c, c ∈ chs ∧
      e = { name := "OEBPS/chapter_" ++ natStr (j + 1) ++ ".xhtml",
            content := chapterXhtml c, storeFlag := false, base64Flag := false } := by
  intro chs
  induction chs with
  | nil => intro i e he; simp [chapterEntries] at he
  | cons c r ih =>
    intro i e he
    rcases List.mem_cons.mp he with rfl | he2
    · exact ⟨i, c, by simp, rfl⟩
    · obtain ⟨j, c2, hc2, he3⟩ := ih (i + 1) e he2
      exact ⟨j, c2, by simp [hc2], he3⟩

/-- A chapter document entry is not named like the OPF. -/
theorem chapterName_ne_opf (j : Nat) :
    ("OEBPS/chapter_" ++ natStr (j + 1) ++ ".xhtml") ≠ "OEBPS/content.opf" := by
  apply str_ne_of_idx _ _ 7
  rw [String.data_append, String.data_append]
  rw [List.getElem?_append_left (by
    rw [List.length_append]
    have : (natStr (j + 1)).data ≠ [] := natStr_ne_nil (j + 1)
    have hlen : 1 ≤ (natStr (j + 1)).data.length := by
      cases hh : (natStr (j + 1)).data with
      | nil => exact absurd hh this
      | cons a b => simp
    simp only [show ("OEBPS/chapter_".data).length = 14 from rfl]
    omega)]
  rw [List.getElem?_append_left (by decide)]
  decide

/-- The cover image entry is not named like the OPF. -/
theorem coverName_ne_opf (fn : String) :
    ("OEBPS/images/" ++ fn) ≠ "OEBPS/content.opf" := by
  apply str_ne_of_idx _ _ 6
  rw [String.data_append]
  rw [List.getElem?_append_left (by decide)]
  decide

/-- The Writer's archive resolves the OPF path to the generated
package document. -/
theorem lookup_opf (m : BookMetadata) (chs : List Chapter) (uuid now : String) :
    lookupFile (exportToEpub m chs uuid now) "OEBPS/content.opf" =
      some (contentOpf m chs uuid now) := by
  unfold lookupFile exportToEpub
  rw [List.find?_append, List.find?_append, List.find?_append]
  have h1 : List.find? (fun e => decide (e.name = "OEBPS/content.opf"))
      [({ name := "mimetype", content := "application/epub+zip", storeFlag := true, base64Flag := false } : ZipEntry),
       { name := "META-INF/container.xml", content := containerXmlStr, storeFlag := false, base64Flag := false }] = none := rfl
  have h2 : List.find? (fun e => decide (e.name = "OEBPS/content.opf"))
      (match coverInfo m with
       | some (fn, b64) =>
         [({ name := "OEBPS/images/" ++ fn, content := b64, storeFlag := false, base64Flag := true } : ZipEntry)]
       | none => []) = none := by
    cases hco : coverInfo m with
    | none => rfl
    | some p =>
      obtain ⟨fn, b64⟩ := p
      simp [List.find?, coverName_ne_opf fn]
  have h3 : List.find? (fun e => decide (e.name = "OEBPS/content.opf"))
      (chapterEntries 0 chs) = none := by
    rw [List.find?_eq_none]
    intro e he
    obtain ⟨j, c, _, rfl⟩ := chapterEntries_mem chs 0 e he
    simp [chapterName_ne_opf j]
  rw [h1, h2, h3]
  simp [List.find?]

/-- The container descriptor entry of every Writer archive. -/
theorem lookup_container (m : BookMetadata) (chs : List Chapter) (uuid now : String) :
    lookupFile (exportToEpub m chs uuid now) "META-INF/container.xml" =
      some containerXmlStr := rfl

/-- The container descriptor points at `OEBPS/content.opf`. -/
theorem rootfile_opf : findRootfilePath containerXmlStr = some "OEBPS/content.opf" := by
  decide

set_option maxHeartbeats 1600000 in
/-- C10: the Reader's `isbn` field on a Writer-produced archive is the
package identifier `urn:uuid:<uuid>`, never the ISBN supplied in the
original metadata: the first `identifier` element of the OPF is the
`BookId` one, emitted before the optional ISBN block.  The `uuid`, `now`
and cover MIME strings are assumed markup-free, as the real generators
(`crypto.randomUUID`, `Date.toISOString`, image MIME types) guarantee. -/
theorem C10_identifier (m : BookMetadata) (chs : List Chapter) (uuid now : String)
    (freshId : Nat → String)
    (hu1 : '<' ∉ uuid.data) (hu2 : '&' ∉ uuid.data) (hn : '<' ∉ now.data)
    (hm1 : '<' ∉ m.coverMimeType.data) (hm2 : '>' ∉ m.coverMimeType.data) :
    ∃ md chapters,
      importEpub (exportToEpub m chs uuid now) freshId = Except.ok (md, chapters) ∧
      md.isbn = "urn:uuid:" ++ uuid ∧
      (m.isbn ≠ "urn:uuid:" ++ uuid → md.isbn ≠ m.isbn) := by
  have hcont := lookup_container m chs uuid now
  have hroot := rootfile_opf
  have hopf := lookup_opf m chs uuid now
  have htoks : tokensOf (contentOpf m chs uuid now) =
      (opfToks m chs uuid now).map tokChars := by
    unfold contentOpf
    exact tokensOf_renderToks _ (tokWF_opfToks m chs uuid now hu1 hn hm1 hm2)
  have hsel : selectFirst "identifier".data ((opfToks m chs uuid now).map tokChars) =
      some (tokChars { inner := "dc:identifier id=\"BookId\"", text := "urn:uuid:" ++ uuid }) := rfl
  have htext : elemText (tokChars
      { inner := "dc:identifier id=\"BookId\"", text := "urn:uuid:" ++ uuid }) =
      "urn:uuid:" ++ uuid := by
    unfold elemText
    rw [textAfter_tokChars _ (by
      show '>' ∉ ("dc:identifier id=\"BookId\"" : String).data
      decide)]
    rw [show ({ inner := "dc:identifier id=\"BookId\"", text := "urn:uuid:" ++ uuid } : Tok).text =
      "urn:uuid:" ++ uuid from rfl]
    rw [unescChars_no_amp _ (not_mem_append_str _ _ _ (by decide) hu2)]
  have hne : ("urn:uuid:" ++ uuid) ≠ "" := by
    apply str_ne_of_idx _ _ 0
    rw [String.data_append]
    rw [List.getElem?_append_left (by decide)]
    decide
  have hisbn : (readMetadata ((opfToks m chs uuid now).map tokChars)).isbn =
      "urn:uuid:" ++ uuid := by
    show textOr ((selectFirst "identifier".data
      ((opfToks m chs uuid now).map tokChars)).map elemText) "" = _
    rw [hsel]
    show textOr (some (elemText (tokChars
      { inner := "dc:identifier id=\"BookId\"", text := "urn:uuid:" ++ uuid }))) "" = _
    rw [htext]
    show (if ("urn:uuid:" ++ uuid) = "" then "" else ("urn:uuid:" ++ uuid)) = _
    rw [if_neg hne]
  refine ⟨readMetadata ((opfToks m chs uuid now).map tokChars),
    buildChaptersAux (exportToEpub m chs uuid now) (opfDirOf "OEBPS/content.opf")
      (manifestPairs ((opfToks m chs uuid now).map tokChars)) freshId 0
      (spineIdrefs ((opfToks m chs uuid now).map tokChars)), ?_, hisbn, ?_⟩
  · unfold importEpub
    rw [hcont]
    simp only []
    rw [hroot]
    simp only []
    rw [if_neg (by decide : ¬ ("OEBPS/content.opf" : String) = "")]
    rw [hopf]
    simp only []
    rw [htoks]
  · intro hdiff
    rw [hisbn]
    exact fun hh => hdiff hh.symm

/-- Witness for C10: a concrete book with a supplied ISBN whose
re-imported identifier is nevertheless the package UUID. -/
theorem C10_identifier_witness :
    ∃ md chapters,
      importEpub (exportToEpub ⟨"T", "A", "", "", "", "978-3-16", [], "", ""⟩ []
        "u123" "2024") (fun _ => "x") = Except.ok (md, chapters) ∧
      md.isbn = "urn:uuid:" ++ "u123" ∧
      (("978-3-16" : String) ≠ "urn:uuid:" ++ "u123" → md.isbn ≠ "978-3-16") :=
  C10_identifier ⟨"T", "A", "", "", "", "978-3-16", [], "", ""⟩ [] "u123" "2024"
    (fun _ => "x") (by decide) (by decide) (by decide) (by decide) (by decide)

/-- `strJoin` distributes over list append. -/
theorem strJoin_append (A B : List String) :
    strJoin (A ++ B) = strJoin A ++ strJoin B := by
  induction A with
  | nil =>
    apply strEq
    simp [String.data_append, strJoin]
  | cons s r ih => simp [strJoin, ih, str_assoc]

/-- The head tokens of a chapter document are well-formed. -/
theorem tokWF_chapXhtmlPre (title : String) : ∀ t ∈ chapXhtmlPre title, tokWF t := by
  intro t ht
  simp only [chapXhtmlPre, List.mem_cons] at ht
  rcases ht with rfl|rfl|rfl|rfl|rfl|rfl|rfl|rfl|rfl|h0
  · exact tokWF_mk _ _ (by decide) (by decide) (by decide)
  · exact tokWF_mk _ _ (by decide) (by decide) (by decide)
  · exact tokWF_mk _ _ (by decide) (by decide) (by decide)
  · exact tokWF_mk _ _ (by decide) (by decide) (by decide)
  · exact tokWF_mk _ _ (by decide) (by decide) (escapeXml_no_lt _)
  · exact tokWF_mk _ _ (by decide) (by decide) (by decide)
  · exact tokWF_mk _ _ (by decide) (by decide) (by decide)
  · exact tokWF_mk _ _ (by decide) (by decide) (by decide)
  · exact tokWF_mk _ _ (by decide) (by decide) (by decide)
  · simp at h0

/-- The injected title heading is a well-formed segment. -/
theorem segWF_h1Seg (title : String) : segWF ("<h1>" ++ escapeXml (some title)) := by
  refine ⟨'h' :: '1' :: '>' :: (escapeXml (some title)).data, ?_, ?_⟩
  · rw [String.data_append]
    rfl
  · intro hmem
    rcases List.mem_cons.mp hmem with h | h
    · exact absurd h (by decide)
    · rcases List.mem_cons.mp h with h2 | h2
      · exact absurd h2 (by decide)
      · rcases List.mem_cons.mp h2 with h3 | h3
        · exact absurd h3 (by decide)
        · exact escapeXml_no_lt _ h3

/-- When the first Markdown block is a paragraph, the first element
token of the rendering is its opening token. -/
theorem firstTok_para (t : String) (rest : List MdBlock) :
    firstElementTok (strJoin (((MdBlock.para t :: rest).map renderBlockSegsX).flatten)) =
      some ('p' :: '>' :: (escapeXml (some t)).data) := by
  unfold firstElementTok
  rw [tokensOf_strJoin _ (segWF_renderX_flatten (MdBlock.para t :: rest))]
  simp only [List.map_cons, List.flatten_cons, renderBlockSegsX, List.map_append]
  rw [show ("<p>" ++ escapeXml (some t)).data.tail =
    'p' :: '>' :: (escapeXml (some t)).data from by rw [paraOpen_data]; rfl]
  exact List.find?_cons_of_pos _ rfl

/-- When the first Markdown block is a thematic break, the first
element token of the rendering is the self-closed `hr` token. -/
theorem firstTok_hr (rest : List MdBlock) :
    firstElementTok (strJoin (((MdBlock.hr :: rest).map renderBlockSegsX).flatten)) =
      some ['h', 'r', ' ', '/', '>', '\n'] := by
  unfold firstElementTok
  rw [tokensOf_strJoin _ (segWF_renderX_flatten (MdBlock.hr :: rest))]
  simp only [List.map_cons, List.flatten_cons, renderBlockSegsX, List.map_append]
  exact List.find?_cons_of_pos _ rfl

/-- The Writer's duplicate-title check never fires when the Markdown
does not begin with a heading block. -/
theorem chapterHasTitle_not_heading (title content : String)
    (hnb : ∀ n t rest, mdBlocks content ≠ MdBlock.heading n t :: rest) :
    chapterHasTitle title (makeXhtmlCompatible (markedParse content)) = false := by
  cases hb : mdBlocks content with
  | nil =>
    unfold chapterHasTitle
    rw [makeXhtml_marked, hb]
    rfl
  | cons b bs =>
    cases b with
    | heading n t => exact absurd hb (hnb n t bs)
    | para t =>
      unfold chapterHasTitle
      rw [makeXhtml_marked, hb, firstTok_para]
      rfl
    | hr =>
      unfold chapterHasTitle
      rw [makeXhtml_marked, hb, firstTok_hr]
      rfl

set_option maxHeartbeats 1600000 in
/-- Tokenization of a Writer chapter document whose body got the title
heading prepended: the head tokens, then the `h1` token carrying the
escaped title, then the rest. -/
theorem chapterXhtml_tokens (c : Chapter)
    (hnb : ∀ n t rest, mdBlocks c.content ≠ MdBlock.heading n t :: rest) :
    tokensOf (chapterXhtml c) =
      ((chapXhtmlPre c.title).map Tok.render).map (fun s => s.data.tail) ++
      ('h' :: '1' :: '>' :: (escapeXml (some c.title)).data) ::
        tokensOf ("</h1>\n" ++ (makeXhtmlCompatible (markedParse c.content) ++
          "\n</body>\n</html>")) := by
  have hbody : chapterBody c.title c.content =
      "<h1>" ++ escapeXml (some c.title) ++ "</h1>\n" ++
        makeXhtmlCompatible (markedParse c.content) := by
    unfold chapterBody
    simp only []
    rw [chapterHasTitle_not_heading c.title c.content hnb]
    rfl
  have hdoc : chapterXhtml c =
      strJoin ((chapXhtmlPre c.title).map Tok.render ++
        ["<h1>" ++ escapeXml (some c.title)]) ++
      ("</h1>\n" ++ (makeXhtmlCompatible (markedParse c.content) ++
        "\n</body>\n</html>")) := by
    unfold chapterXhtml renderToks
    rw [hbody, strJoin_append]
    apply strEq
    simp [String.data_append, strJoin, List.append_assoc]
  rw [hdoc]
  rw [tokensOf_strJoin_append _ ?hwf _ ?hrest]
  case hwf =>
    intro s hs
    rcases List.mem_append.mp hs with h1 | h2
    · obtain ⟨t, ht, rfl⟩ := List.mem_map.mp h1
      exact segWF_render t (tokWF_chapXhtmlPre c.title t ht)
    · rcases List.mem_cons.mp h2 with rfl | h3
      · exact segWF_h1Seg c.title
      · simp at h3
  case hrest =>
    refine Or.inr ⟨'/' :: 'h' :: '1' :: '>' :: '\n' ::
      (makeXhtmlCompatible (markedParse c.content) ++ "\n</body>\n</html>").data, ?_⟩
    rw [String.data_append]
    rfl
  rw [List.map_append, List.append_assoc]
  rw [show List.map (fun s => s.data.tail) ["<h1>" ++ escapeXml (some c.title)] =
    ['h' :: '1' :: '>' :: (escapeXml (some c.title)).data] from rfl]
  rfl

set_option maxHeartbeats 1600000 in
/-- The Reader's recovered title for a Writer chapter whose Markdown
does not begin with a heading: the injected `h1` is found first and
decodes back to the original title (or to the fallback when the
original title is empty). -/
theorem processChapter_writer_title (i : Nat) (cid : String) (c : Chapter)
    (hnb : ∀ n t rest, mdBlocks c.content ≠ MdBlock.heading n t :: rest)
    (ht : c.title ≠ "") :
    (processChapterDoc i cid (chapterXhtml c)).title = c.title := by
  have hfind : (tokensOf (chapterXhtml c)).find? isH12Tok =
      some ('h' :: '1' :: '>' :: (escapeXml (some c.title)).data) := by
    rw [chapterXhtml_tokens c hnb]
    rw [List.find?_append]
    rw [show List.find? isH12Tok
      (((chapXhtmlPre c.title).map Tok.render).map (fun s => s.data.tail)) = none from rfl]
    rw [List.find?_cons_of_pos _ rfl]
    rfl
  have helem : elemText ('h' :: '1' :: '>' :: (escapeXml (some c.title)).data) = c.title := by
    unfold elemText
    rw [show textAfter ('h' :: '1' :: '>' :: (escapeXml (some c.title)).data) =
      (escapeXml (some c.title)).data from rfl]
    rw [unesc_escapeXml]
  show (match (tokensOf (chapterXhtml c)).find? isH12Tok with
    | some h => if elemText h = "" then "Chapter " ++ natStr (i + 1) else elemText h
    | none => "Chapter " ++ natStr (i + 1)) = c.title
  rw [hfind]
  simp only []
  rw [helem, if_neg ht]

/-- One quoted-value step of splitting a tag on the double quote. -/
theorem splitQuoted (a : List Char) (ha : quotC ∉ a) (rest acc : List Char) :
    splitCharAux quotC (a ++ quotC :: rest) acc =
      (acc.reverse ++ a) :: splitCharAux quotC rest [] := by
  rw [splitCharAux_not_mem quotC a ha (quotC :: rest) acc]
  rw [splitCharAux_delim]
  simp

/-- The last chunk of splitting, with no further quotes. -/
theorem splitLast (a acc : List Char) (ha : quotC ∉ a) :
    splitCharAux quotC a acc = [acc.reverse ++ a] := by
  have := splitCharAux_not_mem quotC a ha [] acc
  rw [List.append_nil] at this
  rw [this]
  simp [splitCharAux]

/-- Members of `addText` keep their tag part. -/
theorem addText_inner_mem (s : String) : ∀ (ts : List Tok) (t : Tok),
    t ∈ addText s ts → ∃ t0 ∈ ts, t.inner = t0.inner := by
  intro ts
  induction ts with
  | nil => intro t ht; simp [addText] at ht
  | cons t0 r ih =>
    intro t ht
    cases r with
    | nil =>
      simp [addText] at ht
      subst ht
      exact ⟨t0, by simp, rfl⟩
    | cons t1 r2 =>
      simp only [addText] at ht
      rcases List.mem_cons.mp ht with rfl | ht2
      · exact ⟨t, by simp, rfl⟩
      · obtain ⟨t2, ht2a, ht2b⟩ := ih t ht2
        exact ⟨t2, by simp [ht2a], ht2b⟩

/-- Members of `joinToksNl` carry the given tag strings. -/
theorem joinToksNl_mem : ∀ (xs : List String) (t : Tok),
    t ∈ joinToksNl xs → t.inner ∈ xs := by
  intro xs
  induction xs with
  | nil => intro t ht; simp [joinToksNl] at ht
  | cons x r ih =>
    intro t ht
    cases r with
    | nil =>
      simp [joinToksNl] at ht
      subst ht
      simp
    | cons y r2 =>
      simp only [joinToksNl] at ht
      rcases List.mem_cons.mp ht with rfl | ht2
      · simp
      · simp [ih t ht2]

/-- Tag strings occurring in the subject block. -/
theorem subjToks_inner_mem : ∀ (ts : List String) (t : Tok), t ∈ subjToks ts →
    t.inner = "dc:subject" ∨ t.inner = "/dc:subject" := by
  intro ts
  induction ts with
  | nil => intro t ht; simp [subjToks] at ht
  | cons x r ih =>
    intro t ht
    cases r with
    | nil =>
      simp [subjToks] at ht
      rcases ht with rfl | rfl
      · exact Or.inl rfl
      · exact Or.inr rfl
    | cons y r2 =>
      simp only [subjToks] at ht
      rcases List.mem_cons.mp ht with rfl | ht2
      · exact Or.inl rfl
      · rcases List.mem_cons.mp ht2 with rfl | ht3
        · exact Or.inr rfl
        · exact ih t ht3

set_option maxHeartbeats 3200000 in
/-- No token of the metadata chunk of the OPF is a `manifest` or
`spine` element. -/
theorem metaChunk_not_section (m : BookMetadata) (uuid now : String) :
    ∀ t ∈ addText "\n    " (addText "\n        " (addText "\n        "
        (([{ inner := "?xml version=\"1.0\" encoding=\"UTF-8\"?", text := "\n" },
           { inner := "package xmlns=\"http://www.idpf.org/2007/opf\" unique-identifier=\"BookId\" version=\"3.0\"", text := "\n    " },
           { inner := "metadata xmlns:dc=\"http://purl.org/dc/elements/1.1/\" xmlns:opf=\"http://www.idpf.org/2007/opf\"", text := "\n        " },
           { inner := "dc:title", text := escapeXml (some m.title) },
           { inner := "/dc:title", text := "\n        " },
           { inner := "dc:creator opf:role=\"aut\"", text := escapeXml (some m.author) },
           { inner := "/dc:creator", text := "\n        " },
           { inner := "dc:publisher", text := escapeXml (some (jsOr m.publisher "ZenPub")) },
           { inner := "/dc:publisher", text := "\n        " },
           { inner := "dc:description", text := escapeXml (some m.description) },
           { inner := "/dc:description", text := "\n        " },
           { inner := "dc:language", text := "zh-CN" },
           { inner := "/dc:language", text := "\n        " },
           { inner := "dc:identifier id=\"BookId\"", text := "urn:uuid:" ++ uuid },
           { inner := "/dc:identifier", text := "\n        " },
           { inner := "meta property=\"dcterms:modified\"", text := now ++ "Z" },
           { inner := "/meta", text := "\n        " }] : List Tok)
          ++ isbnToks m) ++ tagsToks m) ++ coverMetaToks m),
      (!(isElemTok (tokChars t) && localNameOf (tokChars t) = "manifest".data)) = true ∧
      (!(isElemTok (tokChars t) && localNameOf (tokChars t) = "spine".data)) = true := by
  intro t ht
  have hshape : t.inner = "?xml version=\"1.0\" encoding=\"UTF-8\"?" ∨
      t.inner = "package xmlns=\"http://www.idpf.org/2007/opf\" unique-identifier=\"BookId\" version=\"3.0\"" ∨
      t.inner = "metadata xmlns:dc=\"http://purl.org/dc/elements/1.1/\" xmlns:opf=\"http://www.idpf.org/2007/opf\"" ∨
      t.inner = "dc:title" ∨ t.inner = "/dc:title" ∨
      t.inner = "dc:creator opf:role=\"aut\"" ∨ t.inner = "/dc:creator" ∨
      t.inner = "dc:publisher" ∨ t.inner = "/dc:publisher" ∨
      t.inner = "dc:description" ∨ t.inner = "/dc:description" ∨
      t.inner = "dc:language" ∨ t.inner = "/dc:language" ∨
      t.inner = "dc:identifier id=\"BookId\"" ∨ t.inner = "/dc:identifier" ∨
      t.inner = "meta property=\"dcterms:modified\"" ∨ t.inner = "/meta" ∨
      t.inner = "dc:identifier id=\"isbn\"" ∨
      t.inner = "dc:subject" ∨ t.inner = "/dc:subject" ∨
      t.inner = "meta name=\"cover\" content=\"cover-image\" /" := by
    obtain ⟨t1, ht1, hin1⟩ := addText_inner_mem _ _ t ht
    rw [hin1]
    rcases List.mem_append.mp ht1 with h1 | h2
    · obtain ⟨t2, ht2, hin2⟩ := addText_inner_mem _ _ t1 h1
      rw [hin2]
      rcases List.mem_append.mp ht2 with h3 | h4
      · obtain ⟨t3, ht3, hin3⟩ := addText_inner_mem _ _ t2 h3
        rw [hin3]
        rcases List.mem_append.mp ht3 with h5 | h6
        · simp only [List.mem_cons] at h5
          rcases h5 with rfl|rfl|rfl|rfl|rfl|rfl|rfl|rfl|rfl|rfl|rfl|rfl|rfl|rfl|rfl|rfl|rfl|h0
          · exact Or.inl rfl
          · exact Or.inr (Or.inl rfl)
          · exact Or.inr (Or.inr (Or.inl rfl))
          · exact Or.inr (Or.inr (Or.inr (Or.inl rfl)))
          · exact Or.inr (Or.inr (Or.inr (Or.inr (Or.inl rfl))))
          · exact Or.inr (Or.inr (Or.inr (Or.inr (Or.inr (Or.inl rfl)))))
          · exact Or.inr (Or.inr (Or.inr (Or.inr (Or.inr (Or.inr (Or.inl rfl))))))
          · exact Or.inr (Or.inr (Or.inr (Or.inr (Or.inr (Or.inr (Or.inr (Or.inl rfl)))))))
          · exact Or.inr (Or.inr (Or.inr (Or.inr (Or.inr (Or.inr (Or.inr (Or.inr (Or.inl rfl))))))))
          · exact Or.inr (Or.inr (Or.inr (Or.inr (Or.inr (Or.inr (Or.inr (Or.inr (Or.inr (Or.inl rfl)))))))))
          · exact Or.inr (Or.inr (Or.inr (Or.inr (Or.inr (Or.inr (Or.inr (Or.inr (Or.inr (Or.inr (Or.inl rfl))))))))))
          · exact Or.inr (Or.inr (Or.inr (Or.inr (Or.inr (Or.inr (Or.inr (Or.inr (Or.inr (Or.inr (Or.inr (Or.inl rfl)))))))))))
          · exact Or.inr (Or.inr (Or.inr (Or.inr (Or.inr (Or.inr (Or.inr (Or.inr (Or.inr (Or.inr (Or.inr (Or.inr (Or.inl rfl))))))))))))
          · exact Or.inr (Or.inr (Or.inr (Or.inr (Or.inr (Or.inr (Or.inr (Or.inr (Or.inr (Or.inr (Or.inr (Or.inr (Or.inr (Or.inl rfl)))))))))))))
          · exact Or.inr (Or.inr (Or.inr (Or.inr (Or.inr (Or.inr (Or.inr (Or.inr (Or.inr (Or.inr (Or.inr (Or.inr (Or.inr (Or.inr (Or.inl rfl))))))))))))))
          · exact Or.inr (Or.inr (Or.inr (Or.inr (Or.inr (Or.inr (Or.inr (Or.inr (Or.inr (Or.inr (Or.inr (Or.inr (Or.inr (Or.inr (Or.inr (Or.inl rfl)))))))))))))))
          · exact Or.inr (Or.inr (Or.inr (Or.inr (Or.inr (Or.inr (Or.inr (Or.inr (Or.inr (Or.inr (Or.inr (Or.inr (Or.inr (Or.inr (Or.inr (Or.inr (Or.inl rfl))))))))))))))))
          · simp at h0
        · unfold isbnToks at h6
          by_cases hb : m.isbn ≠ ""
          · rw [if_pos hb] at h6
            rcases List.mem_cons.mp h6 with rfl | h7
            · exact Or.inr (Or.inr (Or.inr (Or.inr (Or.inr (Or.inr (Or.inr (Or.inr (Or.inr (Or.inr (Or.inr (Or.inr (Or.inr (Or.inr (Or.inr (Or.inr (Or.inr (Or.inl rfl)))))))))))))))))
            · rcases List.mem_cons.mp h7 with rfl | h8
              · exact Or.inr (Or.inr (Or.inr (Or.inr (Or.inr (Or.inr (Or.inr (Or.inr (Or.inr (Or.inr (Or.inr (Or.inr (Or.inr (Or.inr (Or.inl rfl))))))))))))))
              · simp at h8
          · rw [if_neg hb] at h6
            simp at h6
      · unfold tagsToks at h4
        by_cases hb : m.tags ≠ []
        · rw [if_pos hb] at h4
          rcases subjToks_inner_mem m.tags t2 h4 with hh | hh
          · rw [hh]
            exact Or.inr (Or.inr (Or.inr (Or.inr (Or.inr (Or.inr (Or.inr (Or.inr (Or.inr (Or.inr (Or.inr (Or.inr (Or.inr (Or.inr (Or.inr (Or.inr (Or.inr (Or.inr (Or.inl rfl))))))))))))))))))
          · rw [hh]
            exact Or.inr (Or.inr (Or.inr (Or.inr (Or.inr (Or.inr (Or.inr (Or.inr (Or.inr (Or.inr (Or.inr (Or.inr (Or.inr (Or.inr (Or.inr (Or.inr (Or.inr (Or.inr (Or.inr (Or.inl rfl)))))))))))))))))))
        · rw [if_neg hb] at h4
          simp at h4
    · unfold coverMetaToks at h2
      cases hco : coverInfo m with
      | none => rw [hco] at h2; simp at h2
      | some p =>
        rw [hco] at h2
        rcases List.mem_cons.mp h2 with rfl | h7
        · exact Or.inr (Or.inr (Or.inr (Or.inr (Or.inr (Or.inr (Or.inr (Or.inr (Or.inr (Or.inr (Or.inr (Or.inr (Or.inr (Or.inr (Or.inr (Or.inr (Or.inr (Or.inr (Or.inr (Or.inr (rfl))))))))))))))))))))
        · simp at h7
  have hTC : tokChars t = t.inner.data ++ '>' :: t.text.data := rfl
  rcases hshape with h|h|h|h|h|h|h|h|h|h|h|h|h|h|h|h|h|h|h|h|h <;>
    rw [hTC, h] <;> exact ⟨rfl, rfl⟩

/-- A token headed by anything but `/` is not a closing tag. -/
theorem isCloseOf_false_head (name : List Char) (c : Char) (r : List Char)
    (hc : c ≠ '/') : isCloseOf name (c :: r) = false := by
  unfold isCloseOf
  split
  · next h =>
    injection h with h1 _
    exact absurd h1 hc
  · rfl

/-- Tag-name extraction stops at the first space of the tag. -/
theorem tagNameOf_stop (a : List Char)
    (ha : ∀ c ∈ a, c ≠ '>' ∧ (!isWsC c && c ≠ '/' && c ≠ '>') = true) (b : List Char) :
    tagNameOf (a ++ ' ' :: b) = a := by
  unfold tagNameOf tagStrOf
  rw [List.takeWhile_append_of_pos (by
    intro c hc
    simpa using (ha c hc).1)]
  rw [show List.takeWhile (fun c => decide (c ≠ '>')) (' ' :: b) =
    ' ' :: List.takeWhile (fun c => decide (c ≠ '>')) b from by
      simp [List.takeWhile_cons]]
  exact takeWhile_append_stop a (fun c hc => (ha c hc).2) ' ' (by decide) _

/-- Facts about an `item`-headed token: it is an element named `item`,
not a closing tag, and neither a `manifest` nor a `spine` element. -/
theorem item_tok_facts (l rest : List Char) (h : l = "item".data ++ ' ' :: rest) :
    isCloseOf "manifest".data l = false ∧
    isCloseOf "spine".data l = false ∧
    (!(isElemTok l && localNameOf l = "manifest".data)) = true ∧
    (!(isElemTok l && localNameOf l = "spine".data)) = true ∧
    (isElemTok l && localNameOf l = "item".data) = true := by
  subst h
  have hname : localNameOf ("item".data ++ ' ' :: rest) = "item".data := by
    unfold localNameOf
    rw [tagNameOf_stop _ (by intro c hc; fin_cases hc <;> exact ⟨by decide, by decide⟩) rest]
    rfl
  have helem : isElemTok ("item".data ++ ' ' :: rest) = true := rfl
  refine ⟨isCloseOf_false_head _ _ _ (by decide), isCloseOf_false_head _ _ _ (by decide),
    ?_, ?_, ?_⟩
  · rw [helem, hname]; rfl
  · rw [helem, hname]; rfl
  · rw [helem, hname]; rfl

/-- Facts about an `itemref`-headed token. -/
theorem itemref_tok_facts (l rest : List Char) (h : l = "itemref".data ++ ' ' :: rest) :
    isCloseOf "spine".data l = false ∧
    (!(isElemTok l && localNameOf l = "spine".data)) = true ∧
    (!(isElemTok l && localNameOf l = "manifest".data)) = true ∧
    (isElemTok l && localNameOf l = "itemref".data) = true := by
  subst h
  have hname : localNameOf ("itemref".data ++ ' ' :: rest) = "itemref".data := by
    unfold localNameOf
    rw [tagNameOf_stop _ (by intro c hc; fin_cases hc <;> exact ⟨by decide, by decide⟩) rest]
    rfl
  have helem : isElemTok ("itemref".data ++ ' ' :: rest) = true := rfl
  refine ⟨isCloseOf_false_head _ _ _ (by decide), ?_, ?_, ?_⟩
  · rw [helem, hname]; rfl
  · rw [helem, hname]; rfl
  · rw [helem, hname]; rfl

/-- Every token of the manifest block is `item`-headed. -/
theorem manifestTok_shape (m : BookMetadata) (chs : List Chapter) (t : Tok)
    (ht : t ∈ addText "\n    " (manifestToks m chs)) :
    ∃ rest, tokChars t = "item".data ++ ' ' :: rest := by
  obtain ⟨t0, ht0, hin⟩ := addText_inner_mem _ _ t ht
  have hTC : tokChars t = t0.inner.data ++ '>' :: t.text.data := by
    rw [show tokChars t = t.inner.data ++ '>' :: t.text.data from rfl, hin]
  unfold manifestToks at ht0
  rcases List.mem_append.mp ht0 with h1 | h2
  · rcases List.mem_append.mp h1 with h3 | h4
    · rcases List.mem_cons.mp h3 with rfl | h5
      · exact ⟨_, by rw [hTC]; rfl⟩
      · rcases List.mem_cons.mp h5 with rfl | h6
        · exact ⟨_, by rw [hTC]; rfl⟩
        · simp at h6
    · cases hco : coverInfo m with
      | none => rw [hco] at h4; simp at h4
      | some p =>
        rw [hco] at h4
        obtain ⟨fn, b⟩ := p
        rcases List.mem_cons.mp h4 with rfl | h7
        · refine ⟨"id=\"cover-image\" href=\"images/".data ++ (fn.data ++
            ("\" media-type=\"".data ++ (m.coverMimeType.data ++
              ("\" properties=\"cover-image\" /".data ++ '>' :: t.text.data)))), ?_⟩
          rw [hTC]
          simp [String.data_append, List.append_assoc]
        · simp at h7
  · obtain ⟨j, hj⟩ := chapItemInners_mem chs 0 t0.inner (joinToksNl_mem _ t0 h2)
    rw [hj] at hTC
    refine ⟨"id=\"chap".data ++ ((natStr (j + 1)).data ++
      ("\" href=\"chapter_".data ++ ((natStr (j + 1)).data ++
        (".xhtml\" media-type=\"application/xhtml+xml\" /".data ++ '>' :: t.text.data)))), ?_⟩
    rw [hTC]
    unfold chapItemInner
    simp [String.data_append, List.append_assoc]

/-- Every token of the spine block is `itemref`-headed. -/
theorem spineTok_shape (chs : List Chapter) (t : Tok)
    (ht : t ∈ addText "\n    " (joinToksNl (spineItemInners 0 chs))) :
    ∃ rest, tokChars t = "itemref".data ++ ' ' :: rest := by
  obtain ⟨t0, ht0, hin⟩ := addText_inner_mem _ _ t ht
  have hTC : tokChars t = t0.inner.data ++ '>' :: t.text.data := by
    rw [show tokChars t = t.inner.data ++ '>' :: t.text.data from rfl, hin]
  obtain ⟨j, hj⟩ := spineItemInners_mem chs 0 t0.inner (joinToksNl_mem _ t0 ht0)
  rw [hj] at hTC
  refine ⟨"idref=\"chap".data ++ ((natStr (j + 1)).data ++
    ("\" /".data ++ '>' :: t.text.data)), ?_⟩
  rw [hTC]
  unfold spineItemInner
  simp [String.data_append, List.append_assoc]

/-- The metadata-chunk tokens, under their reusable name. -/
theorem metaChunk_pred (m : BookMetadata) (chs : List Chapter) (uuid now : String) :
    ∀ t ∈ opfMetaChunk m uuid now,
      (!(isElemTok (tokChars t) && localNameOf (tokChars t) = "manifest".data)) = true ∧
      (!(isElemTok (tokChars t) && localNameOf (tokChars t) = "spine".data)) = true :=
  metaChunk_not_section m uuid now

/-- The OPF token list split at the manifest element. -/
theorem opfToks_split_manifest (m : BookMetadata) (chs : List Chapter) (uuid now : String) :
    (opfToks m chs uuid now).map tokChars =
      ((opfMetaChunk m uuid now).map tokChars ++
        [tokChars { inner := "/metadata", text := "\n    " }]) ++
      tokChars { inner := "manifest", text := "\n        " } ::
        ((addText "\n    " (manifestToks m chs)).map tokChars ++
          tokChars { inner := "/manifest", text := "\n    " } ::
            tokChars { inner := "spine toc=\"ncx\"", text := "\n        " } ::
              ((addText "\n    " (joinToksNl (spineItemInners 0 chs))).map tokChars ++
                [tokChars { inner := "/spine", text := "\n" },
                 tokChars { inner := "/package", text := "" }])) := by
  simp [opfToks, opfMetaChunk, opfBaseToks, List.append_assoc]

/-- The manifest section of the generated OPF is exactly the manifest
block. -/
theorem sectionToks_manifest (m : BookMetadata) (chs : List Chapter) (uuid now : String) :
    sectionToks "manifest".data ((opfToks m chs uuid now).map tokChars) =
      (addText "\n    " (manifestToks m chs)).map tokChars := by
  rw [opfToks_split_manifest m chs uuid now]
  unfold sectionToks
  rw [dropWhile_append_stop _ ?ha _ ?hx _]
  case ha =>
    intro l hl
    rcases List.mem_append.mp hl with h1 | h2
    · obtain ⟨t0, ht0, rfl⟩ := List.mem_map.mp h1
      exact (metaChunk_pred m chs uuid now t0 ht0).1
    · rcases List.mem_cons.mp h2 with rfl | h3
      · rfl
      · simp at h3
  case hx =>
    intro hcon
    exact absurd hcon (by decide)
  rw [List.drop_one, List.tail_cons]
  rw [takeWhile_append_stop _ ?hb _ ?hy _]
  case hb =>
    intro l hl
    obtain ⟨t0, ht0, rfl⟩ := List.mem_map.mp hl
    obtain ⟨rest, hr⟩ := manifestTok_shape m chs t0 ht0
    have := (item_tok_facts _ rest hr).1
    simp [this]
  case hy =>
    intro hcon
    exact absurd hcon (by decide)

/-- The OPF token list split at the spine element. -/
theorem opfToks_split_spine (m : BookMetadata) (chs : List Chapter) (uuid now : String) :
    (opfToks m chs uuid now).map tokChars =
      (((opfMetaChunk m uuid now).map tokChars ++
          [tokChars { inner := "/metadata", text := "\n    " }]) ++
        tokChars { inner := "manifest", text := "\n        " } ::
          ((addText "\n    " (manifestToks m chs)).map tokChars ++
            [tokChars { inner := "/manifest", text := "\n    " }])) ++
      tokChars { inner := "spine toc=\"ncx\"", text := "\n        " } ::
        ((addText "\n    " (joinToksNl (spineItemInners 0 chs))).map tokChars ++
          [tokChars { inner := "/spine", text := "\n" },
           tokChars { inner := "/package", text := "" }]) := by
  simp [opfToks, opfMetaChunk, opfBaseToks, List.append_assoc]

/-- The spine section of the generated OPF is exactly the spine
block. -/
theorem sectionToks_spine (m : BookMetadata) (chs : List Chapter) (uuid now : String) :
    sectionToks "spine".data ((opfToks m chs uuid now).map tokChars) =
      (addText "\n    " (joinToksNl (spineItemInners 0 chs))).map tokChars := by
  rw [opfToks_split_spine m chs uuid now]
  unfold sectionToks
  rw [dropWhile_append_stop _ ?ha _ ?hx _]
  case ha =>
    intro l hl
    rcases List.mem_append.mp hl with h1 | h2
    · rcases List.mem_append.mp h1 with h3 | h4
      · obtain ⟨t0, ht0, rfl⟩ := List.mem_map.mp h3
        exact (metaChunk_pred m chs uuid now t0 ht0).2
      · rcases List.mem_cons.mp h4 with rfl | h5
        · rfl
        · simp at h5
    · rcases List.mem_cons.mp h2 with rfl | h3
      · rfl
      · rcases List.mem_append.mp h3 with h6 | h7
        · obtain ⟨t0, ht0, rfl⟩ := List.mem_map.mp h6
          obtain ⟨rest, hr⟩ := manifestTok_shape m chs t0 ht0
          exact (item_tok_facts _ rest hr).2.2.2.1
        · rcases List.mem_cons.mp h7 with rfl | h8
          · rfl
          · simp at h8
  case hx =>
    intro hcon
    exact absurd hcon (by decide)
  rw [List.drop_one, List.tail_cons]
  rw [takeWhile_append_stop _ ?hb _ ?hy _]
  case hb =>
    intro l hl
    obtain ⟨t0, ht0, rfl⟩ := List.mem_map.mp hl
    obtain ⟨rest, hr⟩ := spineTok_shape chs t0 ht0
    have := (itemref_tok_facts _ rest hr).1
    simp [this]
  case hy =>
    intro hcon
    exact absurd hcon (by decide)

/-- The `idref` attribute of a spine itemref tag. -/
theorem attrs_spineItem (j : Nat) :
    ((attrPairsAux (splitCharAux quotC (spineItemInner j).data [])).find?
      (fun p => p.1 = "idref".data)).map (fun p => p.2) =
      some ("chap".data ++ (natStr (j + 1)).data) := by
  have hdata : (spineItemInner j).data =
      "itemref idref=".data ++ quotC :: (("chap".data ++ (natStr (j + 1)).data) ++
        quotC :: " /".data) := by
    unfold spineItemInner
    rw [String.data_append, String.data_append]
    rw [show ("itemref idref=\"chap" : String).data =
      "itemref idref=".data ++ quotC :: "chap".data from by decide]
    rw [show ("\" /" : String).data = quotC :: " /".data from by decide]
    simp [List.append_assoc]
  rw [hdata]
  rw [splitQuoted _ (by decide) _ _]
  rw [splitQuoted _ ?hq _ _]
  case hq =>
    intro hmem
    rcases List.mem_append.mp hmem with h | h
    · exact absurd h (by decide)
    · obtain ⟨h1, h2⟩ := natStr_digits (j + 1) _ h
      exact (digit_ne _ h1 h2).2.2.1 rfl
  rw [splitLast _ _ (by decide)]
  simp [attrPairsAux, attrKeyOf, List.find?]
  exact ⟨_, rfl⟩

/-- The `id` and `href` attributes of a chapter manifest item tag. -/
theorem attrs_chapItem (j : Nat) :
    ((attrPairsAux (splitCharAux quotC (chapItemInner j).data [])).find?
      (fun p => p.1 = "id".data)).map (fun p => p.2) =
      some ("chap".data ++ (natStr (j + 1)).data) ∧
    ((attrPairsAux (splitCharAux quotC (chapItemInner j).data [])).find?
      (fun p => p.1 = "href".data)).map (fun p => p.2) =
      some ("chapter_".data ++ ((natStr (j + 1)).data ++ ".xhtml".data)) := by
  have hq : quotC ∉ "chap".data ++ (natStr (j + 1)).data := by
    intro hmem
    rcases List.mem_append.mp hmem with h | h
    · exact absurd h (by decide)
    · obtain ⟨h1, h2⟩ := natStr_digits (j + 1) _ h
      exact (digit_ne _ h1 h2).2.2.1 rfl
  have hq2 : quotC ∉ "chapter_".data ++ ((natStr (j + 1)).data ++ ".xhtml".data) := by
    intro hmem
    rcases List.mem_append.mp hmem with h | h
    · exact absurd h (by decide)
    · rcases List.mem_append.mp h with h3 | h3
      · obtain ⟨h1, h2⟩ := natStr_digits (j + 1) _ h3
        exact (digit_ne _ h1 h2).2.2.1 rfl
      · exact absurd h3 (by decide)
  have hdata : (chapItemInner j).data =
      "item id=".data ++ quotC :: (("chap".data ++ (natStr (j + 1)).data) ++
        quotC :: (" href=".data ++ quotC ::
          (("chapter_".data ++ ((natStr (j + 1)).data ++ ".xhtml".data)) ++
            quotC :: (" media-type=".data ++ quotC ::
              ("application/xhtml+xml".data ++ quotC :: " /".data))))) := by
    unfold chapItemInner
    simp only [String.data_append, List.append_assoc]
    rfl
  have hsplit : splitCharAux quotC (chapItemInner j).data [] =
      ["item id=".data, "chap".data ++ (natStr (j + 1)).data, " href=".data,
       "chapter_".data ++ ((natStr (j + 1)).data ++ ".xhtml".data),
       " media-type=".data, "application/xhtml+xml".data, " /".data] := by
    rw [hdata]
    rw [splitQuoted _ (by decide) _ _]
    rw [splitQuoted _ hq _ _]
    rw [splitQuoted _ (by decide) _ _]
    rw [splitQuoted _ hq2 _ _]
    rw [splitQuoted _ (by decide) _ _]
    rw [splitQuoted _ (by decide) _ _]
    rw [splitLast _ _ (by decide)]
    simp
  constructor
  · rw [hsplit]
    simp [attrPairsAux, attrKeyOf, List.find?]
    exact ⟨_, rfl⟩
  · rw [hsplit]
    simp [attrPairsAux, attrKeyOf, List.find?]
    exact ⟨_, rfl⟩

/-- The `id` and `href` attributes of the cover manifest item tag. -/
theorem attrs_coverItem (fn mime : String) (hqf : quotC ∉ fn.data) (hqm : quotC ∉ mime.data) :
    ((attrPairsAux (splitCharAux quotC
        ("item id=\"cover-image\" href=\"images/" ++ fn ++ "\" media-type=\"" ++ mime ++
          "\" properties=\"cover-image\" /").data [])).find?
      (fun p => p.1 = "id".data)).map (fun p => p.2) = some "cover-image".data ∧
    ((attrPairsAux (splitCharAux quotC
        ("item id=\"cover-image\" href=\"images/" ++ fn ++ "\" media-type=\"" ++ mime ++
          "\" properties=\"cover-image\" /").data [])).find?
      (fun p => p.1 = "href".data)).map (fun p => p.2) =
      some ("images/".data ++ fn.data) := by
  have hdata : ("item id=\"cover-image\" href=\"images/" ++ fn ++ "\" media-type=\"" ++ mime ++
      "\" properties=\"cover-image\" /").data =
      "item id=".data ++ quotC :: ("cover-image".data ++ quotC :: (" href=".data ++ quotC ::
        (("images/".data ++ fn.data) ++ quotC :: (" media-type=".data ++ quotC ::
          (mime.data ++ quotC :: (" properties=".data ++ quotC ::
            ("cover-image".data ++ quotC :: " /".data))))))) := by
    simp only [String.data_append, List.append_assoc]
    rfl
  have hsplit : splitCharAux quotC ("item id=\"cover-image\" href=\"images/" ++ fn ++
      "\" media-type=\"" ++ mime ++ "\" properties=\"cover-image\" /").data [] =
      ["item id=".data, "cover-image".data, " href=".data, "images/".data ++ fn.data,
       " media-type=".data, mime.data, " properties=".data, "cover-image".data, " /".data] := by
    rw [hdata]
    rw [splitQuoted _ (by decide) _ _]
    rw [splitQuoted _ (by decide) _ _]
    rw [splitQuoted _ (by decide) _ _]
    rw [splitQuoted _ (by
      intro hmem
      rcases List.mem_append.mp hmem with h | h
      · exact absurd h (by decide)
      · exact hqf h) _ _]
    rw [splitQuoted _ (by decide) _ _]
    rw [splitQuoted _ hqm _ _]
    rw [splitQuoted _ (by decide) _ _]
    rw [splitQuoted _ (by decide) _ _]
    rw [splitLast _ _ (by decide)]
    simp
  constructor
  · rw [hsplit]
    simp [attrPairsAux, attrKeyOf, List.find?]
    exact ⟨_, rfl⟩
  · rw [hsplit]
    simp [attrPairsAux, attrKeyOf, List.find?]
    exact ⟨_, rfl⟩

/-- `addText` keeps the tag-string sequence. -/
theorem addText_map_inner (s : String) : ∀ ts : List Tok,
    (addText s ts).map Tok.inner = ts.map Tok.inner := by
  intro ts
  induction ts with
  | nil => rfl
  | cons t0 r ih =>
    cases r with
    | nil => rfl
    | cons t1 r2 =>
      simp only [addText, List.map_cons]
      rw [show (addText s (t1 :: r2)).map Tok.inner = (t1 :: r2).map Tok.inner from ih]
      simp

/-- `joinToksNl` keeps the tag-string sequence. -/
theorem joinToksNl_map_inner : ∀ xs : List String,
    (joinToksNl xs).map Tok.inner = xs := by
  intro xs
  induction xs with
  | nil => rfl
  | cons x r ih =>
    cases r with
    | nil => rfl
    | cons y r2 =>
      simp only [joinToksNl, List.map_cons]
      rw [show (joinToksNl (y :: r2)).map Tok.inner = y :: r2 from ih]

/-- Attribute lookup on a recovered token only sees the tag part. -/
theorem getAttrTok_inner (name : List Char) (t : Tok) (h : '>' ∉ t.inner.data) :
    getAttrTok name (tokChars t) = attrOfTag name t.inner := by
  unfold getAttrTok attrOfTag
  rw [tagStrOf_tokChars t h]

/-- The spine idref extraction on the chapter itemref tags yields the
chapter ids. -/
theorem chapIds_of_spineInners : ∀ (chs : List Chapter) (i : Nat),
    List.filterMap (fun s => match attrOfTag "idref".data s with
      | some r => if r ≠ [] then some (⟨r⟩ : String) else none
      | none => none) (spineItemInners i chs) = chapIds i chs := by
  intro chs
  induction chs with
  | nil => intro i; rfl
  | cons c r ih =>
    intro i
    simp only [spineItemInners, List.filterMap_cons]
    rw [show attrOfTag "idref".data (spineItemInner i) =
      some ("chap".data ++ (natStr (i + 1)).data) from attrs_spineItem i]
    simp only []
    rw [if_pos (by simp)]
    rw [ih]
    rfl

/-- The spine idrefs of the generated OPF are the chapter ids, in
order. -/
theorem spineIdrefs_opf (m : BookMetadata) (chs : List Chapter) (uuid now : String) :
    spineIdrefs ((opfToks m chs uuid now).map tokChars) = chapIds 0 chs := by
  unfold spineIdrefs
  rw [sectionToks_spine]
  rw [List.filter_eq_self.mpr (by
    intro l hl
    obtain ⟨t0, ht0, rfl⟩ := List.mem_map.mp hl
    obtain ⟨rest, hr⟩ := spineTok_shape chs t0 ht0
    exact (itemref_tok_facts _ rest hr).2.2.2)]
  rw [List.filterMap_map]
  have hcg : List.filterMap ((fun t => match getAttrTok "idref".data t with
      | some r => if r ≠ [] then some (⟨r⟩ : String) else none
      | none => none) ∘ tokChars) (addText "\n    " (joinToksNl (spineItemInners 0 chs))) =
      List.filterMap ((fun s => match attrOfTag "idref".data s with
      | some r => if r ≠ [] then some (⟨r⟩ : String) else none
      | none => none) ∘ Tok.inner) (addText "\n    " (joinToksNl (spineItemInners 0 chs))) := by
    apply List.filterMap_congr
    intro t ht
    obtain ⟨t0, ht0, hin⟩ := addText_inner_mem _ _ t ht
    obtain ⟨j, hj⟩ := spineItemInners_mem chs 0 t0.inner (joinToksNl_mem _ t0 ht0)
    have hgt : '>' ∉ t.inner.data := by
      rw [hin, hj]
      exact (spineItemInner_no_structural j).2
    simp only [Function.comp]
    rw [getAttrTok_inner _ t hgt]
  rw [hcg]
  rw [← List.filterMap_map]
  rw [addText_map_inner, joinToksNl_map_inner]
  exact chapIds_of_spineInners chs 0

/-- The manifest-pair extraction on the chapter item tags yields the
chapter id/href pairs. -/
theorem chapPairs_of_chapInners : ∀ (chs : List Chapter) (i : Nat),
    List.filterMap (fun s =>
      match attrOfTag "id".data s, attrOfTag "href".data s with
      | some a, some h =>
        if a ≠ [] && h ≠ [] then some ((⟨a⟩ : String), (⟨h⟩ : String)) else none
      | _, _ => none) (chapItemInners i chs) = chapPairs i chs := by
  intro chs
  induction chs with
  | nil => intro i; rfl
  | cons c r ih =>
    intro i
    simp only [chapItemInners, List.filterMap_cons]
    rw [show attrOfTag "id".data (chapItemInner i) =
      some ("chap".data ++ (natStr (i + 1)).data) from (attrs_chapItem i).1]
    rw [show attrOfTag "href".data (chapItemInner i) =
      some ("chapter_".data ++ ((natStr (i + 1)).data ++ ".xhtml".data)) from
        (attrs_chapItem i).2]
    simp only []
    rw [if_pos (by simp)]
    rw [ih]
    rfl

/-- The manifest map of the generated OPF: the stylesheet and NCX
items, the optional cover item, then one pair per chapter, in order. -/
theorem manifestPairs_opf (m : BookMetadata) (chs : List Chapter) (uuid now : String)
    (hm1 : '<' ∉ m.coverMimeType.data) (hm2 : '>' ∉ m.coverMimeType.data)
    (hq : quotC ∉ m.coverMimeType.data) :
    manifestPairs ((opfToks m chs uuid now).map tokChars) =
      ([("style", "style.css"), ("ncx", "toc.ncx")] ++
        (match coverInfo m with
         | some (fn, _) => [("cover-image", "images/" ++ fn)]
         | none => []) ++ chapPairs 0 chs : List (String × String)) := by
  unfold manifestPairs
  rw [sectionToks_manifest]
  rw [List.filter_eq_self.mpr (by
    intro l hl
    obtain ⟨t0, ht0, rfl⟩ := List.mem_map.mp hl
    obtain ⟨rest, hr⟩ := manifestTok_shape m chs t0 ht0
    exact (item_tok_facts _ rest hr).2.2.2.2)]
  rw [List.filterMap_map]
  have hcg : List.filterMap ((fun t =>
      match getAttrTok "id".data t, getAttrTok "href".data t with
      | some a, some h =>
        if a ≠ [] && h ≠ [] then some ((⟨a⟩ : String), (⟨h⟩ : String)) else none
      | _, _ => none) ∘ tokChars) (addText "\n    " (manifestToks m chs)) =
      List.filterMap ((fun s =>
      match attrOfTag "id".data s, attrOfTag "href".data s with
      | some a, some h =>
        if a ≠ [] && h ≠ [] then some ((⟨a⟩ : String), (⟨h⟩ : String)) else none
      | _, _ => none) ∘ Tok.inner) (addText "\n    " (manifestToks m chs)) := by
    apply List.filterMap_congr
    intro t ht
    have hwf : tokWF t :=
      tokWF_addText _ (by decide) _ (tokWF_manifestToks m chs hm1 hm2) t ht
    simp only [Function.comp]
    rw [getAttrTok_inner _ t hwf.2.1, getAttrTok_inner _ t hwf.2.1]
  rw [hcg]
  rw [← List.filterMap_map]
  rw [addText_map_inner]
  have hmi : (manifestToks m chs).map Tok.inner =
      (["item id=\"style\" href=\"style.css\" media-type=\"text/css\"/",
        "item id=\"ncx\" href=\"toc.ncx\" media-type=\"application/x-dtbncx+xml\"/"] ++
       (match coverInfo m with
        | some (fn, _) =>
          ["item id=\"cover-image\" href=\"images/" ++ fn ++ "\" media-type=\"" ++
            m.coverMimeType ++ "\" properties=\"cover-image\" /"]
        | none => []) ++ chapItemInners 0 chs : List String) := by
    unfold manifestToks
    cases hco : coverInfo m with
    | none => simp [joinToksNl_map_inner]
    | some p =>
      obtain ⟨fn, b⟩ := p
      simp [joinToksNl_map_inner]
  rw [hmi]
  cases hco : coverInfo m with
  | none =>
    rw [List.filterMap_append, List.filterMap_append]
    rw [chapPairs_of_chapInners chs 0]
    rfl
  | some p =>
    obtain ⟨fn, b⟩ := p
    have hqf : quotC ∉ fn.data := by
      rw [coverInfo_name m fn b hco]
      intro hmem
      rw [String.data_append] at hmem
      rcases List.mem_append.mp hmem with h | h
      · exact absurd h (by decide)
      · rcases coverExt_mem m.coverMimeType _ h with h2 | h2
        · exact hq h2
        · exact absurd h2 (by decide)
    rw [List.filterMap_append, List.filterMap_append]
    rw [chapPairs_of_chapInners chs 0]
    have hc2 : List.filterMap (fun s =>
        match attrOfTag "id".data s, attrOfTag "href".data s with
        | some a, some h =>
          if a ≠ [] && h ≠ [] then some ((⟨a⟩ : String), (⟨h⟩ : String)) else none
        | _, _ => none)
        ["item id=\"cover-image\" href=\"images/" ++ fn ++ "\" media-type=\"" ++
          m.coverMimeType ++ "\" properties=\"cover-image\" /"] =
        [(("cover-image" : String), "images/" ++ fn)] := by
      simp only [List.filterMap_cons, List.filterMap_nil]
      rw [show attrOfTag "id".data ("item id=\"cover-image\" href=\"images/" ++ fn ++
        "\" media-type=\"" ++ m.coverMimeType ++ "\" properties=\"cover-image\" /") =
        some "cover-image".data from (attrs_coverItem fn m.coverMimeType hqf hq).1]
      rw [show attrOfTag "href".data ("item id=\"cover-image\" href=\"images/" ++ fn ++
        "\" media-type=\"" ++ m.coverMimeType ++ "\" properties=\"cover-image\" /") =
        some ("images/".data ++ fn.data) from (attrs_coverItem fn m.coverMimeType hqf hq).2]
      simp only []
      rw [if_pos (by simp)]
      rfl
    rw [hc2]
    rfl

/-- Chapter ids are injective in the position. -/
theorem chapId_inj {a b : Nat} (h : ("chap" ++ natStr a : String) = "chap" ++ natStr b) :
    a = b := by
  have hd : "chap".data ++ (natStr a).data = "chap".data ++ (natStr b).data := by
    have := congrArg String.data h
    simpa [String.data_append] using this
  exact natStr_inj (strEq _ _ (List.append_cancel_left hd))

/-- Chapter file names are injective in the position. -/
theorem chapName_inj {a b : Nat}
    (h : ("OEBPS/chapter_" ++ natStr a ++ ".xhtml" : String) =
      "OEBPS/chapter_" ++ natStr b ++ ".xhtml") : a = b := by
  have hd : ("OEBPS/chapter_".data ++ (natStr a).data) ++ ".xhtml".data =
      ("OEBPS/chapter_".data ++ (natStr b).data) ++ ".xhtml".data := by
    have := congrArg String.data h
    simpa [String.data_append, List.append_assoc] using this
  have h2 := List.append_cancel_right hd
  exact natStr_inj (strEq _ _ (List.append_cancel_left h2))

/-- Every chapter manifest pair carries a positional chapter id. -/
theorem chapPairs_mem : ∀ (chs : List Chapter) (i : Nat) (p : String × String),
    p ∈ chapPairs i chs → ∃ k, i ≤ k ∧
      p = ("chap" ++ natStr (k + 1), "chapter_" ++ natStr (k + 1) ++ ".xhtml") := by
  intro chs
  induction chs with
  | nil => intro i p hp; simp [chapPairs] at hp
  | cons c r ih =>
    intro i p hp
    rcases List.mem_cons.mp hp with rfl | hp2
    · exact ⟨i, Nat.le_refl i, rfl⟩
    · obtain ⟨k, hk1, hk2⟩ := ih (i + 1) p hp2
      exact ⟨k, by omega, hk2⟩

/-- Resolving a chapter id in the reversed chapter-pair list. -/
theorem find_chapPairs : ∀ (pre sub : List Chapter) (c : Chapter) (r : List Chapter)
    (i0 : Nat), sub = c :: r →
    List.find? (fun p => p.1 = "chap" ++ natStr (i0 + pre.length + 1))
      ((chapPairs i0 (pre ++ sub)).reverse) =
      some ("chap" ++ natStr (i0 + pre.length + 1),
        "chapter_" ++ natStr (i0 + pre.length + 1) ++ ".xhtml") := by
  intro pre
  induction pre with
  | nil =>
    intro sub c r i0 hsub
    subst hsub
    simp only [List.nil_append, chapPairs, List.length_nil, List.reverse_cons]
    rw [List.find?_append]
    have hnone : List.find? (fun p => p.1 = "chap" ++ natStr (i0 + 0 + 1))
        ((chapPairs (i0 + 1) r).reverse) = none := by
      rw [List.find?_eq_none]
      intro p hp
      obtain ⟨k, hk1, hk2⟩ := chapPairs_mem r (i0 + 1) p (List.mem_reverse.mp hp)
      rw [hk2]
      simp only [decide_eq_true_eq]
      intro hcon
      have := chapId_inj hcon
      omega
    rw [hnone]
    simp [List.find?]
  | cons p0 pr ih =>
    intro sub c r i0 hsub
    simp only [List.cons_append, chapPairs, List.length_cons, List.reverse_cons]
    rw [List.find?_append]
    simp only [List.append_eq]
    have hstep := ih sub c r (i0 + 1) hsub
    rw [show i0 + 1 + pr.length + 1 = i0 + (pr.length + 1) + 1 from by omega] at hstep
    rw [hstep]
    rfl
